import Mathlib

/-!
The package btc-multisig: M-of-N pay-to-script-hash addresses and spend transactions.

A shallow embedding of `multisig.go`, `transactions.go` and `utxo.go`.

* Byte strings are lists of naturals; a Go `nil` byte slice and an empty one are both `[]`.
* A Go function returning `(value, error)` is an `Except String` value; a method that mutates
  its receiver and returns `error` yields the new receiver paired with `Option String`
  (`none` is Go's `nil` error).
* The btcd collaborators with pure byte-level behaviour (`txscript.ScriptBuilder`,
  `PublicKey.SerializeCompressed`) are written out; cryptography, string codecs and address
  handling are fields of `Btcd`; `float64` arithmetic is a field set `Float64 F`;
  `sort.Slice` is a `SliceSorter`; the visiting order of a `range` over a Go map is a `MapOrder`.
-/

namespace BtcMultisig

/-- A byte slice. -/
abbrev Bytes := List Nat

/-- Equality of Go results is decidable when it is on values and errors. -/
instance instDecidableEqExcept {ε α : Type} [DecidableEq ε] [DecidableEq α] :
    DecidableEq (Except ε α)
  | .ok a, .ok b => if h : a = b then isTrue (by rw [h]) else isFalse (fun h2 => h (by cases h2; rfl))
  | .error a, .error b =>
    if h : a = b then isTrue (by rw [h]) else isFalse (fun h2 => h (by cases h2; rfl))
  | .ok _, .error _ => isFalse (fun h => by cases h)
  | .error _, .ok _ => isFalse (fun h => by cases h)

/-! ## txscript constants -/

def OP_0 : Nat := 0x00
def OP_FALSE : Nat := 0x00
def OP_DATA_1 : Nat := 0x01
def OP_PUSHDATA1 : Nat := 0x4c
def OP_PUSHDATA2 : Nat := 0x4d
def OP_PUSHDATA4 : Nat := 0x4e
def OP_1NEGATE : Nat := 0x4f
def OP_1 : Nat := 0x51
def OP_2 : Nat := 0x52
def OP_3 : Nat := 0x53
def OP_CHECKMULTISIG : Nat := 0xae
def MaxScriptSize : Nat := 10000
def MaxScriptElementSize : Nat := 520

/-! ## txscript.ScriptBuilder -/

/-- The builder of `txscript`: the script so far and the first error met. -/
structure ScriptBuilder where
  script : Bytes
  err : Option String
deriving DecidableEq, Repr

/-- The constructor `txscript.NewScriptBuilder()`. -/
def NewScriptBuilder : ScriptBuilder := ⟨[], none⟩

/-- The error every non-canonical push of the builder reports. -/
def ErrScriptNotCanonical : String := "script is not canonical"

/-- The method `AddOp`: append one opcode unless the script would pass `MaxScriptSize`. -/
def ScriptBuilder.AddOp (b : ScriptBuilder) (opcode : Nat) : ScriptBuilder :=
  match b.err with
  | some _ => b
  | none =>
    if b.script.length + 1 > MaxScriptSize then ⟨b.script, some ErrScriptNotCanonical⟩
    else ⟨b.script ++ [opcode], none⟩

/-- The helper `canonicalDataSize`: bytes a canonical push of `data` takes. -/
def canonicalDataSize (data : Bytes) : Nat :=
  let dataLen := data.length
  if dataLen = 0 then 1
  else if dataLen = 1 ∧ data.headD 0 ≤ 16 then 1
  else if dataLen = 1 ∧ data.headD 0 = 0x81 then 1
  else if dataLen < OP_PUSHDATA1 then 1 + dataLen
  else if dataLen ≤ 0xff then 2 + dataLen
  else if dataLen ≤ 0xffff then 3 + dataLen
  else 5 + dataLen

/-- Little-endian rendering of `v` on `k` bytes. -/
def littleEndian : Nat → Nat → Bytes
  | 0, _ => []
  | k + 1, v => v % 256 :: littleEndian k (v / 256)

/-- The unchecked `addData` of the builder: the canonical push of `data`. -/
def pushData (data : Bytes) : Bytes :=
  let dataLen := data.length
  if dataLen = 0 ∨ (dataLen = 1 ∧ data.headD 0 = 0) then [OP_0]
  else if dataLen = 1 ∧ data.headD 0 ≤ 16 then [(OP_1 - 1) + data.headD 0]
  else if dataLen = 1 ∧ data.headD 0 = 0x81 then [OP_1NEGATE]
  else if dataLen < OP_PUSHDATA1 then ((OP_DATA_1 - 1) + dataLen) :: data
  else if dataLen ≤ 0xff then OP_PUSHDATA1 :: dataLen :: data
  else if dataLen ≤ 0xffff then OP_PUSHDATA2 :: (littleEndian 2 dataLen ++ data)
  else OP_PUSHDATA4 :: (littleEndian 4 dataLen ++ data)

/-- The method `AddData`: a canonical data push, refused when the script would pass
`MaxScriptSize` or the element is longer than `MaxScriptElementSize`. -/
def ScriptBuilder.AddData (b : ScriptBuilder) (data : Bytes) : ScriptBuilder :=
  match b.err with
  | some _ => b
  | none =>
    if b.script.length + canonicalDataSize data > MaxScriptSize then
      ⟨b.script, some ErrScriptNotCanonical⟩
    else if data.length > MaxScriptElementSize then
      ⟨b.script, some ErrScriptNotCanonical⟩
    else ⟨b.script ++ pushData data, none⟩

/-- The method `Script`: the script built, or the first error. -/
def ScriptBuilder.Script (b : ScriptBuilder) : Except String Bytes :=
  match b.err with
  | some e => .error e
  | none => .ok b.script

/-! ## Keys -/

/-- A `btcec.PublicKey`: the affine coordinates of a curve point. -/
structure PublicKey where
  x : Nat
  y : Nat
deriving DecidableEq, Repr

/-- Big-endian rendering of `v` on `k` bytes. -/
def bigEndian (k v : Nat) : Bytes :=
  (littleEndian k v).reverse

/-- The method `SerializeCompressed`: `0x02` or `0x03` by the parity of `y`, then the 32 bytes
of `x`. -/
def PublicKey.SerializeCompressed (p : PublicKey) : Bytes :=
  (if p.y % 2 = 1 then 0x03 else 0x02) :: bigEndian 32 p.x

/-- The ledger identity of a key, `pubkey.X().String()`: the decimal digits of `x`. -/
def PublicKey.XString (p : PublicKey) : String :=
  Nat.repr p.x

/-- A `btcec.PrivateKey`: its scalar. -/
abbrev PrivateKey := Nat

/-- A `chaincfg.Params` network parameter set. -/
structure Params where
  Name : String
  ScriptHashAddrID : Nat
deriving DecidableEq, Repr

/-- A `btcutil.AddressScriptHash`. -/
structure AddressScriptHash where
  hash : Bytes
  netID : Nat
deriving DecidableEq, Repr

/-- A `txscript.SigHashType`. -/
abbrev SigHashType := Nat

/-! ## wire.MsgTx -/

structure OutPoint where
  Hash : Bytes
  Index : Nat
deriving DecidableEq, Repr

structure TxIn where
  PreviousOutPoint : OutPoint
  SignatureScript : Bytes
  Witness : List Bytes
  Sequence : Nat
deriving DecidableEq, Repr

structure TxOut where
  Value : Int
  PkScript : Bytes
deriving DecidableEq, Repr

structure MsgTx where
  Version : Int
  TxIn : List TxIn
  TxOut : List TxOut
  LockTime : Nat
deriving DecidableEq, Repr

def TxVersion : Int := 1
def MaxTxInSequenceNum : Nat := 0xffffffff

/-- The constructor `wire.NewMsgTx`. -/
def NewMsgTx (version : Int) : MsgTx := ⟨version, [], [], 0⟩

/-- The constructor `wire.NewTxIn(prevOut, nil, nil)`. -/
def NewTxIn (prevOut : OutPoint) (signatureScript : Bytes) (witness : List Bytes) : TxIn :=
  ⟨prevOut, signatureScript, witness, MaxTxInSequenceNum⟩

/-- The method `AddTxIn`. -/
def MsgTx.AddTxIn (msg : MsgTx) (ti : BtcMultisig.TxIn) : MsgTx :=
  ⟨msg.Version, msg.TxIn ++ [ti], msg.TxOut, msg.LockTime⟩

/-- The method `AddTxOut`. -/
def MsgTx.AddTxOut (msg : MsgTx) (txOut : BtcMultisig.TxOut) : MsgTx :=
  ⟨msg.Version, msg.TxIn, msg.TxOut ++ [txOut], msg.LockTime⟩

/-! ## External collaborators -/

/-- The btcd, btcec and encoding/hex functions the package calls and does not implement. -/
structure Btcd where
  /-- The type behind the `btcutil.Address` interface. -/
  Address : Type
  /-- Go hex.DecodeString. -/
  hexDecodeString : String → Except String Bytes
  /-- Go btcec.ParsePubKey. -/
  ParsePubKey : Bytes → Except String PublicKey
  /-- Go btcec.PrivKeyFromBytes. -/
  PrivKeyFromBytes : Bytes → PrivateKey
  /-- Go btcutil.DecodeWIF followed by the field `PrivKey`. -/
  DecodeWIF : String → Except String PrivateKey
  /-- Go PrivateKey.PubKey. -/
  PubKey : PrivateKey → PublicKey
  /-- Go btcutil.Hash160. -/
  Hash160 : Bytes → Bytes
  /-- Go btcutil.NewAddressScriptHashFromHash. -/
  NewAddressScriptHashFromHash : Bytes → Params → Except String AddressScriptHash
  /-- Go AddressScriptHash.EncodeAddress. -/
  EncodeAddress : AddressScriptHash → String
  /-- Go txscript.DisasmString. -/
  DisasmString : Bytes → Except String String
  /-- Go chainhash.NewHashFromStr. -/
  NewHashFromStr : String → Except String Bytes
  /-- Go btcutil.DecodeAddress. -/
  DecodeAddress : String → Params → Except String Address
  /-- Go txscript.PayToAddrScript. -/
  PayToAddrScript : Address → Except String Bytes
  /-- Go txscript.RawTxInSignature. -/
  RawTxInSignature : MsgTx → Nat → Bytes → SigHashType → PrivateKey → Except String Bytes

/-! ## multisig.go -/

structure MultiSigAddress where
  publicKeys : List PublicKey
  signaturesRequired : Int
  redeemScript : Bytes
  redeemHash : Bytes
  address : Option AddressScriptHash
  AddressEncoded : String
  RedeemScriptEncoded : String
  Network : Params
deriving DecidableEq, Repr

/-- The loop of `getPubKeys`: decode and parse every key string, stopping at the first
error. -/
def getPubKeys (lib : Btcd) : List String → Except String (List PublicKey)
  | [] => .ok []
  | x :: rest =>
    match lib.hexDecodeString x with
    | .error e => .error e
    | .ok pubKeyBytes =>
      match lib.ParsePubKey pubKeyBytes with
      | .error e => .error e
      | .ok pubKey =>
        match getPubKeys lib rest with
        | .error e => .error e
        | .ok pubKeys => .ok (pubKey :: pubKeys)

/-- The builder of `buildRedeemScript` after its calls: `OP_2`, one data push per key in
order, `OP_3`, `OP_CHECKMULTISIG`. -/
def redeemScriptBuilder (publicKeys : List PublicKey) : ScriptBuilder :=
  (((publicKeys.foldl (fun b x => b.AddData x.SerializeCompressed)
      (NewScriptBuilder.AddOp OP_2)).AddOp OP_3).AddOp OP_CHECKMULTISIG)

/-- The method `buildRedeemScript`: on success the address with `redeemScript` and
`redeemHash` set. -/
def MultiSigAddress.buildRedeemScript (lib : Btcd) (addr : MultiSigAddress) :
    Except String MultiSigAddress :=
  match (redeemScriptBuilder addr.publicKeys).Script with
  | .error e => .error e
  | .ok redeemScript =>
    .ok { addr with redeemScript := redeemScript, redeemHash := lib.Hash160 redeemScript }

/-- The constructor `NewMultiSigAddress(net, signaturesRequired, strPubKeys...)`. -/
def NewMultiSigAddress (lib : Btcd) (net : Params) (signaturesRequired : Int)
    (strPubKeys : List String) : Except String MultiSigAddress :=
  if signaturesRequired > (strPubKeys.length : Int) then
    .error "signaturesRequired moust be <= pubkeys length"
  else if signaturesRequired ≤ 0 then
    .error "invalid signaturesRequired parameter"
  else if (strPubKeys.length : Int) ≤ 0 ∨ (strPubKeys.length : Int) > 16 then
    .error "invalid number of pubkeys"
  else
    match getPubKeys lib strPubKeys with
    | .error e => .error e
    | .ok pubKey =>
      let addr : MultiSigAddress :=
        ⟨pubKey, signaturesRequired, [], [], none, "", "", net⟩
      match addr.buildRedeemScript lib with
      | .error e => .error e
      | .ok addr =>
        match lib.NewAddressScriptHashFromHash addr.redeemHash net with
        | .error e => .error e
        | .ok a =>
          match lib.DisasmString addr.redeemScript with
          | .error e => .error e
          | .ok s =>
            .ok { addr with address := some a, AddressEncoded := lib.EncodeAddress a,
                            RedeemScriptEncoded := s }

/-! ## utxo.go -/

/-- The `float64` operations the package uses, on a carrier `F`. -/
structure Float64 (F : Type) where
  /-- The zero value of a `float64` variable. -/
  zero : F
  /-- Go `a + b`. -/
  add : F → F → F
  /-- Go `a * b`. -/
  mul : F → F → F
  /-- Go `a < b`; `a > b` is `lt b a`. -/
  lt : F → F → Bool
  /-- The constant conversion of an integer literal. -/
  ofNat : Nat → F
  /-- Go `int64(a)`. -/
  toInt64 : F → Int

structure UTXO (F : Type) where
  Hash : String
  Vout : Int
  Amount : F
deriving DecidableEq, Repr

structure Output (F : Type) where
  Address : String
  Amount : F
deriving DecidableEq, Repr

/-! ## transactions.go -/

def SigHashOld : SigHashType := 0x0
def SigHashAll : SigHashType := 0x1
def SigHashNone : SigHashType := 0x2
def SigHashSingle : SigHashType := 0x3
def SigHashAnyOneCanPay : SigHashType := 0x80

/-- The value type of the map `signedCount`: `nil`, or a slice of signatures. -/
abbrev Signatures := Option (List Bytes)

/-- The map `signedCount`, held as its entries; keys are pairwise distinct in every map
built by `mapSet` from the empty one. -/
abbrev Ledger := List (String × Signatures)

/-- The assignment `m[k] = v` of a Go map. -/
def mapSet : Ledger → String → Signatures → Ledger
  | [], k, v => [(k, v)]
  | (k1, v1) :: rest, k, v => if k1 = k then (k, v) :: rest else (k1, v1) :: mapSet rest k v

/-- The lookup `m[k]` with its presence flag. -/
def mapGet : Ledger → String → Option Signatures
  | [], _ => none
  | (k1, v1) :: rest, k => if k1 = k then some v1 else mapGet rest k

/-- The order in which one `range` statement visits the entries of a map: any rearrangement
of the entries. -/
structure MapOrder where
  visit : Ledger → Ledger
  perm : ∀ m, (visit m).Perm m

structure SpendFromMultiSigTransaction where
  baseTX : MsgTx
  Address : MultiSigAddress
  signedCount : Ledger
deriving DecidableEq, Repr

/-- The outcome of a method call on a transaction. -/
inductive Run where
  /-- The call returned: the receiver afterwards and the returned `error`. -/
  | ret (tx : SpendFromMultiSigTransaction) (err : Option String)
  /-- The call stopped on an index out of range. -/
  | panic
deriving DecidableEq, Repr

/-- The function `totalInOutputSet`. -/
def totalInOutputSet {F : Type} (fo : Float64 F) (outputs : List (Output F)) : F :=
  outputs.foldl (fun total x => fo.add total x.Amount) fo.zero

/-- The function `balance`. -/
def balance {F : Type} (fo : Float64 F) (utxos : List (UTXO F)) : F :=
  utxos.foldl (fun total x => fo.add total x.Amount) fo.zero

/-- The function `amountInSats`. -/
def amountInSats {F : Type} (fo : Float64 F) (amount : F) : Int :=
  fo.toInt64 (fo.mul amount (fo.ofNat 100000000))

/-- The method `setPubKeys`. -/
def SpendFromMultiSigTransaction.setPubKeys (tx : SpendFromMultiSigTransaction) :
    SpendFromMultiSigTransaction :=
  { tx with signedCount :=
      tx.Address.publicKeys.foldl (fun m x => mapSet m x.XString none) tx.signedCount }

/-- The loop of `isSigned` over the entries. -/
def isSignedLoop (id : String) : Ledger → Option String
  | [] => some "the privkey provided is not valid for this transaction"
  | (x, y) :: rest =>
    if x = id then
      match y with
      | none => none
      | some _ => some "the transaction has already been signed with that private key"
    else isSignedLoop id rest

/-- The method `isSigned`. -/
def SpendFromMultiSigTransaction.isSigned (tx : SpendFromMultiSigTransaction)
    (pubKey : PublicKey) : Option String :=
  isSignedLoop pubKey.XString tx.signedCount

/-- The method `NumberOfSignaturesProvided`. -/
def SpendFromMultiSigTransaction.NumberOfSignaturesProvided
    (tx : SpendFromMultiSigTransaction) : Int :=
  tx.signedCount.foldl (fun count y => if y.2 ≠ none then count + 1 else count) 0

/-- The loop of `sign` over the input indices: the slice of signatures and the error that
stopped the loop. -/
def signLoop (lib : Btcd) (tx : SpendFromMultiSigTransaction) (sigType : SigHashType)
    (privkey : PrivateKey) : List Nat → List Bytes → List Bytes × Option String
  | [], sigs => (sigs, none)
  | i :: rest, sigs =>
    match lib.RawTxInSignature tx.baseTX i tx.Address.redeemScript sigType privkey with
    | .error e => (sigs, some e)
    | .ok signature => signLoop lib tx sigType privkey rest (sigs.set i signature)

/-- The method `sign`. -/
def SpendFromMultiSigTransaction.sign (lib : Btcd) (tx : SpendFromMultiSigTransaction)
    (privkey : PrivateKey) (sigType : SigHashType) :
    SpendFromMultiSigTransaction × Option String :=
  let pubkey := lib.PubKey privkey
  match tx.isSigned pubkey with
  | some err => (tx, some err)
  | none =>
    let r := signLoop lib tx sigType privkey (List.range tx.baseTX.TxIn.length)
      (List.replicate tx.baseTX.TxIn.length [])
    ({ tx with signedCount := mapSet tx.signedCount pubkey.XString (some r.1) }, r.2)

/-- The method `SignWithWIF`. -/
def SpendFromMultiSigTransaction.SignWithWIF (lib : Btcd) (tx : SpendFromMultiSigTransaction)
    (WIF : String) (sigType : SigHashType) : SpendFromMultiSigTransaction × Option String :=
  match lib.DecodeWIF WIF with
  | .error e => (tx, some e)
  | .ok privkey => tx.sign lib privkey sigType

/-- The method `Sign`. -/
def SpendFromMultiSigTransaction.Sign (lib : Btcd) (tx : SpendFromMultiSigTransaction)
    (privKey : String) (sigType : SigHashType) : SpendFromMultiSigTransaction × Option String :=
  match lib.hexDecodeString privKey with
  | .error e => (tx, some e)
  | .ok pkBytes => tx.sign lib (lib.PrivKeyFromBytes pkBytes) sigType

/-- The error of `BuildScript` and `buildRespectiveInputScript` below the threshold. -/
def missingSignatures (got required : Int) : String :=
  "missing signatures, got " ++ toString got ++ " of " ++ toString required ++ " required"

/-- The signature loop of `buildRespectiveInputScript`: one data push `x[inputIndex]` per
visited entry that is not `nil`; `none` when the index is out of range. -/
def pushSignatures (inputIndex : Nat) : Ledger → ScriptBuilder → Option ScriptBuilder
  | [], b => some b
  | (_, none) :: rest, b => pushSignatures inputIndex rest b
  | (_, some x) :: rest, b =>
    match x.get? inputIndex with
    | none => none
    | some sig => pushSignatures inputIndex rest (b.AddData sig)

/-- The assignment `tx.baseTX.TxIn[inputIndex].SignatureScript = script`. -/
def setSignatureScript (msg : MsgTx) (inputIndex : Nat) (script : Bytes) : MsgTx :=
  ⟨msg.Version, msg.TxIn.modify (fun ti => { ti with SignatureScript := script }) inputIndex,
    msg.TxOut, msg.LockTime⟩

/-- The method `buildRespectiveInputScript`; `ord` is the order in which its `range` visits
the ledger. -/
def SpendFromMultiSigTransaction.buildRespectiveInputScript (tx : SpendFromMultiSigTransaction)
    (ord : MapOrder) (inputIndex : Int) : Run :=
  if tx.NumberOfSignaturesProvided < tx.Address.signaturesRequired then
    .ret tx (some (missingSignatures tx.NumberOfSignaturesProvided tx.Address.signaturesRequired))
  else if inputIndex < 0 ∨ inputIndex ≥ (tx.baseTX.TxIn.length : Int) then
    .ret tx (some "ivalid input index")
  else
    match pushSignatures inputIndex.toNat (ord.visit tx.signedCount)
        (NewScriptBuilder.AddOp OP_FALSE) with
    | none => .panic
    | some scriptBuilder =>
      match (scriptBuilder.AddData tx.Address.redeemScript).Script with
      | .error e => .ret tx (some e)
      | .ok signatureSRC =>
        .ret { tx with baseTX := setSignatureScript tx.baseTX inputIndex.toNat signatureSRC } none

/-- The inner loop of `BuildScript`, `for input := range x`, for the `j`-th visited entry. -/
def buildInputsLoop (inner : Nat → MapOrder) :
    List Nat → SpendFromMultiSigTransaction → Run
  | [], tx => .ret tx none
  | input :: rest, tx =>
    match tx.buildRespectiveInputScript (inner input) (input : Int) with
    | .panic => .panic
    | .ret tx1 (some e) => .ret tx1 (some e)
    | .ret tx1 none => buildInputsLoop inner rest tx1

/-- The outer loop of `BuildScript`, `for _, x := range tx.signedCount`, from the `j`-th
visited entry on. -/
def buildEntriesLoop (inner : Nat → Nat → MapOrder) :
    Ledger → Nat → SpendFromMultiSigTransaction → Run
  | [], _, tx => .ret tx none
  | (_, x) :: rest, j, tx =>
    match buildInputsLoop (inner j) (List.range (x.elim 0 List.length)) tx with
    | .panic => .panic
    | .ret tx1 (some e) => .ret tx1 (some e)
    | .ret tx1 none => buildEntriesLoop inner rest (j + 1) tx1

/-- The method `BuildScript`; `outer` is the order of its own `range` over the ledger and
`inner j i` the order used by the call for input `i` made for the `j`-th visited entry. -/
def SpendFromMultiSigTransaction.BuildScript (tx : SpendFromMultiSigTransaction)
    (outer : MapOrder) (inner : Nat → Nat → MapOrder) : Run :=
  if tx.NumberOfSignaturesProvided < tx.Address.signaturesRequired then
    .ret tx (some (missingSignatures tx.NumberOfSignaturesProvided tx.Address.signaturesRequired))
  else buildEntriesLoop inner (outer.visit tx.signedCount) 0 tx

/-- One call of a method of a transaction by its owner. -/
inductive Call where
  | sign (privkey : PrivateKey) (sigType : SigHashType)
  | Sign (privKey : String) (sigType : SigHashType)
  | SignWithWIF (WIF : String) (sigType : SigHashType)
  | BuildScript (outer : MapOrder) (inner : Nat → Nat → MapOrder)

/-- The transaction after one call, whatever error the call returned; `none` when the call
stopped on an index out of range. -/
def Call.run (lib : Btcd) (tx : SpendFromMultiSigTransaction) :
    Call → Option SpendFromMultiSigTransaction
  | .sign privkey sigType => some (tx.sign lib privkey sigType).1
  | .Sign privKey sigType => some (tx.Sign lib privKey sigType).1
  | .SignWithWIF WIF sigType => some (tx.SignWithWIF lib WIF sigType).1
  | .BuildScript outer inner =>
    match tx.BuildScript outer inner with
    | .ret tx1 _ => some tx1
    | .panic => none

/-- The transaction after a sequence of calls. -/
def runCalls (lib : Btcd) : SpendFromMultiSigTransaction → List Call →
    Option SpendFromMultiSigTransaction
  | tx, [] => some tx
  | tx, c :: rest =>
    match c.run lib tx with
    | some tx1 => runCalls lib tx1 rest
    | none => none

/-- The order in which `sort.Slice` leaves a slice of UTXOs under the comparison
`unspentInputs[i].Amount > unspentInputs[j].Amount`: a rearrangement in which no element is
followed by one the comparison puts before it. -/
structure SliceSorter {F : Type} (fo : Float64 F) where
  sort : List (UTXO F) → List (UTXO F)
  perm : ∀ l, (sort l).Perm l
  sorted : ∀ l, (sort l).Pairwise (fun a b => fo.lt a.Amount b.Amount = false)

/-- The selection loop of `selectUtxos`: at index `i` with running total `sum`. -/
def selectLoop {F : Type} (fo : Float64 F) (totalToSend : F) (unspentInputs : List (UTXO F)) :
    List (UTXO F) → Nat → F → List (UTXO F)
  | [], _, _ => []
  | x :: rest, i, sum =>
    if fo.lt totalToSend (fo.add sum x.Amount) then unspentInputs.take i
    else selectLoop fo totalToSend unspentInputs rest (i + 1) (fo.add sum x.Amount)

/-- The function `selectUtxos`. -/
def selectUtxos {F : Type} (fo : Float64 F) (srt : SliceSorter fo)
    (unspentInputs : List (UTXO F)) (outputs : List (Output F)) : List (UTXO F) :=
  selectLoop fo (totalInOutputSet fo outputs) (srt.sort unspentInputs) (srt.sort unspentInputs)
    0 fo.zero

/-- The input loop of `NewSpendFromMultiSigTransaction`. -/
def addInputs {F : Type} (lib : Btcd) : List (UTXO F) → MsgTx → Except String MsgTx
  | [], msgtx => .ok msgtx
  | x :: rest, msgtx =>
    match lib.NewHashFromStr x.Hash with
    | .error _ => .error "unexpected utxo hash: <nil>"
    | .ok utxoHash =>
      addInputs lib rest
        (msgtx.AddTxIn (NewTxIn ⟨utxoHash, (x.Vout % 4294967296).toNat⟩ [] []))

/-- The output loop of `NewSpendFromMultiSigTransaction`. -/
def addOutputs {F : Type} (lib : Btcd) (fo : Float64 F) (net : Params) :
    List (Output F) → MsgTx → Except String MsgTx
  | [], msgtx => .ok msgtx
  | x :: rest, msgtx =>
    match lib.DecodeAddress x.Address net with
    | .error _ => .error ("unexpected destination address: " ++ x.Address)
    | .ok addressDecoded =>
      match lib.PayToAddrScript addressDecoded with
      | .error e => .error e
      | .ok addrBytes =>
        addOutputs lib fo net rest (msgtx.AddTxOut ⟨amountInSats fo x.Amount, addrBytes⟩)

/-- The constructor `NewSpendFromMultiSigTransaction`. -/
def NewSpendFromMultiSigTransaction {F : Type} (lib : Btcd) (fo : Float64 F)
    (multisigAddress : MultiSigAddress) (utxos : List (UTXO F)) (outputs : List (Output F)) :
    Except String SpendFromMultiSigTransaction :=
  if fo.lt (balance fo utxos) (totalInOutputSet fo outputs) then
    .error "not enough balance to create the transaction"
  else
    match addInputs lib utxos (NewMsgTx TxVersion) with
    | .error e => .error e
    | .ok msgtx =>
      match addOutputs lib fo multisigAddress.Network outputs msgtx with
      | .error e => .error e
      | .ok msgtx =>
        .ok (SpendFromMultiSigTransaction.setPubKeys ⟨msgtx, multisigAddress, []⟩)

/-- The constructor `NewSpendFromMultiSigTransactionWithUtxoSelection`. -/
def NewSpendFromMultiSigTransactionWithUtxoSelection {F : Type} (lib : Btcd) (fo : Float64 F)
    (srt : SliceSorter fo) (multisigAddress : MultiSigAddress) (utxos : List (UTXO F))
    (outputs : List (Output F)) : Except String SpendFromMultiSigTransaction :=
  NewSpendFromMultiSigTransaction lib fo multisigAddress (selectUtxos fo srt utxos outputs)
    outputs

/-- The transactions a program can hold: built by the two constructors, then changed by
any calls of the methods. -/
inductive Reachable (lib : Btcd) : SpendFromMultiSigTransaction → Prop where
  | new {F : Type} (fo : Float64 F) (net : Params) (signaturesRequired : Int)
      (strPubKeys : List String) (addr : MultiSigAddress) (utxos : List (UTXO F))
      (outputs : List (Output F)) (tx : SpendFromMultiSigTransaction) :
      NewMultiSigAddress lib net signaturesRequired strPubKeys = .ok addr →
      NewSpendFromMultiSigTransaction lib fo addr utxos outputs = .ok tx →
      Reachable lib tx
  | call (tx tx1 : SpendFromMultiSigTransaction) (c : Call) :
      Reachable lib tx → c.run lib tx = some tx1 → Reachable lib tx1

/-- The unlocking script of input `inputIndex`, if the transaction has that input. -/
def scriptAt (tx : SpendFromMultiSigTransaction) (inputIndex : Nat) : Option Bytes :=
  (tx.baseTX.TxIn.get? inputIndex).map (fun ti => ti.SignatureScript)

/-! ## The data of `examples/main.go` and stand-ins for the collaborators -/

/-- The value of one hexadecimal digit. -/
def hexDigit (c : Char) : Option Nat :=
  if c.toNat ≥ 48 ∧ c.toNat ≤ 57 then some (c.toNat - 48)
  else if c.toNat ≥ 97 ∧ c.toNat ≤ 102 then some (c.toNat - 87)
  else if c.toNat ≥ 65 ∧ c.toNat ≤ 70 then some (c.toNat - 55)
  else none

/-- Hexadecimal decoding of a list of characters, two digits per byte. -/
def hexDecodeChars : List Char → Except String Bytes
  | [] => .ok []
  | [_] => .error "encoding/hex: odd length hex string"
  | a :: b :: rest =>
    match hexDigit a, hexDigit b, hexDecodeChars rest with
    | some h, some l, .ok bs => .ok ((16 * h + l) :: bs)
    | _, _, _ => .error "encoding/hex: invalid byte"

/-- The key `pubKey1` of `examples/main.go`, the public key of `privKey1`. -/
def pubKey1 : PublicKey :=
  ⟨0x34bb639abd8f8a108013674a6d90582189afd06fc529147a854ec4dc43565e4f,
   0xc71268b905fd3bbcaf1c8e90dacb58182023ea81e2a30005061663f3cb587ed8⟩

/-- The public key of `wif2String` of `examples/main.go`. -/
def pubKey2 : PublicKey :=
  ⟨0xbc50bc36da04ec132b6e4a3d01d54aa1d2d88c0aafa7246f51ead321853a0010,
   0xb518ad818b2ef3dd071be2ba34c6534fa21560e895eeef6386cd5a78e53e7487⟩

/-- The key `pubKey3` of `examples/main.go`. -/
def pubKey3 : PublicKey :=
  ⟨0x2f07d5d42600587f01c9fd432a2ece38a66e7f56789e98fb11507d1a70efddf2,
   0xcfa256a93df3c9003b0b68b0314ee7427cc472f3146552fc85e601a0a15297f6⟩

/-- The opposite point of `pubKey1`: same `x`, `y` replaced by `p - y`. It is the public key
of `negPrivKey1`. -/
def negPubKey1 : PublicKey :=
  ⟨0x34bb639abd8f8a108013674a6d90582189afd06fc529147a854ec4dc43565e4f,
   0x38ed9746fa02c44350e3716f2534a7e7dfdc157e1d5cfffaf9e99c0b34a77d57⟩

def pubKey1Hex : String := "0234bb639abd8f8a108013674a6d90582189afd06fc529147a854ec4dc43565e4f"
def pubKey2Hex : String := "03bc50bc36da04ec132b6e4a3d01d54aa1d2d88c0aafa7246f51ead321853a0010"
def pubKey3Hex : String := "022f07d5d42600587f01c9fd432a2ece38a66e7f56789e98fb11507d1a70efddf2"

/-- The scalar of `privKey1` of `examples/main.go`. -/
def privKey1 : PrivateKey := 0x9a7026f99a0452991d675cad5cf8ec4a1cba046cbc67f41f8b9fccdd993328a8

def privKey1Hex : String := "9a7026f99a0452991d675cad5cf8ec4a1cba046cbc67f41f8b9fccdd993328a8"

/-- The scalar `n - privKey1`, with `n` the order of secp256k1. -/
def negPrivKey1 : PrivateKey :=
  0x658fd90665fbad66e298a352a30713b49df4d879f2e0ac1c343291af37031899

def negPrivKey1Hex : String :=
  "658fd90665fbad66e298a352a30713b49df4d879f2e0ac1c343291af37031899"

/-- The scalar encoded by `wif2String`. -/
def privKey2 : PrivateKey := 0xa96ef9ea0900fbc3cf11e221c0f73044016d7fd3ea6ec0c9d53589d91168fe51

def wif2String : String := "cTG4L8A7QAr5FyhwW2sYg35ydGLTs8o19ypnBoNhzubKdLpwBZBN"

/-- The generator of secp256k1, the public key of the scalar 1. -/
def generator : PublicKey :=
  ⟨0x79be667ef9dcbbac55a06295ce870b07029bfcdb2dce28d959f2815b16f81798,
   0x483ada7726a3c4655da4fbfc0e1108a8fd17b448a68554199c47d08ffb10d4b8⟩

/-- The network `BTC_TESNET`. -/
def BTC_TESNET : Params := ⟨"testnet3", 0xc4⟩

/-- Stand-ins for the collaborators, used to run the package on concrete inputs. Hex decoding,
the serialized-key table, the scalar-to-point table and the hash length check are those of
the libraries on the keys above (any other scalar is sent to a placeholder point); digests,
signatures and address strings are placeholders of the right shape (a 20-byte digest, one
signature per call). -/
def exampleLib : Btcd where
  Address := String
  hexDecodeString := fun s => hexDecodeChars s.data
  ParsePubKey := fun b =>
    match [pubKey1, pubKey2, pubKey3, negPubKey1].find? (fun k => k.SerializeCompressed = b) with
    | some k => .ok k
    | none => .error "malformed public key"
  PrivKeyFromBytes := fun b => b.foldl (fun v d => 256 * v + d) 0
  DecodeWIF := fun s => if s = wif2String then .ok privKey2 else .error "malformed private key"
  PubKey := fun d =>
    if d = privKey1 then pubKey1 else if d = negPrivKey1 then negPubKey1
    else if d = privKey2 then pubKey2 else if d = 1 then generator else ⟨d, d⟩
  Hash160 := fun s => bigEndian 20 (s.foldl (fun h b => (257 * h + b + 1) % 2 ^ 160) 0)
  NewAddressScriptHashFromHash := fun h net =>
    if h.length = 20 then .ok ⟨h, net.ScriptHashAddrID⟩
    else .error "scriptHash must be 20 bytes"
  EncodeAddress := fun a => String.mk (a.hash.map Char.ofNat)
  DisasmString := fun s => .ok (String.mk (s.map Char.ofNat))
  NewHashFromStr := fun s =>
    match hexDecodeChars s.data with
    | .ok b => if b.length = 32 then .ok b.reverse else .error "invalid hash length"
    | .error e => .error e
  DecodeAddress := fun s _ => if s = "" then .error "decoded address is of unknown format" else .ok s
  PayToAddrScript := fun s => .ok (s.data.map Char.toNat)
  RawTxInSignature := fun msg idx _ hashType key =>
    if idx < msg.TxIn.length then .ok [0x30, idx % 256, key % 256, hashType % 256]
    else .error "idx out of range"

/-- Integer arithmetic, with which `float64` agrees on whole amounts below `2^53`. -/
def wholeFloat64 : Float64 Int where
  zero := 0
  add := fun a b => a + b
  mul := fun a b => a * b
  lt := fun a b => decide (a < b)
  ofNat := fun n => (n : Int)
  toInt64 := fun a => a

/-- The comparison of `selectUtxos` on whole amounts, as an order for insertion sort. -/
def amountGe (a b : UTXO Int) : Prop := b.Amount ≤ a.Amount

instance amountGe.decidable : DecidableRel amountGe :=
  fun a b => inferInstanceAs (Decidable (b.Amount ≤ a.Amount))

instance amountGe.isTotal : IsTotal (UTXO Int) amountGe :=
  ⟨fun a b => le_total b.Amount a.Amount⟩

instance amountGe.isTrans : IsTrans (UTXO Int) amountGe :=
  ⟨fun _ _ _ hab hbc => le_trans hbc hab⟩

/-- Insertion sort by amount, largest first: what `sort.Slice` does on short slices. -/
def insertionSorter : SliceSorter wholeFloat64 where
  sort := fun l => l.insertionSort amountGe
  perm := fun l => List.perm_insertionSort amountGe l
  sorted := fun l => (List.sorted_insertionSort amountGe l).imp (by
    intro a b h
    simpa [wholeFloat64, amountGe] using h)

/-- The visiting order that follows the stored entries. -/
def storedOrder : MapOrder := ⟨fun m => m, fun m => List.Perm.refl m⟩

/-- The visiting order that starts at the second entry and wraps around. -/
def rotatedOrder : MapOrder := ⟨fun m => m.rotate 1, fun m => List.rotate_perm m 1⟩

/-- The script the specification asks of the Redeem Script Builder: the push-`t` opcode, the
keys pushed in order, the push-`n` opcode, `OP_CHECKMULTISIG`. -/
def specRedeemScript (t : Nat) (publicKeys : List PublicKey) : Bytes :=
  [(OP_1 - 1) + t] ++ (publicKeys.map (fun x => pushData x.SerializeCompressed)).flatten ++
    [(OP_1 - 1) + publicKeys.length, OP_CHECKMULTISIG]

/-- The signatures for input `inputIndex` held by the entries that are not `nil`, in the
order of the entries. -/
def signaturesFor (inputIndex : Nat) : Ledger → List Bytes
  | [] => []
  | (_, none) :: rest => signaturesFor inputIndex rest
  | (_, some x) :: rest => x.getD inputIndex [] :: signaturesFor inputIndex rest

/-- The unlocking script the specification asks of the Script Assembler: an empty element,
each signature pushed, the redeem script pushed as one element. -/
def unlockingScript (signatures : List Bytes) (redeemScript : Bytes) : Bytes :=
  [OP_0] ++ (signatures.map pushData).flatten ++ pushData redeemScript

/-- The signatures for input `inputIndex` in the order in which their keys appear in the
key set of the address. -/
def signaturesInKeyOrder (tx : SpendFromMultiSigTransaction) (inputIndex : Nat) : List Bytes :=
  tx.Address.publicKeys.filterMap (fun pk =>
    match mapGet tx.signedCount pk.XString with
    | some (some x) => x.get? inputIndex
    | _ => none)

/-- The UTXO of `examples/main.go`, with a whole amount. -/
def exampleUtxos : List (UTXO Int) :=
  [⟨"0ca18dcf29376482d6543660e0a1d734b2455f4f2309aacd8eec4024606f1300", 1, 20⟩]

/-- The outputs of `examples/main.go`, with whole amounts. -/
def exampleOutputs : List (Output Int) :=
  [⟨"mxVFsFW5N4mu1HPkxPttorvocvzeZ7KZyk", 15⟩, ⟨"2NBvH4xmZYTPyDpotHWzHFy1QwY2G5C6HKP", 1⟩]

/-- The 2-of-3 address of `examples/main.go`. -/
def exampleAddress : Except String MultiSigAddress :=
  NewMultiSigAddress exampleLib BTC_TESNET 2 [pubKey1Hex, pubKey2Hex, pubKey3Hex]

/-- The transaction of `examples/main.go`, before any signature. -/
def exampleTx : Except String SpendFromMultiSigTransaction :=
  exampleAddress.bind (fun addr =>
    NewSpendFromMultiSigTransaction exampleLib wholeFloat64 addr exampleUtxos exampleOutputs)

/-- The transaction with no input, no output and no key. -/
def emptyTx : SpendFromMultiSigTransaction :=
  ⟨NewMsgTx TxVersion, ⟨[], 0, [], [], none, "", "", BTC_TESNET⟩, []⟩

/-- The value of a result, `d` when it is an error. -/
def valueOr {α : Type} (r : Except String α) (d : α) : α :=
  match r with
  | .ok a => a
  | .error _ => d

/-- The transaction of `examples/main.go` as a value. -/
def tx0 : SpendFromMultiSigTransaction := valueOr exampleTx emptyTx

/-- The transaction of `examples/main.go` after `Sign(privKey1, SigHashAll)`. -/
def tx1 : SpendFromMultiSigTransaction := (tx0.Sign exampleLib privKey1Hex SigHashAll).1

/-- The transaction of `examples/main.go` after its two signatures. -/
def tx2 : SpendFromMultiSigTransaction := (tx1.SignWithWIF exampleLib wif2String SigHashAll).1

/-- The calls `SignWithWIF`, `BuildScript` and a signature by a key outside the address. -/
def exampleCalls : List Call :=
  [.SignWithWIF wif2String SigHashAll, .BuildScript storedOrder (fun _ _ => storedOrder),
   .sign 1 SigHashNone]

/-- The transaction `tx1` after `exampleCalls`. -/
def tx3 : SpendFromMultiSigTransaction := (runCalls exampleLib tx1 exampleCalls).getD emptyTx

/-- A 1-of-16 address: sixteen times the key `pubKey1`. -/
def wideAddress : MultiSigAddress :=
  valueOr (NewMultiSigAddress exampleLib BTC_TESNET 1 (List.replicate 16 pubKey1Hex))
    emptyTx.Address

/-- A transaction spending from `wideAddress`. -/
def wideTx0 : SpendFromMultiSigTransaction :=
  valueOr (NewSpendFromMultiSigTransaction exampleLib wholeFloat64 wideAddress exampleUtxos
    exampleOutputs) emptyTx

/-- The transaction `wideTx0` after `Sign(privKey1, SigHashAll)`. -/
def wideTx1 : SpendFromMultiSigTransaction := (wideTx0.Sign exampleLib privKey1Hex SigHashAll).1

/-- The transaction `tx2` after a `BuildScript` whose inner loops visit the ledger from its
second entry. -/
def tx2Built : SpendFromMultiSigTransaction :=
  match tx2.BuildScript storedOrder (fun _ _ => rotatedOrder) with
  | .ret t _ => t
  | .panic => emptyTx

/-! ## Predicates of the proofs -/

/-- What `BuildScript` needs of a transaction to assemble every input: the threshold is met,
every signed entry has one signature of at most 73 bytes per input, the ledger has at most
16 entries and the redeem script fits in one pushed element. -/
def Assemblable (tx : SpendFromMultiSigTransaction) : Prop :=
  tx.Address.signaturesRequired ≤ tx.NumberOfSignaturesProvided ∧
  (∀ e ∈ tx.signedCount, ∀ x, e.2 = some x →
    x.length = tx.baseTX.TxIn.length ∧ ∀ s ∈ x, s.length ≤ 73) ∧
  tx.signedCount.length ≤ 16 ∧
  tx.Address.redeemScript.length ≤ MaxScriptElementSize

/-- The transaction after `buildRespectiveInputScript` has assembled input `inputIndex`
from the entries in the order `visited`. -/
def withAssembledInput (tx : SpendFromMultiSigTransaction) (visited : Ledger)
    (inputIndex : Nat) : SpendFromMultiSigTransaction :=
  ⟨setSignatureScript tx.baseTX inputIndex
      (unlockingScript (signaturesFor inputIndex visited) tx.Address.redeemScript),
    tx.Address, tx.signedCount⟩

/-- What every constructor and method keeps true of a transaction: a positive threshold, at
most 16 keys, a redeem script of 3 bytes plus 34 per key, one signature per input in every
signed entry, and no more entries than keys. -/
def WellFormed (tx : SpendFromMultiSigTransaction) : Prop :=
  1 ≤ tx.Address.signaturesRequired ∧
  tx.Address.publicKeys.length ≤ 16 ∧
  tx.Address.redeemScript.length = 3 + 34 * tx.Address.publicKeys.length ∧
  (∀ e ∈ tx.signedCount, ∀ x, e.2 = some x → x.length = tx.baseTX.TxIn.length) ∧
  tx.signedCount.length ≤ tx.Address.publicKeys.length

/-- Every signature recorded in the ledger has at most `n` bytes. -/
def SignaturesWithin (n : Nat) (tx : SpendFromMultiSigTransaction) : Prop :=
  ∀ e ∈ tx.signedCount, ∀ x, e.2 = some x → ∀ s ∈ x, s.length ≤ n

/-- Every signature `RawTxInSignature` returns has at most `n` bytes. -/
def SignsWithin (n : Nat) (lib : Btcd) : Prop :=
  ∀ (msg : MsgTx) (idx : Nat) (subScript : Bytes) (hashType : SigHashType) (key : PrivateKey)
    (s : Bytes), lib.RawTxInSignature msg idx subScript hashType key = .ok s → s.length ≤ n

/-- The 2-of-3 address of `examples/main.go` as a value. -/
def exampleAddressValue : MultiSigAddress := valueOr exampleAddress emptyTx.Address

/-! ## Further data and predicates -/

/-- The message of a transaction with every unlocking script erased: its version, the
previous-output references, witnesses and sequences of its inputs, its outputs and its
lock time. -/
def withoutScripts (msg : MsgTx) : MsgTx :=
  ⟨msg.Version,
    msg.TxIn.map (fun ti => ⟨ti.PreviousOutPoint, [], ti.Witness, ti.Sequence⟩),
    msg.TxOut, msg.LockTime⟩

/-- Every signed entry of the ledger has one slot per input of the transaction. -/
def LedgerFits (tx : SpendFromMultiSigTransaction) : Prop :=
  ∀ e ∈ tx.signedCount, ∀ x, e.2 = some x → x.length = tx.baseTX.TxIn.length

/-- The keys of a ledger, in the order of its entries. -/
def ledgerKeys (m : Ledger) : List String := m.map Prod.fst

/-- What `NewSpendFromMultiSigTransaction` makes of one UTXO: an input on the parsed hash and
the index converted to `uint32`, with no unlocking script, no witness and the final
sequence number. -/
def inputOf (lib : Btcd) {F : Type} (x : UTXO F) (ti : TxIn) : Prop :=
  lib.NewHashFromStr x.Hash = .ok ti.PreviousOutPoint.Hash ∧
  (ti.PreviousOutPoint.Index : Int) = x.Vout % 4294967296 ∧
  ti.SignatureScript = [] ∧ ti.Witness = [] ∧ ti.Sequence = MaxTxInSequenceNum

/-- What `NewSpendFromMultiSigTransaction` makes of one payment target: an output on the
locking script of the decoded address, with the amount in the smallest unit. -/
def outputOf (lib : Btcd) {F : Type} (fo : Float64 F) (net : Params) (x : Output F)
    (txOut : TxOut) : Prop :=
  (∃ a, lib.DecodeAddress x.Address net = .ok a ∧ lib.PayToAddrScript a = .ok txOut.PkScript) ∧
  txOut.Value = amountInSats fo x.Amount

/-- A UTXO of `examples/main.go` whose index is written as -1. -/
def negativeVoutUtxos : List (UTXO Int) :=
  [⟨"0ca18dcf29376482d6543660e0a1d734b2455f4f2309aacd8eec4024606f1300", -1, 20⟩]

/-- Three UTXOs of amounts 5, 3 and 2 on the transaction of `examples/main.go`. -/
def threeUtxos : List (UTXO Int) :=
  [⟨"0ca18dcf29376482d6543660e0a1d734b2455f4f2309aacd8eec4024606f1300", 0, 5⟩,
   ⟨"0ca18dcf29376482d6543660e0a1d734b2455f4f2309aacd8eec4024606f1300", 1, 3⟩,
   ⟨"0ca18dcf29376482d6543660e0a1d734b2455f4f2309aacd8eec4024606f1300", 2, 2⟩]

/-- One payment of 4 to the destination of `examples/main.go`. -/
def payFour : List (Output Int) := [⟨"mxVFsFW5N4mu1HPkxPttorvocvzeZ7KZyk", 4⟩]

/-- One payment of 8 to the destination of `examples/main.go`. -/
def payEight : List (Output Int) := [⟨"mxVFsFW5N4mu1HPkxPttorvocvzeZ7KZyk", 8⟩]

/-- The calls of `examples/main.go` from the unsigned transaction on: `Sign`, then
`exampleCalls`. -/
def exampleCalls0 : List Call := .Sign privKey1Hex SigHashAll :: exampleCalls

/-- The transaction the selecting constructor builds from `threeUtxos` for `payEight`. -/
def selectedTx : SpendFromMultiSigTransaction :=
  valueOr (NewSpendFromMultiSigTransactionWithUtxoSelection exampleLib wholeFloat64
    insertionSorter exampleAddressValue threeUtxos payEight) emptyTx

/-- One payment of 20 to the destination of `examples/main.go`. -/
def payTwenty : List (Output Int) := [⟨"mxVFsFW5N4mu1HPkxPttorvocvzeZ7KZyk", 20⟩]

/-- What `buildRespectiveInputScript` needs to assemble input `i`, whatever the order in
which it visits the ledger: the threshold is met, the input exists, every signed entry has a
slot for it, no pushed element is longer than `MaxScriptElementSize` and the whole script
fits in `MaxScriptSize`. -/
def CanAssemble (tx : SpendFromMultiSigTransaction) (i : Nat) : Prop :=
  ¬ tx.NumberOfSignaturesProvided < tx.Address.signaturesRequired ∧
  i < tx.baseTX.TxIn.length ∧
  (∀ e ∈ tx.signedCount, ∀ x, e.2 = some x → i < x.length) ∧
  (∀ d ∈ signaturesFor i tx.signedCount ++ [tx.Address.redeemScript],
    d.length ≤ MaxScriptElementSize) ∧
  1 + ((signaturesFor i tx.signedCount ++ [tx.Address.redeemScript]).map
    canonicalDataSize).sum ≤ MaxScriptSize

/-- The position, counted from `j`, of the last of the entries whose slice has a slot for
input `i`: the entry whose inner loop of `BuildScript` assembles input `i` last. -/
def lastVisit (i : Nat) : Ledger → Nat → Option Nat
  | [], _ => none
  | (_, x) :: rest, j =>
    match lastVisit i rest (j + 1) with
    | some j1 => some j1
    | none => if i < x.elim 0 List.length then some j else none

/-- The transaction `tx2` after a `BuildScript` that visits the ledger in the stored order. -/
def tx2First : SpendFromMultiSigTransaction :=
  match tx2.BuildScript storedOrder (fun _ _ => storedOrder) with
  | .ret t _ => t
  | .panic => emptyTx

/-- The transaction `tx2First` after a second `BuildScript`, whose inner loops visit the
ledger from its second entry. -/
def tx2Second : SpendFromMultiSigTransaction :=
  match tx2First.BuildScript storedOrder (fun _ _ => rotatedOrder) with
  | .ret t _ => t
  | .panic => emptyTx

/-- Signing in turn with the given keys and sighash modes: the transaction after the last
signature when every `sign` returned no error, `none` as soon as one returned an error. -/
def signInTurn (lib : Btcd) :
    SpendFromMultiSigTransaction → List (PrivateKey × SigHashType) →
      Option SpendFromMultiSigTransaction
  | tx, [] => some tx
  | tx, p :: rest =>
    match (tx.sign lib p.1 p.2).2 with
    | none => signInTurn lib (tx.sign lib p.1 p.2).1 rest
    | some _ => none

/-- The signer `RawTxInSignature` returns a signature for every input of the message. -/
def SignsEvery (lib : Btcd) : Prop :=
  ∀ (msg : MsgTx) (idx : Nat) (subScript : Bytes) (hashType : SigHashType) (key : PrivateKey),
    idx < msg.TxIn.length → ∃ s, lib.RawTxInSignature msg idx subScript hashType key = .ok s

/-- A 2-of-2 address on twice the key `pubKey1`. -/
def dupAddress : MultiSigAddress :=
  valueOr (NewMultiSigAddress exampleLib BTC_TESNET 2 [pubKey1Hex, pubKey1Hex]) emptyTx.Address

/-- A transaction spending from `dupAddress`. -/
def dupTx0 : SpendFromMultiSigTransaction :=
  valueOr (NewSpendFromMultiSigTransaction exampleLib wholeFloat64 dupAddress exampleUtxos
    exampleOutputs) emptyTx

/-- The transaction `dupTx0` after `Sign(privKey1, SigHashAll)`. -/
def dupTx1 : SpendFromMultiSigTransaction := (dupTx0.Sign exampleLib privKey1Hex SigHashAll).1

/-- The two signers of `examples/main.go`. -/
def exampleSigners : List (PrivateKey × SigHashType) :=
  [(privKey1, SigHashAll), (privKey2, SigHashAll)]

/-! ## Lemmas on the map operations -/

theorem mapGet_mapSet (m : Ledger) (k : String) (v : Signatures) (k1 : String) :
    mapGet (mapSet m k v) k1 = if k = k1 then some v else mapGet m k1 := by
  induction m with
  | nil => simp [mapSet, mapGet]
  | cons e rest ih =>
    obtain ⟨k0, v0⟩ := e
    by_cases h0 : k0 = k
    · subst h0
      by_cases h1 : k0 = k1 <;> simp [mapSet, mapGet, h1]
    · by_cases h1 : k0 = k1
      · subst h1
        have : ¬ k = k0 := fun h => h0 h.symm
        simp [mapSet, mapGet, h0, this]
      · simp [mapSet, mapGet, h0, h1, ih]

theorem mapGet_mapSet_self (m : Ledger) (k : String) (v : Signatures) :
    mapGet (mapSet m k v) k = some v := by
  simp [mapGet_mapSet]

theorem mapGet_mapSet_other (m : Ledger) (k : String) (v : Signatures) (k1 : String)
    (h : k1 ≠ k) : mapGet (mapSet m k v) k1 = mapGet m k1 := by
  have : ¬ k = k1 := fun h2 => h h2.symm
  simp [mapGet_mapSet, this]

theorem isSignedLoop_eq (id : String) (m : Ledger) :
    isSignedLoop id m =
      match mapGet m id with
      | none => some "the privkey provided is not valid for this transaction"
      | some none => none
      | some (some _) => some "the transaction has already been signed with that private key" := by
  induction m with
  | nil => simp [isSignedLoop, mapGet]
  | cons e rest ih =>
    obtain ⟨k0, v0⟩ := e
    by_cases h0 : k0 = id
    · subst h0
      cases v0 <;> simp [isSignedLoop, mapGet]
    · simp [isSignedLoop, mapGet, h0, ih]

set_option maxRecDepth 100000

/-! ## Lemmas on signing -/

theorem signLoop_spec (lib : Btcd) (tx : SpendFromMultiSigTransaction) (sigType : SigHashType)
    (privkey : PrivateKey) (is : List Nat) (sigs : List Bytes)
    (hlt : ∀ i ∈ is, i < sigs.length) (hnd : is.Nodup) :
    (signLoop lib tx sigType privkey is sigs).1.length = sigs.length ∧
    ((signLoop lib tx sigType privkey is sigs).2 = none → ∀ i ∈ is, ∃ sig,
      lib.RawTxInSignature tx.baseTX i tx.Address.redeemScript sigType privkey = .ok sig ∧
      (signLoop lib tx sigType privkey is sigs).1[i]? = some sig) ∧
    (∀ i, i ∉ is → (signLoop lib tx sigType privkey is sigs).1[i]? = sigs[i]?) := by
  induction is generalizing sigs with
  | nil => simp [signLoop]
  | cons i rest ih =>
    have hi : i < sigs.length := hlt i (List.mem_cons_self i rest)
    have hnd1 : rest.Nodup := (List.nodup_cons.mp hnd).2
    have hni : i ∉ rest := (List.nodup_cons.mp hnd).1
    cases hraw : lib.RawTxInSignature tx.baseTX i tx.Address.redeemScript sigType privkey with
    | error e =>
      simp only [signLoop, hraw]
      simp
    | ok signature =>
      simp only [signLoop, hraw]
      have hlt1 : ∀ j ∈ rest, j < (sigs.set i signature).length := by
        intro j hj
        rw [List.length_set]
        exact hlt j (List.mem_cons_of_mem i hj)
      obtain ⟨h1, h2, h3⟩ := ih (sigs.set i signature) hlt1 hnd1
      refine ⟨by rw [h1, List.length_set], ?_, ?_⟩
      · intro hnone j hj
        rcases List.mem_cons.mp hj with hji | hjr
        · subst hji
          refine ⟨signature, hraw, ?_⟩
          rw [h3 j hni]
          simp [hi]
        · exact h2 hnone j hjr
      · intro j hj
        have hji : i ≠ j := fun h => hj (h ▸ List.mem_cons_self i rest)
        have hjr : j ∉ rest := fun h => hj (List.mem_cons_of_mem i h)
        rw [h3 j hjr]
        simp [List.getElem?_set, hji]

theorem sign_of_isSigned_error (lib : Btcd) (tx : SpendFromMultiSigTransaction)
    (privkey : PrivateKey) (sigType : SigHashType) (e : String)
    (h : tx.isSigned (lib.PubKey privkey) = some e) :
    tx.sign lib privkey sigType = (tx, some e) := by
  simp [SpendFromMultiSigTransaction.sign, h]

theorem sign_of_isSigned_ok (lib : Btcd) (tx : SpendFromMultiSigTransaction)
    (privkey : PrivateKey) (sigType : SigHashType)
    (h : tx.isSigned (lib.PubKey privkey) = none) :
    tx.sign lib privkey sigType =
      (⟨tx.baseTX, tx.Address, mapSet tx.signedCount (lib.PubKey privkey).XString
        (some (signLoop lib tx sigType privkey (List.range tx.baseTX.TxIn.length)
          (List.replicate tx.baseTX.TxIn.length [])).1)⟩,
       (signLoop lib tx sigType privkey (List.range tx.baseTX.TxIn.length)
          (List.replicate tx.baseTX.TxIn.length [])).2) := by
  simp [SpendFromMultiSigTransaction.sign, h]

theorem mapGet_of_isSigned_none (tx : SpendFromMultiSigTransaction) (pubKey : PublicKey)
    (hs : tx.isSigned pubKey = none) : mapGet tx.signedCount pubKey.XString = some none := by
  have h1 := isSignedLoop_eq pubKey.XString tx.signedCount
  unfold SpendFromMultiSigTransaction.isSigned at hs
  rw [hs] at h1
  cases hg : mapGet tx.signedCount pubKey.XString with
  | none => rw [hg] at h1; simp at h1
  | some v =>
    cases v with
    | none => rfl
    | some x => rw [hg] at h1; simp at h1

theorem sign_unknown_identity (lib : Btcd) (tx : SpendFromMultiSigTransaction)
    (privkey : PrivateKey) (sigType : SigHashType)
    (h : mapGet tx.signedCount (lib.PubKey privkey).XString = none) :
    tx.sign lib privkey sigType =
      (tx, some "the privkey provided is not valid for this transaction") := by
  apply sign_of_isSigned_error
  unfold SpendFromMultiSigTransaction.isSigned
  rw [isSignedLoop_eq, h]

/-! ## Lemmas on the signature count and the frame of `BuildScript` -/

theorem NumberOfSignaturesProvided_fold (m : Ledger) (c : Int) :
    m.foldl (fun count y => if y.2 ≠ none then count + 1 else count) c =
      c + (m.countP (fun y => y.2.isSome) : Nat) := by
  induction m generalizing c with
  | nil => simp
  | cons e rest ih =>
    obtain ⟨k, v⟩ := e
    simp only [List.foldl_cons, List.countP_cons]
    rw [ih]
    cases v with
    | none => simp
    | some x =>
      simp
      omega

theorem NumberOfSignaturesProvided_eq (tx : SpendFromMultiSigTransaction) :
    tx.NumberOfSignaturesProvided = (tx.signedCount.countP (fun y => y.2.isSome) : Nat) := by
  unfold SpendFromMultiSigTransaction.NumberOfSignaturesProvided
  rw [NumberOfSignaturesProvided_fold]
  simp

theorem buildRespectiveInputScript_frame (tx tx1 : SpendFromMultiSigTransaction) (ord : MapOrder)
    (inputIndex : Int) (e : Option String)
    (h : tx.buildRespectiveInputScript ord inputIndex = .ret tx1 e) :
    tx1.signedCount = tx.signedCount ∧ tx1.Address = tx.Address ∧
      tx1.baseTX.TxIn.length = tx.baseTX.TxIn.length := by
  unfold SpendFromMultiSigTransaction.buildRespectiveInputScript at h
  split at h
  · cases h; exact ⟨rfl, rfl, rfl⟩
  · split at h
    · cases h; exact ⟨rfl, rfl, rfl⟩
    · split at h
      · cases h
      · split at h
        · cases h; exact ⟨rfl, rfl, rfl⟩
        · cases h
          refine ⟨rfl, rfl, ?_⟩
          simp [setSignatureScript]

theorem buildInputsLoop_frame (inner : Nat → MapOrder) (is : List Nat)
    (tx tx1 : SpendFromMultiSigTransaction) (e : Option String)
    (h : buildInputsLoop inner is tx = .ret tx1 e) :
    tx1.signedCount = tx.signedCount ∧ tx1.Address = tx.Address ∧
      tx1.baseTX.TxIn.length = tx.baseTX.TxIn.length := by
  induction is generalizing tx with
  | nil =>
    simp only [buildInputsLoop] at h
    cases h; exact ⟨rfl, rfl, rfl⟩
  | cons i rest ih =>
    simp only [buildInputsLoop] at h
    cases hb : tx.buildRespectiveInputScript (inner i) (i : Int) with
    | panic => rw [hb] at h; cases h
    | ret t er =>
      obtain ⟨f1, f2, f3⟩ := buildRespectiveInputScript_frame tx t (inner i) i er hb
      rw [hb] at h
      cases er with
      | some msg =>
        cases h
        exact ⟨f1, f2, f3⟩
      | none =>
        obtain ⟨g1, g2, g3⟩ := ih t h
        exact ⟨g1.trans f1, g2.trans f2, g3.trans f3⟩

theorem buildEntriesLoop_frame (inner : Nat → Nat → MapOrder) (es : Ledger) (j : Nat)
    (tx tx1 : SpendFromMultiSigTransaction) (e : Option String)
    (h : buildEntriesLoop inner es j tx = .ret tx1 e) :
    tx1.signedCount = tx.signedCount ∧ tx1.Address = tx.Address ∧
      tx1.baseTX.TxIn.length = tx.baseTX.TxIn.length := by
  induction es generalizing tx j with
  | nil =>
    simp only [buildEntriesLoop] at h
    cases h; exact ⟨rfl, rfl, rfl⟩
  | cons en rest ih =>
    obtain ⟨k, x⟩ := en
    simp only [buildEntriesLoop] at h
    cases hb : buildInputsLoop (inner j) (List.range (x.elim 0 List.length)) tx with
    | panic => rw [hb] at h; cases h
    | ret t er =>
      obtain ⟨f1, f2, f3⟩ := buildInputsLoop_frame _ _ tx t er hb
      rw [hb] at h
      cases er with
      | some msg =>
        cases h
        exact ⟨f1, f2, f3⟩
      | none =>
        obtain ⟨g1, g2, g3⟩ := ih (j + 1) t h
        exact ⟨g1.trans f1, g2.trans f2, g3.trans f3⟩

theorem BuildScript_frame (tx tx1 : SpendFromMultiSigTransaction) (outer : MapOrder)
    (inner : Nat → Nat → MapOrder) (e : Option String)
    (h : tx.BuildScript outer inner = .ret tx1 e) :
    tx1.signedCount = tx.signedCount ∧ tx1.Address = tx.Address ∧
      tx1.baseTX.TxIn.length = tx.baseTX.TxIn.length := by
  unfold SpendFromMultiSigTransaction.BuildScript at h
  split at h
  · cases h; exact ⟨rfl, rfl, rfl⟩
  · exact buildEntriesLoop_frame inner _ 0 tx tx1 e h

theorem sign_keeps_signed (lib : Btcd) (tx : SpendFromMultiSigTransaction) (privkey : PrivateKey)
    (sigType : SigHashType) (id : String) (h : ∃ x, mapGet tx.signedCount id = some (some x)) :
    ∃ x, mapGet (tx.sign lib privkey sigType).1.signedCount id = some (some x) := by
  cases hs : tx.isSigned (lib.PubKey privkey) with
  | some e => simpa [SpendFromMultiSigTransaction.sign, hs] using h
  | none =>
    simp only [SpendFromMultiSigTransaction.sign, hs]
    rw [mapGet_mapSet]
    split
    · exact ⟨_, rfl⟩
    · exact h

theorem Call_run_keeps_signed (lib : Btcd) (tx tx1 : SpendFromMultiSigTransaction) (c : Call)
    (id : String) (h : ∃ x, mapGet tx.signedCount id = some (some x))
    (hr : c.run lib tx = some tx1) :
    ∃ x, mapGet tx1.signedCount id = some (some x) := by
  cases c with
  | sign privkey sigType =>
    simp only [Call.run, Option.some.injEq] at hr
    subst hr
    exact sign_keeps_signed lib tx privkey sigType id h
  | Sign privKey sigType =>
    simp only [Call.run, Option.some.injEq] at hr
    subst hr
    unfold SpendFromMultiSigTransaction.Sign
    split
    · exact h
    · exact sign_keeps_signed lib tx _ sigType id h
  | SignWithWIF WIF sigType =>
    simp only [Call.run, Option.some.injEq] at hr
    subst hr
    unfold SpendFromMultiSigTransaction.SignWithWIF
    split
    · exact h
    · exact sign_keeps_signed lib tx _ sigType id h
  | BuildScript outer inner =>
    simp only [Call.run] at hr
    cases hb : tx.BuildScript outer inner with
    | panic => rw [hb] at hr; cases hr
    | ret t e =>
      rw [hb] at hr
      simp only [Option.some.injEq] at hr
      subst hr
      rw [(BuildScript_frame tx t outer inner e hb).1]
      exact h

theorem runCalls_keeps_signed (lib : Btcd) (calls : List Call)
    (tx tx1 : SpendFromMultiSigTransaction) (id : String)
    (h : ∃ x, mapGet tx.signedCount id = some (some x))
    (hr : runCalls lib tx calls = some tx1) :
    ∃ x, mapGet tx1.signedCount id = some (some x) := by
  induction calls generalizing tx with
  | nil =>
    simp only [runCalls, Option.some.injEq] at hr
    subst hr
    exact h
  | cons c rest ih =>
    simp only [runCalls] at hr
    cases hc : c.run lib tx with
    | none => rw [hc] at hr; cases hr
    | some t =>
      rw [hc] at hr
      exact ih t (Call_run_keeps_signed lib tx t c id h hc) hr

/-! ## Lemmas on the script builder -/

theorem AddData_of_err_none (b : ScriptBuilder) (data : Bytes)
    (h : (b.AddData data).err = none) :
    b.err = none ∧ (b.AddData data).script = b.script ++ pushData data := by
  unfold ScriptBuilder.AddData at h ⊢
  cases hb : b.err with
  | some e => rw [hb] at h; simp only at h; rw [hb] at h; cases h
  | none =>
    rw [hb] at h
    simp only at h ⊢
    split at h
    · cases h
    · split at h
      · cases h
      · rename_i h1 h2
        simp [h1, h2]

theorem AddData_ok (b : ScriptBuilder) (data : Bytes) (hb : b.err = none)
    (h1 : b.script.length + canonicalDataSize data ≤ MaxScriptSize)
    (h2 : data.length ≤ MaxScriptElementSize) :
    b.AddData data = ⟨b.script ++ pushData data, none⟩ := by
  unfold ScriptBuilder.AddData
  rw [hb]
  simp only
  rw [if_neg (by omega), if_neg (by omega)]

theorem canonicalDataSize_le (data : Bytes) : canonicalDataSize data ≤ data.length + 5 := by
  unfold canonicalDataSize
  simp only
  split_ifs <;> omega

theorem pushData_length_le (data : Bytes) : (pushData data).length ≤ data.length + 5 := by
  unfold pushData
  simp only
  split_ifs <;> simp [littleEndian]

theorem signaturesFor_length (inputIndex : Nat) (l : Ledger) :
    (signaturesFor inputIndex l).length = l.countP (fun y => y.2.isSome) := by
  induction l with
  | nil => simp [signaturesFor]
  | cons e rest ih =>
    obtain ⟨k, v⟩ := e
    cases v with
    | none => simp [signaturesFor, ih]
    | some x => simp [signaturesFor, ih]

theorem pushSignatures_of_err_none (inputIndex : Nat) (l : Ledger) (b b1 : ScriptBuilder)
    (h : pushSignatures inputIndex l b = some b1) (he : b1.err = none) :
    b.err = none ∧
      b1.script = b.script ++ ((signaturesFor inputIndex l).map pushData).flatten := by
  induction l generalizing b with
  | nil =>
    simp only [pushSignatures, Option.some.injEq] at h
    subst h
    simp [signaturesFor, he]
  | cons e rest ih =>
    obtain ⟨k, v⟩ := e
    cases v with
    | none =>
      simp only [pushSignatures] at h
      simpa [signaturesFor] using ih b h
    | some x =>
      simp only [pushSignatures] at h
      cases hx : x.get? inputIndex with
      | none => rw [hx] at h; cases h
      | some sig =>
        rw [hx] at h
        obtain ⟨e1, e2⟩ := ih (b.AddData sig) h
        obtain ⟨e3, e4⟩ := AddData_of_err_none b sig e1
        refine ⟨e3, ?_⟩
        have hd : x[inputIndex]?.getD [] = sig := by
          rw [← List.get?_eq_getElem?, hx]
          rfl
        rw [e2, e4]
        simp [signaturesFor, hd]

theorem pushSignatures_ok (inputIndex : Nat) (l : Ledger) (b : ScriptBuilder)
    (hb : b.err = none)
    (hl : ∀ e ∈ l, ∀ x, e.2 = some x → inputIndex < x.length ∧ ∀ s ∈ x, s.length ≤ 73)
    (hsize : b.script.length + 78 * l.length ≤ 9000) :
    pushSignatures inputIndex l b =
        some ⟨b.script ++ ((signaturesFor inputIndex l).map pushData).flatten, none⟩ ∧
      (b.script ++ ((signaturesFor inputIndex l).map pushData).flatten).length ≤
        b.script.length + 78 * l.length := by
  induction l generalizing b with
  | nil =>
    cases b
    simp only at hb
    subst hb
    simp [pushSignatures, signaturesFor]
  | cons e rest ih =>
    obtain ⟨k, v⟩ := e
    have hrest : ∀ e ∈ rest, ∀ x, e.2 = some x →
        inputIndex < x.length ∧ ∀ s ∈ x, s.length ≤ 73 :=
      fun e he => hl e (List.mem_cons_of_mem _ he)
    simp only [List.length_cons] at hsize
    cases v with
    | none =>
      simp only [pushSignatures, signaturesFor]
      obtain ⟨i1, i2⟩ := ih b hb hrest (by omega)
      exact ⟨i1, by simp only [List.length_cons]; omega⟩
    | some x =>
      obtain ⟨hlt, hs⟩ := hl (k, some x) (List.mem_cons_self _ _) x rfl
      have hget : x.get? inputIndex = some (x.getD inputIndex []) := by
        simp [List.getD_eq_getElem?_getD, List.get?_eq_getElem?, hlt]
      have hmem : x.getD inputIndex [] ∈ x := by
        have := List.getElem_mem hlt
        simp [List.getD_eq_getElem?_getD, hlt]
      have hlen := hs _ hmem
      have hc := canonicalDataSize_le (x.getD inputIndex [])
      have hp := pushData_length_le (x.getD inputIndex [])
      have hadd := AddData_ok b (x.getD inputIndex []) hb
        (by simp only [MaxScriptSize]; omega) (by simp only [MaxScriptElementSize]; omega)
      simp only [pushSignatures, signaturesFor, hget, hadd]
      obtain ⟨i1, i2⟩ := ih ⟨b.script ++ pushData (x.getD inputIndex []), none⟩ rfl hrest
        (by simp only [List.length_append]; omega)
      simp only [List.length_append, List.length_cons] at i2 ⊢
      refine ⟨by rw [i1]; simp only [List.map_cons, List.flatten_cons, List.append_assoc], ?_⟩
      simp only [List.map_cons, List.flatten_cons, List.length_append] at i2 ⊢
      omega

theorem scriptAt_withAssembledInput_self (tx : SpendFromMultiSigTransaction) (visited : Ledger)
    (i : Nat) (hi : i < tx.baseTX.TxIn.length) :
    scriptAt (withAssembledInput tx visited i) i =
      some (unlockingScript (signaturesFor i visited) tx.Address.redeemScript) := by
  simp [scriptAt, withAssembledInput, setSignatureScript, List.get?_eq_getElem?, hi]

theorem scriptAt_withAssembledInput_other (tx : SpendFromMultiSigTransaction) (visited : Ledger)
    (i j : Nat) (hij : i ≠ j) :
    scriptAt (withAssembledInput tx visited i) j = scriptAt tx j := by
  simp [scriptAt, withAssembledInput, setSignatureScript, List.get?_eq_getElem?, hij]

theorem buildRespectiveInputScript_of_ok (tx t : SpendFromMultiSigTransaction) (ord : MapOrder)
    (inputIndex : Int) (h : tx.buildRespectiveInputScript ord inputIndex = .ret t none) :
    0 ≤ inputIndex ∧ inputIndex < (tx.baseTX.TxIn.length : Int) ∧
      t = withAssembledInput tx (ord.visit tx.signedCount) inputIndex.toNat := by
  unfold SpendFromMultiSigTransaction.buildRespectiveInputScript at h
  split at h
  · cases h
  · split at h
    · cases h
    · rename_i hrange
      refine ⟨by omega, by omega, ?_⟩
      split at h
      · cases h
      · rename_i scriptBuilder hpush
        split at h
        · cases h
        · rename_i signatureSRC hscript
          have herr : (scriptBuilder.AddData tx.Address.redeemScript).err = none := by
            unfold ScriptBuilder.Script at hscript
            split at hscript
            · cases hscript
            · assumption
          have hsrc : signatureSRC = (scriptBuilder.AddData tx.Address.redeemScript).script := by
            unfold ScriptBuilder.Script at hscript
            split at hscript
            · cases hscript
            · cases hscript; rfl
          obtain ⟨e1, e2⟩ := AddData_of_err_none _ _ herr
          obtain ⟨-, e4⟩ := pushSignatures_of_err_none _ _ _ _ hpush e1
          simp only [Run.ret.injEq, and_true] at h
          rw [← h, hsrc, e2, e4]
          rfl

theorem buildRespectiveInputScript_ok (tx : SpendFromMultiSigTransaction) (ord : MapOrder)
    (i : Nat) (hg : Assemblable tx) (hi : i < tx.baseTX.TxIn.length) :
    tx.buildRespectiveInputScript ord (i : Int) =
      .ret (withAssembledInput tx (ord.visit tx.signedCount) i) none := by
  obtain ⟨hcount, hentries, hlen, hredeem⟩ := hg
  have hvis : ∀ e ∈ ord.visit tx.signedCount, ∀ x, e.2 = some x →
      i < x.length ∧ ∀ s ∈ x, s.length ≤ 73 := by
    intro e he x hx
    obtain ⟨h1, h2⟩ := hentries e ((ord.perm tx.signedCount).mem_iff.mp he) x hx
    exact ⟨by omega, h2⟩
  have hvlen : (ord.visit tx.signedCount).length ≤ 16 := by
    rw [(ord.perm tx.signedCount).length_eq]
    exact hlen
  have hb0 : NewScriptBuilder.AddOp OP_FALSE = ⟨[OP_0], none⟩ := by decide
  obtain ⟨p1, p2⟩ := pushSignatures_ok i (ord.visit tx.signedCount) ⟨[OP_0], none⟩ rfl hvis
    (by simp only [List.length_singleton]; omega)
  have hc := canonicalDataSize_le tx.Address.redeemScript
  simp only [MaxScriptElementSize] at hredeem
  have hadd := AddData_ok
    ⟨[OP_0] ++ ((signaturesFor i (ord.visit tx.signedCount)).map pushData).flatten, none⟩
    tx.Address.redeemScript rfl
    (by simp only [MaxScriptSize]; simp only [List.length_singleton] at p2; omega)
    (by simp only [MaxScriptElementSize]; omega)
  unfold SpendFromMultiSigTransaction.buildRespectiveInputScript
  rw [if_neg (by omega), if_neg (by omega)]
  simp only [Int.toNat_ofNat, hb0, p1, hadd, ScriptBuilder.Script]
  rfl

/-! ## Lemmas on the loops of `BuildScript` -/

theorem Assemblable_congr (tx t : SpendFromMultiSigTransaction)
    (h1 : t.signedCount = tx.signedCount) (h2 : t.Address = tx.Address)
    (h3 : t.baseTX.TxIn.length = tx.baseTX.TxIn.length) (hg : Assemblable tx) :
    Assemblable t := by
  unfold Assemblable SpendFromMultiSigTransaction.NumberOfSignaturesProvided at *
  rw [h1, h2, h3]
  exact hg

theorem Assemblable_withAssembledInput (tx : SpendFromMultiSigTransaction) (visited : Ledger)
    (i : Nat) (hg : Assemblable tx) : Assemblable (withAssembledInput tx visited i) :=
  Assemblable_congr tx _ rfl rfl (by simp [withAssembledInput, setSignatureScript]) hg

theorem buildInputsLoop_ok (inner : Nat → MapOrder) (is : List Nat)
    (tx : SpendFromMultiSigTransaction) (hg : Assemblable tx)
    (his : ∀ i ∈ is, i < tx.baseTX.TxIn.length) :
    ∃ t, buildInputsLoop inner is tx = .ret t none ∧
      t.signedCount = tx.signedCount ∧ t.Address = tx.Address ∧
      t.baseTX.TxIn.length = tx.baseTX.TxIn.length ∧
      (∀ i ∈ is, scriptAt t i = some (unlockingScript
        (signaturesFor i ((inner i).visit tx.signedCount)) tx.Address.redeemScript)) ∧
      (∀ i, i ∉ is → scriptAt t i = scriptAt tx i) := by
  induction is generalizing tx with
  | nil => exact ⟨tx, rfl, rfl, rfl, rfl, by simp, fun _ _ => rfl⟩
  | cons i rest ih =>
    have hi : i < tx.baseTX.TxIn.length := his i (List.mem_cons_self _ _)
    have hstep := buildRespectiveInputScript_ok tx (inner i) i hg hi
    have hlen : (withAssembledInput tx ((inner i).visit tx.signedCount) i).baseTX.TxIn.length =
        tx.baseTX.TxIn.length := by
      simp [withAssembledInput, setSignatureScript]
    obtain ⟨t, r1, r2, r3, r4, r5, r6⟩ :=
      ih (withAssembledInput tx ((inner i).visit tx.signedCount) i)
        (Assemblable_withAssembledInput tx _ i hg)
        (fun j hj => by rw [hlen]; exact his j (List.mem_cons_of_mem _ hj))
    refine ⟨t, ?_, r2, r3, r4.trans hlen, ?_, ?_⟩
    · simp only [buildInputsLoop, hstep]
      exact r1
    · intro j hj
      by_cases hjr : j ∈ rest
      · exact r5 j hjr
      · have hji : j = i := by
          rcases List.mem_cons.mp hj with h | h
          · exact h
          · exact absurd h hjr
        subst hji
        rw [r6 j hjr]
        exact scriptAt_withAssembledInput_self tx _ j hi
    · intro j hj
      have hjr : j ∉ rest := fun h => hj (List.mem_cons_of_mem _ h)
      have hji : i ≠ j := fun h => hj (h ▸ List.mem_cons_self _ _)
      rw [r6 j hjr]
      exact scriptAt_withAssembledInput_other tx _ i j hji

theorem buildEntriesLoop_ok (inner : Nat → Nat → MapOrder) (es : Ledger) (j : Nat)
    (tx : SpendFromMultiSigTransaction) (hg : Assemblable tx)
    (hes : ∀ e ∈ es, ∀ x, e.2 = some x → x.length = tx.baseTX.TxIn.length) :
    ∃ t, buildEntriesLoop inner es j tx = .ret t none ∧
      t.signedCount = tx.signedCount ∧ t.Address = tx.Address ∧
      t.baseTX.TxIn.length = tx.baseTX.TxIn.length ∧
      ∀ i, i < tx.baseTX.TxIn.length →
        (scriptAt t i = scriptAt tx i ∧ ∀ e ∈ es, e.2 = none) ∨
        ∃ j1, scriptAt t i = some (unlockingScript
          (signaturesFor i ((inner j1 i).visit tx.signedCount)) tx.Address.redeemScript) := by
  induction es generalizing tx j with
  | nil => exact ⟨tx, rfl, rfl, rfl, rfl, fun i _ => Or.inl ⟨rfl, by simp⟩⟩
  | cons en rest ih =>
    obtain ⟨k, x⟩ := en
    have hrest : ∀ e ∈ rest, ∀ x, e.2 = some x → x.length = tx.baseTX.TxIn.length :=
      fun e he => hes e (List.mem_cons_of_mem _ he)
    cases x with
    | none =>
      obtain ⟨t, r1, r2, r3, r4, r5⟩ := ih (j + 1) tx hg hrest
      refine ⟨t, ?_, r2, r3, r4, ?_⟩
      · simp only [buildEntriesLoop, Option.elim, List.range_zero, buildInputsLoop]
        exact r1
      · intro i hi
        rcases r5 i hi with ⟨h1, h2⟩ | h
        · refine Or.inl ⟨h1, ?_⟩
          intro e he
          rcases List.mem_cons.mp he with h | h
          · rw [h]
          · exact h2 e h
        · exact Or.inr h
    | some x =>
      have hx : x.length = tx.baseTX.TxIn.length := hes (k, some x) (List.mem_cons_self _ _) x rfl
      obtain ⟨t1, q1, q2, q3, q4, q5, -⟩ := buildInputsLoop_ok (inner j) (List.range x.length) tx hg
        (fun i hi => by rw [← hx]; exact List.mem_range.mp hi)
      obtain ⟨t, r1, r2, r3, r4, r5⟩ := ih (j + 1) t1 (Assemblable_congr tx t1 q2 q3 q4 hg)
        (fun e he y hy => by rw [q4]; exact hrest e he y hy)
      refine ⟨t, ?_, r2.trans q2, r3.trans q3, r4.trans q4, ?_⟩
      · simp only [buildEntriesLoop, Option.elim, q1]
        exact r1
      · intro i hi
        rcases r5 i (by rw [q4]; exact hi) with ⟨h1, -⟩ | ⟨j1, h⟩
        · refine Or.inr ⟨j, ?_⟩
          rw [h1]
          exact q5 i (List.mem_range.mpr (by rw [hx]; exact hi))
        · refine Or.inr ⟨j1, ?_⟩
          rw [h, q2, q3]

theorem BuildScript_ok (tx : SpendFromMultiSigTransaction) (outer : MapOrder)
    (inner : Nat → Nat → MapOrder) (hg : Assemblable tx)
    (hreq : 1 ≤ tx.Address.signaturesRequired) :
    ∃ t, tx.BuildScript outer inner = .ret t none ∧
      t.signedCount = tx.signedCount ∧ t.Address = tx.Address ∧
      t.baseTX.TxIn.length = tx.baseTX.TxIn.length ∧
      ∀ i, i < tx.baseTX.TxIn.length → ∃ j,
        scriptAt t i = some (unlockingScript
          (signaturesFor i ((inner j i).visit tx.signedCount)) tx.Address.redeemScript) := by
  have hcount := hg.1
  obtain ⟨t, r1, r2, r3, r4, r5⟩ := buildEntriesLoop_ok inner (outer.visit tx.signedCount) 0 tx hg
    (fun e he x hx => (hg.2.1 e ((outer.perm tx.signedCount).mem_iff.mp he) x hx).1)
  refine ⟨t, ?_, r2, r3, r4, ?_⟩
  · unfold SpendFromMultiSigTransaction.BuildScript
    rw [if_neg (by omega)]
    exact r1
  · intro i hi
    rcases r5 i hi with ⟨-, hnone⟩ | h
    · exfalso
      have hz : tx.signedCount.countP (fun y => y.2.isSome) = 0 := by
        rw [List.countP_eq_zero]
        intro e he
        have := hnone e ((outer.perm tx.signedCount).mem_iff.mpr he)
        simp [this]
      rw [NumberOfSignaturesProvided_eq, hz] at hcount
      simp only [Nat.cast_zero] at hcount
      omega
    · exact h

theorem buildInputsLoop_of_ok (inner : Nat → MapOrder) (is : List Nat)
    (tx t : SpendFromMultiSigTransaction) (h : buildInputsLoop inner is tx = .ret t none) :
    ∀ i, scriptAt t i = scriptAt tx i ∨
      scriptAt t i = some (unlockingScript
        (signaturesFor i ((inner i).visit tx.signedCount)) tx.Address.redeemScript) := by
  induction is generalizing tx with
  | nil =>
    simp only [buildInputsLoop, Run.ret.injEq, and_true] at h
    subst h
    exact fun _ => Or.inl rfl
  | cons i0 rest ih =>
    simp only [buildInputsLoop] at h
    cases hb : tx.buildRespectiveInputScript (inner i0) (i0 : Int) with
    | panic => rw [hb] at h; cases h
    | ret t1 e =>
      rw [hb] at h
      cases e with
      | some msg => cases h
      | none =>
        simp only at h
        obtain ⟨-, hlt, ht1⟩ := buildRespectiveInputScript_of_ok tx t1 (inner i0) i0 hb
        simp only [Int.toNat_ofNat] at ht1
        have hlt1 : i0 < tx.baseTX.TxIn.length := by omega
        subst ht1
        intro i
        rcases ih _ h i with h1 | h1
        · by_cases hi : i0 = i
          · subst hi
            exact Or.inr (by rw [h1]; exact scriptAt_withAssembledInput_self tx _ i0 hlt1)
          · exact Or.inl (by rw [h1]; exact scriptAt_withAssembledInput_other tx _ i0 i hi)
        · exact Or.inr h1

theorem buildEntriesLoop_of_ok (inner : Nat → Nat → MapOrder) (es : Ledger) (j : Nat)
    (tx t : SpendFromMultiSigTransaction) (h : buildEntriesLoop inner es j tx = .ret t none) :
    ∀ i, scriptAt t i = scriptAt tx i ∨ ∃ j1,
      scriptAt t i = some (unlockingScript
        (signaturesFor i ((inner j1 i).visit tx.signedCount)) tx.Address.redeemScript) := by
  induction es generalizing tx j with
  | nil =>
    simp only [buildEntriesLoop, Run.ret.injEq, and_true] at h
    subst h
    exact fun _ => Or.inl rfl
  | cons en rest ih =>
    obtain ⟨k, x⟩ := en
    simp only [buildEntriesLoop] at h
    cases hb : buildInputsLoop (inner j) (List.range (x.elim 0 List.length)) tx with
    | panic => rw [hb] at h; cases h
    | ret t1 e =>
      rw [hb] at h
      cases e with
      | some msg => cases h
      | none =>
        simp only at h
        obtain ⟨f1, f2, -⟩ := buildInputsLoop_frame _ _ tx t1 none hb
        intro i
        rcases ih (j + 1) t1 h i with h1 | ⟨j1, h1⟩
        · rcases buildInputsLoop_of_ok _ _ tx t1 hb i with h2 | h2
          · exact Or.inl (h1.trans h2)
          · exact Or.inr ⟨j, h1.trans h2⟩
        · exact Or.inr ⟨j1, by rw [h1, f1, f2]⟩


/-! ## Lemmas on the constructors and the reachable transactions -/

theorem mem_mapSet (m : Ledger) (k : String) (v : Signatures) (e : String × Signatures)
    (h : e ∈ mapSet m k v) : e = (k, v) ∨ e ∈ m := by
  induction m with
  | nil => simpa [mapSet] using h
  | cons e0 rest ih =>
    obtain ⟨k0, v0⟩ := e0
    by_cases h0 : k0 = k
    · simp only [mapSet, h0, if_true, List.mem_cons] at h
      rcases h with h | h
      · exact Or.inl h
      · exact Or.inr (List.mem_cons_of_mem _ h)
    · simp only [mapSet, h0, if_false, List.mem_cons] at h
      rcases h with h | h
      · exact Or.inr (h ▸ List.mem_cons_self _ _)
      · rcases ih h with h1 | h1
        · exact Or.inl h1
        · exact Or.inr (List.mem_cons_of_mem _ h1)

theorem length_mapSet_le (m : Ledger) (k : String) (v : Signatures) :
    (mapSet m k v).length ≤ m.length + 1 := by
  induction m with
  | nil => simp [mapSet]
  | cons e0 rest ih =>
    obtain ⟨k0, v0⟩ := e0
    by_cases h0 : k0 = k
    · simp [mapSet, h0]
    · simp only [mapSet, h0, if_false, List.length_cons]
      omega

theorem length_mapSet_of_mapGet (m : Ledger) (k : String) (v v0 : Signatures)
    (h : mapGet m k = some v0) : (mapSet m k v).length = m.length := by
  induction m with
  | nil => simp [mapGet] at h
  | cons e0 rest ih =>
    obtain ⟨k0, v1⟩ := e0
    by_cases h0 : k0 = k
    · simp [mapSet, h0]
    · simp only [mapGet, h0, if_false] at h
      simp only [mapSet, h0, if_false, List.length_cons, ih h]

theorem setPubKeys_fold (keys : List PublicKey) (m : Ledger)
    (hm : ∀ e ∈ m, e.2 = none) :
    (∀ e ∈ keys.foldl (fun m x => mapSet m x.XString none) m, e.2 = none) ∧
      (keys.foldl (fun m x => mapSet m x.XString none) m).length ≤ m.length + keys.length := by
  induction keys generalizing m with
  | nil => exact ⟨hm, by simp⟩
  | cons pk rest ih =>
    have h1 : ∀ e ∈ mapSet m pk.XString none, e.2 = none := by
      intro e he
      rcases mem_mapSet m _ _ e he with h | h
      · rw [h]
      · exact hm e h
    obtain ⟨i1, i2⟩ := ih (mapSet m pk.XString none) h1
    refine ⟨i1, ?_⟩
    have := length_mapSet_le m pk.XString none
    simp only [List.foldl_cons, List.length_cons] at i2 ⊢
    omega

theorem littleEndian_length (k v : Nat) : (littleEndian k v).length = k := by
  induction k generalizing v with
  | zero => rfl
  | succ n ih => simp [littleEndian, ih]

theorem SerializeCompressed_length (p : PublicKey) : p.SerializeCompressed.length = 33 := by
  simp [PublicKey.SerializeCompressed, bigEndian, littleEndian_length]

theorem pushData_of_length_33 (data : Bytes) (h : data.length = 33) :
    pushData data = 33 :: data := by
  simp [pushData, h, OP_PUSHDATA1, OP_DATA_1]

theorem canonicalDataSize_of_length_33 (data : Bytes) (h : data.length = 33) :
    canonicalDataSize data = 34 := by
  simp [canonicalDataSize, h, OP_PUSHDATA1]

theorem pushKeys_fold (keys : List PublicKey) (b : ScriptBuilder) (hb : b.err = none)
    (hsize : b.script.length + 34 * keys.length ≤ 9000) :
    keys.foldl (fun b x => b.AddData x.SerializeCompressed) b =
        ⟨b.script ++ (keys.map (fun x => pushData x.SerializeCompressed)).flatten, none⟩ ∧
      (b.script ++ (keys.map (fun x => pushData x.SerializeCompressed)).flatten).length =
        b.script.length + 34 * keys.length := by
  induction keys generalizing b with
  | nil =>
    cases b
    simp only at hb
    subst hb
    simp
  | cons pk rest ih =>
    simp only [List.length_cons] at hsize
    have hlen := SerializeCompressed_length pk
    have hp : (pushData pk.SerializeCompressed).length = 34 := by
      rw [pushData_of_length_33 _ hlen]
      simp [hlen]
    have hadd := AddData_ok b pk.SerializeCompressed hb
      (by rw [canonicalDataSize_of_length_33 _ hlen]; simp only [MaxScriptSize]; omega)
      (by rw [hlen]; decide)
    obtain ⟨i1, i2⟩ := ih ⟨b.script ++ pushData pk.SerializeCompressed, none⟩ rfl
      (by simp only [List.length_append, hp]; omega)
    simp only [List.foldl_cons, hadd, i1, List.map_cons, List.flatten_cons, List.append_assoc,
      true_and]
    simp only [List.length_append, hp, List.length_cons] at i2 ⊢
    omega

/-- The redeem script `buildRedeemScript` assembles for any key set of at most 16 keys:
the literal `OP_2`, the keys pushed in order, the literal `OP_3`, `OP_CHECKMULTISIG`. -/
theorem redeemScriptBuilder_script (keys : List PublicKey) (h : keys.length ≤ 16) :
    (redeemScriptBuilder keys).Script =
        .ok ([OP_2] ++ (keys.map (fun x => pushData x.SerializeCompressed)).flatten ++
          [OP_3, OP_CHECKMULTISIG]) ∧
      ([OP_2] ++ (keys.map (fun x => pushData x.SerializeCompressed)).flatten ++
          [OP_3, OP_CHECKMULTISIG]).length = 3 + 34 * keys.length := by
  have h0 : NewScriptBuilder.AddOp OP_2 = ⟨[OP_2], none⟩ := by decide
  obtain ⟨p1, p2⟩ := pushKeys_fold keys ⟨[OP_2], none⟩ rfl
    (by simp only [List.length_singleton]; omega)
  simp only [List.length_singleton] at p2
  constructor
  · unfold redeemScriptBuilder
    rw [h0, p1]
    simp only [ScriptBuilder.AddOp, MaxScriptSize, List.length_append, List.length_singleton]
    rw [if_neg (by simp only [List.length_append, List.length_singleton] at p2; omega)]
    simp only [List.length_append, List.length_singleton]
    rw [if_neg (by simp only [List.length_append, List.length_singleton] at p2; omega)]
    simp [ScriptBuilder.Script]
  · simp only [List.length_append, List.length_cons, List.length_nil] at p2 ⊢
    omega

theorem getPubKeys_length (lib : Btcd) (strs : List String) (keys : List PublicKey)
    (h : getPubKeys lib strs = .ok keys) : keys.length = strs.length := by
  induction strs generalizing keys with
  | nil =>
    simp only [getPubKeys, Except.ok.injEq] at h
    subst h
    rfl
  | cons x rest ih =>
    simp only [getPubKeys] at h
    split at h
    · cases h
    · split at h
      · cases h
      · split at h
        · cases h
        · rename_i pubKeys hrest
          simp only [Except.ok.injEq] at h
          subst h
          simp [ih pubKeys hrest]

theorem NewMultiSigAddress_ok (lib : Btcd) (net : Params) (signaturesRequired : Int)
    (strPubKeys : List String) (addr : MultiSigAddress)
    (h : NewMultiSigAddress lib net signaturesRequired strPubKeys = .ok addr) :
    1 ≤ addr.signaturesRequired ∧ addr.publicKeys.length ≤ 16 ∧
      addr.redeemScript.length = 3 + 34 * addr.publicKeys.length := by
  unfold NewMultiSigAddress at h
  split at h
  · cases h
  · split at h
    · cases h
    · split at h
      · cases h
      · rename_i h1 h2 h3
        split at h
        · cases h
        · rename_i pubKey hk
          have hlen := getPubKeys_length lib strPubKeys pubKey hk
          have h16 : pubKey.length ≤ 16 := by omega
          obtain ⟨s1, s2⟩ := redeemScriptBuilder_script pubKey h16
          simp only [MultiSigAddress.buildRedeemScript, s1] at h
          split at h
          · cases h
          · split at h
            · cases h
            · simp only [Except.ok.injEq] at h
              subst h
              exact ⟨by simp only; omega, h16, s2⟩

theorem NewSpend_ok {F : Type} (lib : Btcd) (fo : Float64 F) (addr : MultiSigAddress)
    (utxos : List (UTXO F)) (outputs : List (Output F)) (tx : SpendFromMultiSigTransaction)
    (h : NewSpendFromMultiSigTransaction lib fo addr utxos outputs = .ok tx) :
    tx.Address = addr ∧ (∀ e ∈ tx.signedCount, e.2 = none) ∧
      tx.signedCount.length ≤ addr.publicKeys.length := by
  unfold NewSpendFromMultiSigTransaction at h
  split at h
  · cases h
  · split at h
    · cases h
    · split at h
      · cases h
      · simp only [Except.ok.injEq] at h
        subst h
        obtain ⟨f1, f2⟩ := setPubKeys_fold addr.publicKeys [] (by simp)
        exact ⟨rfl, f1, by simpa using f2⟩

theorem signLoop_mem (lib : Btcd) (tx : SpendFromMultiSigTransaction) (sigType : SigHashType)
    (privkey : PrivateKey) (is : List Nat) (sigs : List Bytes) (s : Bytes)
    (h : s ∈ (signLoop lib tx sigType privkey is sigs).1) :
    s ∈ sigs ∨ ∃ i,
      lib.RawTxInSignature tx.baseTX i tx.Address.redeemScript sigType privkey = .ok s := by
  induction is generalizing sigs with
  | nil => exact Or.inl (by simpa [signLoop] using h)
  | cons i rest ih =>
    cases hraw : lib.RawTxInSignature tx.baseTX i tx.Address.redeemScript sigType privkey with
    | error e =>
      simp only [signLoop, hraw] at h
      exact Or.inl h
    | ok signature =>
      simp only [signLoop, hraw] at h
      rcases ih (sigs.set i signature) h with h1 | h1
      · rcases List.mem_or_eq_of_mem_set h1 with h2 | h2
        · exact Or.inl h2
        · exact Or.inr ⟨i, by rw [hraw, h2]⟩
      · exact Or.inr h1

theorem sign_WellFormed (lib : Btcd) (tx : SpendFromMultiSigTransaction) (privkey : PrivateKey)
    (sigType : SigHashType) (h : WellFormed tx) : WellFormed (tx.sign lib privkey sigType).1 := by
  cases hs : tx.isSigned (lib.PubKey privkey) with
  | some e =>
    rw [sign_of_isSigned_error lib tx privkey sigType e hs]
    exact h
  | none =>
    rw [sign_of_isSigned_ok lib tx privkey sigType hs]
    obtain ⟨w1, w2, w3, w4, w5⟩ := h
    refine ⟨w1, w2, w3, ?_, ?_⟩
    · intro e he x hx
      rcases mem_mapSet _ _ _ e he with h1 | h1
      · rw [h1] at hx
        simp only [Option.some.injEq] at hx
        rw [← hx]
        have := (signLoop_spec lib tx sigType privkey (List.range tx.baseTX.TxIn.length)
          (List.replicate tx.baseTX.TxIn.length []) (by simp) (List.nodup_range _)).1
        simpa using this
      · exact w4 e h1 x hx
    · show (mapSet tx.signedCount _ _).length ≤ _
      rw [length_mapSet_of_mapGet _ _ _ _ (mapGet_of_isSigned_none tx _ hs)]
      exact w5

theorem sign_SignaturesWithin (n : Nat) (lib : Btcd) (hlib : SignsWithin n lib)
    (tx : SpendFromMultiSigTransaction) (privkey : PrivateKey) (sigType : SigHashType)
    (h : SignaturesWithin n tx) : SignaturesWithin n (tx.sign lib privkey sigType).1 := by
  cases hs : tx.isSigned (lib.PubKey privkey) with
  | some e =>
    rw [sign_of_isSigned_error lib tx privkey sigType e hs]
    exact h
  | none =>
    rw [sign_of_isSigned_ok lib tx privkey sigType hs]
    intro e he x hx s hsx
    rcases mem_mapSet _ _ _ e he with h1 | h1
    · rw [h1] at hx
      simp only [Option.some.injEq] at hx
      rw [← hx] at hsx
      rcases signLoop_mem lib tx sigType privkey _ _ s hsx with h2 | ⟨i, h2⟩
      · rw [(List.mem_replicate.mp h2).2]
        simp
      · exact hlib _ _ _ _ _ s h2
    · exact h e h1 x hx s hsx

theorem Call_run_invariants (n : Nat) (lib : Btcd) (hlib : SignsWithin n lib)
    (tx t : SpendFromMultiSigTransaction) (c : Call)
    (h : WellFormed tx ∧ SignaturesWithin n tx) (hr : c.run lib tx = some t) :
    WellFormed t ∧ SignaturesWithin n t := by
  cases c with
  | sign privkey sigType =>
    simp only [Call.run, Option.some.injEq] at hr
    subst hr
    exact ⟨sign_WellFormed lib tx _ _ h.1, sign_SignaturesWithin n lib hlib tx _ _ h.2⟩
  | Sign privKey sigType =>
    simp only [Call.run, Option.some.injEq] at hr
    subst hr
    unfold SpendFromMultiSigTransaction.Sign
    split
    · exact h
    · exact ⟨sign_WellFormed lib tx _ _ h.1, sign_SignaturesWithin n lib hlib tx _ _ h.2⟩
  | SignWithWIF WIF sigType =>
    simp only [Call.run, Option.some.injEq] at hr
    subst hr
    unfold SpendFromMultiSigTransaction.SignWithWIF
    split
    · exact h
    · exact ⟨sign_WellFormed lib tx _ _ h.1, sign_SignaturesWithin n lib hlib tx _ _ h.2⟩
  | BuildScript outer inner =>
    simp only [Call.run] at hr
    cases hb : tx.BuildScript outer inner with
    | panic => rw [hb] at hr; cases hr
    | ret t1 e =>
      rw [hb] at hr
      simp only [Option.some.injEq] at hr
      subst hr
      obtain ⟨f1, f2, f3⟩ := BuildScript_frame tx t1 outer inner e hb
      unfold WellFormed SignaturesWithin
      rw [f1, f2, f3]
      exact h

theorem Reachable_invariants (n : Nat) (lib : Btcd) (hlib : SignsWithin n lib)
    (tx : SpendFromMultiSigTransaction) (hr : Reachable lib tx) :
    WellFormed tx ∧ SignaturesWithin n tx := by
  induction hr with
  | new fo net signaturesRequired strPubKeys addr utxos outputs tx ha hs =>
    obtain ⟨a1, a2, a3⟩ := NewMultiSigAddress_ok lib net signaturesRequired strPubKeys addr ha
    obtain ⟨s1, s2, s3⟩ := NewSpend_ok lib fo addr utxos outputs tx hs
    refine ⟨⟨by rw [s1]; exact a1, by rw [s1]; exact a2, by rw [s1]; exact a3, ?_,
      by rw [s1]; exact s3⟩, ?_⟩
    · intro e he x hx
      rw [s2 e he] at hx
      cases hx
    · intro e he x hx
      rw [s2 e he] at hx
      cases hx
  | call tx t c _ hrun ih => exact Call_run_invariants n lib hlib tx t c ih hrun

theorem signaturesFor_length_visit (tx : SpendFromMultiSigTransaction) (ord : MapOrder)
    (i : Nat) :
    ((signaturesFor i (ord.visit tx.signedCount)).length : Int) =
      tx.NumberOfSignaturesProvided := by
  rw [signaturesFor_length, (ord.perm tx.signedCount).countP_eq, NumberOfSignaturesProvided_eq]


/-! ## Address construction -/

/-- C1, at the 1-of-1 address on `pubKey1`: the redeem script built is `OP_2`, the pushed key,
`OP_3`, `OP_CHECKMULTISIG`, whereas the claim asks for the push-1 opcode in both places; the
two opcodes are literals of `buildRedeemScript` and follow neither `signaturesRequired` nor
the number of keys. -/
theorem redeemScript_ignores_threshold_and_key_count :
    (NewMultiSigAddress exampleLib BTC_TESNET 1 [pubKey1Hex]).map (fun a => a.redeemScript) =
        .ok ([OP_2] ++ pushData pubKey1.SerializeCompressed ++ [OP_3, OP_CHECKMULTISIG]) ∧
      (NewMultiSigAddress exampleLib BTC_TESNET 1 [pubKey1Hex]).map (fun a => a.redeemScript) ≠
        .ok (specRedeemScript 1 [pubKey1]) := by
  decide

/-- C2: `NewMultiSigAddress` returns an error, hence no address, when the threshold exceeds
the number of keys, is not positive, or the number of keys is zero or above 16; with
`1 ≤ t ≤ n ≤ 16` every error it returns is the error of key parsing, of the script builder,
of the address constructor or of the disassembler. -/
theorem NewMultiSigAddress_parameter_checks (lib : Btcd) (net : Params)
    (signaturesRequired : Int) (strPubKeys : List String) :
    ((signaturesRequired > (strPubKeys.length : Int) ∨ signaturesRequired ≤ 0 ∨
        strPubKeys.length = 0 ∨ strPubKeys.length > 16) →
      ∃ e, NewMultiSigAddress lib net signaturesRequired strPubKeys = .error e) ∧
    ((1 ≤ signaturesRequired ∧ signaturesRequired ≤ (strPubKeys.length : Int) ∧
        strPubKeys.length ≤ 16) →
      ∀ e, NewMultiSigAddress lib net signaturesRequired strPubKeys = .error e →
        getPubKeys lib strPubKeys = .error e ∨
        ∃ pubKey, getPubKeys lib strPubKeys = .ok pubKey ∧
          ((redeemScriptBuilder pubKey).Script = .error e ∨
           ∃ redeemScript, (redeemScriptBuilder pubKey).Script = .ok redeemScript ∧
            (lib.NewAddressScriptHashFromHash (lib.Hash160 redeemScript) net = .error e ∨
             lib.DisasmString redeemScript = .error e))) := by
  constructor
  · intro h
    unfold NewMultiSigAddress
    split
    · exact ⟨_, rfl⟩
    · split
      · exact ⟨_, rfl⟩
      · split
        · exact ⟨_, rfl⟩
        · omega
  · rintro ⟨h1, h2, h3⟩ e he
    unfold NewMultiSigAddress at he
    rw [if_neg (by omega), if_neg (by omega), if_neg (by omega)] at he
    cases hk : getPubKeys lib strPubKeys with
    | error e1 =>
      rw [hk] at he
      simp only [Except.error.injEq] at he
      exact Or.inl (by rw [he])
    | ok pubKey =>
      rw [hk] at he
      refine Or.inr ⟨pubKey, rfl, ?_⟩
      simp only [MultiSigAddress.buildRedeemScript] at he
      cases hb : (redeemScriptBuilder pubKey).Script with
      | error e1 =>
        rw [hb] at he
        simp only [Except.error.injEq] at he
        exact Or.inl (by rw [he])
      | ok redeemScript =>
        rw [hb] at he
        refine Or.inr ⟨redeemScript, rfl, ?_⟩
        simp only at he
        cases ha : lib.NewAddressScriptHashFromHash (lib.Hash160 redeemScript) net with
        | error e1 =>
          rw [ha] at he
          simp only [Except.error.injEq] at he
          exact Or.inl (by rw [he])
        | ok a =>
          rw [ha] at he
          simp only at he
          cases hd : lib.DisasmString redeemScript with
          | error e1 =>
            rw [hd] at he
            simp only [Except.error.injEq] at he
            exact Or.inr (by rw [he])
          | ok d =>
            rw [hd] at he
            cases he

/-- Witness of C2: three signatures of two keys are refused; the 2-of-3 address of
`examples/main.go` is accepted. -/
theorem NewMultiSigAddress_parameter_checks_witness :
    (∃ e, NewMultiSigAddress exampleLib BTC_TESNET 3 [pubKey1Hex, pubKey2Hex] = .error e) ∧
    (∃ addr, NewMultiSigAddress exampleLib BTC_TESNET 2 [pubKey1Hex, pubKey2Hex, pubKey3Hex] =
      .ok addr) ∧
    (∀ e, NewMultiSigAddress exampleLib BTC_TESNET 2 [pubKey1Hex, pubKey2Hex] = .error e →
        getPubKeys exampleLib [pubKey1Hex, pubKey2Hex] = .error e ∨
        ∃ pubKey, getPubKeys exampleLib [pubKey1Hex, pubKey2Hex] = .ok pubKey ∧
          ((redeemScriptBuilder pubKey).Script = .error e ∨
           ∃ redeemScript, (redeemScriptBuilder pubKey).Script = .ok redeemScript ∧
            (exampleLib.NewAddressScriptHashFromHash (exampleLib.Hash160 redeemScript)
                BTC_TESNET = .error e ∨
             exampleLib.DisasmString redeemScript = .error e))) :=
  ⟨(NewMultiSigAddress_parameter_checks exampleLib BTC_TESNET 3 [pubKey1Hex, pubKey2Hex]).1
      (by decide),
   ⟨valueOr exampleAddress emptyTx.Address, by decide⟩,
   (NewMultiSigAddress_parameter_checks exampleLib BTC_TESNET 2 [pubKey1Hex, pubKey2Hex]).2
      (by decide)⟩

/-! ## Signing -/

/-- C3, at the transaction of `examples/main.go` and the private key `n - privKey1`: its
public key is the opposite point of `pubKey1`, which is not in the key set of the address,
yet `Sign` returns no error and records a signature under the identity of `pubKey1`, because
`isSigned` compares the X coordinates only. -/
theorem Sign_accepts_key_outside_the_key_set :
    exampleTx = .ok tx0 ∧
    exampleLib.hexDecodeString negPrivKey1Hex = .ok (bigEndian 32 negPrivKey1) ∧
    exampleLib.PrivKeyFromBytes (bigEndian 32 negPrivKey1) = negPrivKey1 ∧
    exampleLib.PubKey negPrivKey1 = negPubKey1 ∧
    negPubKey1 ∉ tx0.Address.publicKeys ∧
    (tx0.Sign exampleLib negPrivKey1Hex SigHashAll).2 = none ∧
    (tx0.Sign exampleLib negPrivKey1Hex SigHashAll).1.signedCount =
      mapSet tx0.signedCount pubKey1.XString (some [[0x30, 0, negPrivKey1 % 256, 1]]) ∧
    (tx0.Sign exampleLib negPrivKey1Hex SigHashAll).1.signedCount ≠ tx0.signedCount := by
  decide

/-- C4: once `sign` with a key has returned no error, then after any further calls of `sign`,
`Sign`, `SignWithWIF` and `BuildScript`, a `sign` with that key and any sighash mode returns
the already-signed error and the transaction, its ledger included, is what it was. -/
theorem sign_again_is_rejected (lib : Btcd) (tx ta tb : SpendFromMultiSigTransaction)
    (privkey : PrivateKey) (sigType sigType1 : SigHashType) (calls : List Call)
    (h1 : tx.sign lib privkey sigType = (ta, none))
    (h2 : runCalls lib ta calls = some tb) :
    tb.sign lib privkey sigType1 =
      (tb, some "the transaction has already been signed with that private key") := by
  have hsigned : ∃ x, mapGet ta.signedCount (lib.PubKey privkey).XString = some (some x) := by
    cases hs : tx.isSigned (lib.PubKey privkey) with
    | some e =>
      simp [SpendFromMultiSigTransaction.sign, hs] at h1
    | none =>
      simp only [SpendFromMultiSigTransaction.sign, hs] at h1
      have := (congrArg Prod.fst h1).symm
      simp only at this
      subst this
      exact ⟨_, mapGet_mapSet_self _ _ _⟩
  obtain ⟨x, hx⟩ := runCalls_keeps_signed lib calls ta tb _ hsigned h2
  apply sign_of_isSigned_error
  unfold SpendFromMultiSigTransaction.isSigned
  rw [isSignedLoop_eq, hx]

/-- Witness of C4: `privKey1` signs the transaction of `examples/main.go`; after a
`SignWithWIF`, a `BuildScript` and a refused `sign`, it is refused. -/
theorem sign_again_is_rejected_witness :
    tx0.sign exampleLib privKey1 SigHashAll = (tx1, none) ∧
    runCalls exampleLib tx1 exampleCalls = some tx3 ∧
    tx3.sign exampleLib privKey1 SigHashSingle =
      (tx3, some "the transaction has already been signed with that private key") :=
  ⟨by decide, by decide,
   sign_again_is_rejected exampleLib tx0 tx1 tx3 privKey1 SigHashAll SigHashSingle exampleCalls
     (by decide) (by decide)⟩

/-- C5: when `sign` returns no error, the key was in the ledger and unsigned, the entry of
its identity now holds one signature per input, the `i`-th being the result of
`RawTxInSignature` on input `i` with the redeem script, the given mode and the given key;
every other entry, the inputs, the outputs and the address are unchanged. -/
theorem sign_records_one_signature_per_input (lib : Btcd) (tx ta : SpendFromMultiSigTransaction)
    (privkey : PrivateKey) (sigType : SigHashType)
    (h : tx.sign lib privkey sigType = (ta, none)) :
    mapGet tx.signedCount (lib.PubKey privkey).XString = some none ∧
    ta.baseTX = tx.baseTX ∧ ta.Address = tx.Address ∧
    (∃ sigs : List Bytes,
      mapGet ta.signedCount (lib.PubKey privkey).XString = some (some sigs) ∧
      sigs.length = tx.baseTX.TxIn.length ∧
      ∀ i, i < tx.baseTX.TxIn.length → ∃ sig, sigs[i]? = some sig ∧
        lib.RawTxInSignature tx.baseTX i tx.Address.redeemScript sigType privkey = .ok sig) ∧
    (∀ id, id ≠ (lib.PubKey privkey).XString →
      mapGet ta.signedCount id = mapGet tx.signedCount id) := by
  cases hs : tx.isSigned (lib.PubKey privkey) with
  | some e =>
    rw [sign_of_isSigned_error lib tx privkey sigType e hs] at h
    simp at h
  | none =>
    rw [sign_of_isSigned_ok lib tx privkey sigType hs] at h
    have hmem := mapGet_of_isSigned_none tx (lib.PubKey privkey) hs
    obtain ⟨h1, h2, -⟩ := signLoop_spec lib tx sigType privkey (List.range tx.baseTX.TxIn.length)
      (List.replicate tx.baseTX.TxIn.length []) (by simp) (List.nodup_range _)
    have htx : ta = ⟨tx.baseTX, tx.Address, mapSet tx.signedCount (lib.PubKey privkey).XString
        (some (signLoop lib tx sigType privkey (List.range tx.baseTX.TxIn.length)
          (List.replicate tx.baseTX.TxIn.length [])).1)⟩ := (congrArg Prod.fst h).symm
    have herr := congrArg Prod.snd h
    simp only at herr
    subst htx
    refine ⟨hmem, rfl, rfl, ⟨_, mapGet_mapSet_self _ _ _, by simpa using h1, ?_⟩, ?_⟩
    · intro i hi
      obtain ⟨sig, hr, hg⟩ := h2 herr i (List.mem_range.mpr hi)
      exact ⟨sig, hg, hr⟩
    · intro id hid
      exact mapGet_mapSet_other _ _ _ _ hid

/-- Witness of C5: the first signature of `examples/main.go`. -/
theorem sign_records_one_signature_per_input_witness :
    tx0.sign exampleLib privKey1 SigHashAll = (tx1, none) ∧
    mapGet tx1.signedCount (exampleLib.PubKey privKey1).XString =
      some (some [[0x30, 0, privKey1 % 256, 1]]) ∧
    (∃ sigs : List Bytes,
      mapGet tx1.signedCount (exampleLib.PubKey privKey1).XString = some (some sigs) ∧
      sigs.length = tx0.baseTX.TxIn.length ∧
      ∀ i, i < tx0.baseTX.TxIn.length → ∃ sig, sigs[i]? = some sig ∧
        exampleLib.RawTxInSignature tx0.baseTX i tx0.Address.redeemScript SigHashAll privKey1 =
          .ok sig) :=
  ⟨by decide, by decide,
   (sign_records_one_signature_per_input exampleLib tx0 tx1 privKey1 SigHashAll
     (by decide)).2.2.2.1⟩

/-! ## Script assembly below the threshold -/

/-- C6: when fewer entries are signed than `signaturesRequired`, `BuildScript` returns the
error `missing signatures, got <signed> of <required> required`, where `<signed>` is the
number of ledger entries that are not `nil`, and the transaction, hence every unlocking
script, is what it was. -/
theorem BuildScript_below_threshold (tx : SpendFromMultiSigTransaction) (outer : MapOrder)
    (inner : Nat → Nat → MapOrder)
    (h : tx.NumberOfSignaturesProvided < tx.Address.signaturesRequired) :
    tx.NumberOfSignaturesProvided = (tx.signedCount.countP (fun y => y.2.isSome) : Nat) ∧
    tx.BuildScript outer inner =
      .ret tx (some ("missing signatures, got " ++
        toString ((tx.signedCount.countP (fun y => y.2.isSome) : Nat) : Int) ++ " of " ++
        toString tx.Address.signaturesRequired ++ " required")) := by
  refine ⟨NumberOfSignaturesProvided_eq tx, ?_⟩
  rw [← NumberOfSignaturesProvided_eq tx]
  simp [SpendFromMultiSigTransaction.BuildScript, h, missingSignatures]

/-- Witness of C6: the transaction of `examples/main.go` after one of its two signatures. -/
theorem BuildScript_below_threshold_witness :
    tx1.NumberOfSignaturesProvided = 1 ∧ tx1.Address.signaturesRequired = 2 ∧
    tx1.BuildScript storedOrder (fun _ _ => rotatedOrder) =
      .ret tx1 (some "missing signatures, got 1 of 2 required") :=
  ⟨by decide, by decide,
   (BuildScript_below_threshold tx1 storedOrder (fun _ _ => rotatedOrder) (by decide)).2⟩

/-! ## Script assembly at the threshold -/

/-- C7, as stated, fails on a 1-of-16 address: the transaction is built and signed, the
threshold is met, and `BuildScript` returns the error of the script builder, which refuses
the 547-byte redeem script as one pushed element. -/
theorem BuildScript_fails_with_sixteen_keys :
    NewMultiSigAddress exampleLib BTC_TESNET 1 (List.replicate 16 pubKey1Hex) =
      .ok wideAddress ∧
    wideAddress.redeemScript.length = 547 ∧
    NewSpendFromMultiSigTransaction exampleLib wholeFloat64 wideAddress exampleUtxos
      exampleOutputs = .ok wideTx0 ∧
    wideTx0.Sign exampleLib privKey1Hex SigHashAll = (wideTx1, none) ∧
    wideTx1.Address.signaturesRequired ≤ wideTx1.NumberOfSignaturesProvided ∧
    wideTx1.BuildScript storedOrder (fun _ _ => storedOrder) =
      .ret wideTx1 (some ErrScriptNotCanonical) := by
  decide!

/-- C7, as amended: for a reachable transaction whose address has at most 15 keys, with
signatures of at most 73 bytes and at least `signaturesRequired` signed entries, `BuildScript`
returns no error, and every input `i` then holds the script `OP_0`, one pushed signature for
input `i` per signed entry (as many as `NumberOfSignaturesProvided`) in the order in which
one of the calls for `i` visited the ledger, then the redeem script pushed as one element. -/
theorem BuildScript_assembles_every_input (lib : Btcd) (tx : SpendFromMultiSigTransaction)
    (outer : MapOrder) (inner : Nat → Nat → MapOrder)
    (hlib : SignsWithin 73 lib) (hr : Reachable lib tx)
    (hkeys : tx.Address.publicKeys.length ≤ 15)
    (hcount : tx.Address.signaturesRequired ≤ tx.NumberOfSignaturesProvided) :
    ∃ t, tx.BuildScript outer inner = .ret t none ∧
      ∀ i, i < tx.baseTX.TxIn.length → ∃ j,
        scriptAt t i = some (unlockingScript
          (signaturesFor i ((inner j i).visit tx.signedCount)) tx.Address.redeemScript) ∧
        ((signaturesFor i ((inner j i).visit tx.signedCount)).length : Int) =
          tx.NumberOfSignaturesProvided := by
  obtain ⟨⟨w1, w2, w3, w4, w5⟩, hsig⟩ := Reachable_invariants 73 lib hlib tx hr
  have hg : Assemblable tx :=
    ⟨hcount, fun e he x hx => ⟨w4 e he x hx, hsig e he x hx⟩, by omega,
      by simp only [MaxScriptElementSize]; omega⟩
  obtain ⟨t, r1, -, -, -, r5⟩ := BuildScript_ok tx outer inner hg w1
  refine ⟨t, r1, ?_⟩
  intro i hi
  obtain ⟨j, hj⟩ := r5 i hi
  exact ⟨j, hj, signaturesFor_length_visit tx (inner j i) i⟩

/-- Witness of C7: the transaction of `examples/main.go` after its two signatures. -/
theorem BuildScript_assembles_every_input_witness :
    tx2.Address.publicKeys.length ≤ 15 ∧
    tx2.Address.signaturesRequired ≤ tx2.NumberOfSignaturesProvided ∧
    ∃ t, tx2.BuildScript storedOrder (fun _ _ => rotatedOrder) = .ret t none ∧
      ∀ i, i < tx2.baseTX.TxIn.length → ∃ _j : Nat,
        scriptAt t i = some (unlockingScript
          (signaturesFor i (rotatedOrder.visit tx2.signedCount)) tx2.Address.redeemScript) ∧
        ((signaturesFor i (rotatedOrder.visit tx2.signedCount)).length : Int) =
          tx2.NumberOfSignaturesProvided :=
  ⟨by decide, by decide,
   BuildScript_assembles_every_input exampleLib tx2 storedOrder (fun _ _ => rotatedOrder)
    (by
      intro msg idx subScript hashType key s h
      simp only [exampleLib] at h
      split at h
      · simp only [Except.ok.injEq] at h
        rw [← h]
        simp
      · cases h)
    (Reachable.call tx1 tx2 (.SignWithWIF wif2String SigHashAll)
      (Reachable.call tx0 tx1 (.Sign privKey1Hex SigHashAll)
        (Reachable.new wholeFloat64 BTC_TESNET 2 [pubKey1Hex, pubKey2Hex, pubKey3Hex]
          exampleAddressValue exampleUtxos exampleOutputs tx0 (by decide) (by decide))
        (by decide))
      (by decide))
    (by decide) (by decide)⟩

/-- C8, as stated, fails on the transaction of `examples/main.go` after its two signatures:
when the assembling call visits the ledger from its second entry, the signature of `pubKey2`
is pushed before that of `pubKey1`. -/
theorem BuildScript_signatures_against_key_order :
    tx0.Sign exampleLib privKey1Hex SigHashAll = (tx1, none) ∧
    tx1.SignWithWIF exampleLib wif2String SigHashAll = (tx2, none) ∧
    tx2.BuildScript storedOrder (fun _ _ => rotatedOrder) = .ret tx2Built none ∧
    signaturesInKeyOrder tx2 0 =
      [[0x30, 0, privKey1 % 256, 1], [0x30, 0, privKey2 % 256, 1]] ∧
    scriptAt tx2Built 0 = some (unlockingScript
      [[0x30, 0, privKey2 % 256, 1], [0x30, 0, privKey1 % 256, 1]] tx2.Address.redeemScript) ∧
    scriptAt tx2Built 0 ≠
      some (unlockingScript (signaturesInKeyOrder tx2 0) tx2.Address.redeemScript) := by
  decide

/-- C8, as amended: after a `BuildScript` that returned no error, every unlocking script it
has assembled holds the signatures in the order in which the assembling call visited the
ledger map, a rearrangement of the ledger entries that need not follow the key set. -/
theorem BuildScript_signatures_in_visiting_order (tx t : SpendFromMultiSigTransaction)
    (outer : MapOrder) (inner : Nat → Nat → MapOrder)
    (h : tx.BuildScript outer inner = .ret t none) :
    ∀ i, scriptAt t i = scriptAt tx i ∨ ∃ j,
      ((inner j i).visit tx.signedCount).Perm tx.signedCount ∧
      scriptAt t i = some (unlockingScript
        (signaturesFor i ((inner j i).visit tx.signedCount)) tx.Address.redeemScript) := by
  unfold SpendFromMultiSigTransaction.BuildScript at h
  split at h
  · cases h
  · intro i
    rcases buildEntriesLoop_of_ok inner _ 0 tx t h i with h1 | ⟨j, h1⟩
    · exact Or.inl h1
    · exact Or.inr ⟨j, (inner j i).perm _, h1⟩

/-- Witness of C8: the same transaction and visiting order. -/
theorem BuildScript_signatures_in_visiting_order_witness :
    tx2.BuildScript storedOrder (fun _ _ => rotatedOrder) = .ret tx2Built none ∧
    ∀ i, scriptAt tx2Built i = scriptAt tx2 i ∨ ∃ _j : Nat,
      (rotatedOrder.visit tx2.signedCount).Perm tx2.signedCount ∧
      scriptAt tx2Built i = some (unlockingScript
        (signaturesFor i (rotatedOrder.visit tx2.signedCount)) tx2.Address.redeemScript) :=
  ⟨by decide,
   BuildScript_signatures_in_visiting_order tx2 tx2Built storedOrder (fun _ _ => rotatedOrder)
     (by decide)⟩

/-! ## Selection and funding -/

/-- C9, at the amounts 5, 3, 2 and the target 4: `selectUtxos` returns the empty selection,
not the UTXO of amount 5; the slice `unspentInputs[:i]` stops before the UTXO whose amount
takes the running total above the target. -/
theorem selectUtxos_leaves_out_the_crossing_utxo :
    selectUtxos wholeFloat64 insertionSorter [⟨"a", 0, 5⟩, ⟨"b", 0, 3⟩, ⟨"c", 0, 2⟩]
        [⟨"d", 4⟩] = [] ∧
    selectUtxos wholeFloat64 insertionSorter [⟨"a", 0, 5⟩, ⟨"b", 0, 3⟩, ⟨"c", 0, 2⟩]
        [⟨"d", 4⟩] ≠ [⟨"a", 0, 5⟩] := by
  decide

/-- C10: when `balance(utxos) < totalInOutputSet(outputs)`, `NewSpendFromMultiSigTransaction`
returns the not-enough-balance error and no transaction, whatever the collaborators would
answer on the hashes and addresses. -/
theorem NewSpend_rejects_insufficient_balance {F : Type} (lib : Btcd) (fo : Float64 F)
    (multisigAddress : MultiSigAddress) (utxos : List (UTXO F)) (outputs : List (Output F))
    (h : fo.lt (balance fo utxos) (totalInOutputSet fo outputs) = true) :
    NewSpendFromMultiSigTransaction lib fo multisigAddress utxos outputs =
      .error "not enough balance to create the transaction" := by
  simp [NewSpendFromMultiSigTransaction, h]

/-- Witness of C10: one UTXO of 20 against outputs of 15 and 6. -/
theorem NewSpend_rejects_insufficient_balance_witness :
    wholeFloat64.lt (balance wholeFloat64 exampleUtxos)
      (totalInOutputSet wholeFloat64 [⟨"mxVFsFW5N4mu1HPkxPttorvocvzeZ7KZyk", 15⟩,
        ⟨"2NBvH4xmZYTPyDpotHWzHFy1QwY2G5C6HKP", 6⟩]) = true ∧
    NewSpendFromMultiSigTransaction exampleLib wholeFloat64 emptyTx.Address exampleUtxos
      [⟨"mxVFsFW5N4mu1HPkxPttorvocvzeZ7KZyk", 15⟩, ⟨"2NBvH4xmZYTPyDpotHWzHFy1QwY2G5C6HKP", 6⟩] =
      .error "not enough balance to create the transaction" :=
  ⟨by decide,
   NewSpend_rejects_insufficient_balance exampleLib wholeFloat64 emptyTx.Address exampleUtxos
     [⟨"mxVFsFW5N4mu1HPkxPttorvocvzeZ7KZyk", 15⟩, ⟨"2NBvH4xmZYTPyDpotHWzHFy1QwY2G5C6HKP", 6⟩]
     (by decide)⟩

/-! ## Lemmas on the frame, the ledger keys and the constructors -/

theorem withoutScripts_setSignatureScript (msg : MsgTx) (i : Nat) (script : Bytes) :
    withoutScripts (setSignatureScript msg i script) = withoutScripts msg := by
  have h : ∀ (l : List TxIn) (n : Nat),
      (l.modify (fun ti => { ti with SignatureScript := script }) n).map
          (fun ti => (⟨ti.PreviousOutPoint, [], ti.Witness, ti.Sequence⟩ : TxIn)) =
        l.map (fun ti => (⟨ti.PreviousOutPoint, [], ti.Witness, ti.Sequence⟩ : TxIn)) := by
    intro l
    induction l with
    | nil => intro n; simp
    | cons a rest ih =>
      intro n
      cases n with
      | zero => simp
      | succ k => simp [ih k]
  simp only [withoutScripts, setSignatureScript, h]

theorem buildRespectiveInputScript_withoutScripts (tx t : SpendFromMultiSigTransaction)
    (ord : MapOrder) (inputIndex : Int) (e : Option String)
    (h : tx.buildRespectiveInputScript ord inputIndex = .ret t e) :
    withoutScripts t.baseTX = withoutScripts tx.baseTX := by
  unfold SpendFromMultiSigTransaction.buildRespectiveInputScript at h
  split at h
  · cases h; rfl
  · split at h
    · cases h; rfl
    · split at h
      · cases h
      · split at h
        · cases h; rfl
        · cases h
          exact withoutScripts_setSignatureScript _ _ _

theorem buildInputsLoop_withoutScripts (inner : Nat → MapOrder) (is : List Nat)
    (tx t : SpendFromMultiSigTransaction) (e : Option String)
    (h : buildInputsLoop inner is tx = .ret t e) :
    withoutScripts t.baseTX = withoutScripts tx.baseTX := by
  induction is generalizing tx with
  | nil =>
    simp only [buildInputsLoop] at h
    cases h; rfl
  | cons i rest ih =>
    simp only [buildInputsLoop] at h
    cases hb : tx.buildRespectiveInputScript (inner i) (i : Int) with
    | panic => rw [hb] at h; cases h
    | ret t1 er =>
      have f := buildRespectiveInputScript_withoutScripts tx t1 (inner i) i er hb
      rw [hb] at h
      cases er with
      | some msg => cases h; exact f
      | none => exact (ih t1 h).trans f

theorem buildEntriesLoop_withoutScripts (inner : Nat → Nat → MapOrder) (es : Ledger) (j : Nat)
    (tx t : SpendFromMultiSigTransaction) (e : Option String)
    (h : buildEntriesLoop inner es j tx = .ret t e) :
    withoutScripts t.baseTX = withoutScripts tx.baseTX := by
  induction es generalizing tx j with
  | nil =>
    simp only [buildEntriesLoop] at h
    cases h; rfl
  | cons en rest ih =>
    obtain ⟨k, x⟩ := en
    simp only [buildEntriesLoop] at h
    cases hb : buildInputsLoop (inner j) (List.range (x.elim 0 List.length)) tx with
    | panic => rw [hb] at h; cases h
    | ret t1 er =>
      have f := buildInputsLoop_withoutScripts _ _ tx t1 er hb
      rw [hb] at h
      cases er with
      | some msg => cases h; exact f
      | none => exact (ih (j + 1) t1 h).trans f

theorem BuildScript_withoutScripts (tx t : SpendFromMultiSigTransaction) (outer : MapOrder)
    (inner : Nat → Nat → MapOrder) (e : Option String)
    (h : tx.BuildScript outer inner = .ret t e) :
    withoutScripts t.baseTX = withoutScripts tx.baseTX := by
  unfold SpendFromMultiSigTransaction.BuildScript at h
  split at h
  · cases h; rfl
  · exact buildEntriesLoop_withoutScripts inner _ 0 tx t e h

theorem previousOutPoints_of_withoutScripts (a b : MsgTx)
    (h : withoutScripts a = withoutScripts b) :
    a.TxIn.map (fun ti => ti.PreviousOutPoint) = b.TxIn.map (fun ti => ti.PreviousOutPoint) ∧
      a.TxOut = b.TxOut := by
  have h1 := congrArg (fun m => m.TxIn.map (fun ti => ti.PreviousOutPoint)) h
  have h2 := congrArg (fun m => m.TxOut) h
  simp only [withoutScripts, List.map_map] at h1 h2
  exact ⟨h1, h2⟩

theorem sign_LedgerFits (lib : Btcd) (tx : SpendFromMultiSigTransaction) (privkey : PrivateKey)
    (sigType : SigHashType) (h : LedgerFits tx) : LedgerFits (tx.sign lib privkey sigType).1 := by
  cases hs : tx.isSigned (lib.PubKey privkey) with
  | some e =>
    rw [sign_of_isSigned_error lib tx privkey sigType e hs]
    exact h
  | none =>
    rw [sign_of_isSigned_ok lib tx privkey sigType hs]
    intro e he x hx
    rcases mem_mapSet _ _ _ e he with h1 | h1
    · rw [h1] at hx
      simp only [Option.some.injEq] at hx
      rw [← hx]
      have := (signLoop_spec lib tx sigType privkey (List.range tx.baseTX.TxIn.length)
        (List.replicate tx.baseTX.TxIn.length []) (by simp) (List.nodup_range _)).1
      simpa using this
    · exact h e h1 x hx

theorem sign_frame (lib : Btcd) (tx : SpendFromMultiSigTransaction) (privkey : PrivateKey)
    (sigType : SigHashType) :
    (tx.sign lib privkey sigType).1.baseTX = tx.baseTX ∧
      (tx.sign lib privkey sigType).1.Address = tx.Address := by
  cases hs : tx.isSigned (lib.PubKey privkey) with
  | some e =>
    rw [sign_of_isSigned_error lib tx privkey sigType e hs]
    exact ⟨rfl, rfl⟩
  | none =>
    rw [sign_of_isSigned_ok lib tx privkey sigType hs]
    exact ⟨rfl, rfl⟩

theorem ledgerKeys_mapSet (m : Ledger) (k : String) (v : Signatures) :
    ledgerKeys (mapSet m k v) =
      if k ∈ ledgerKeys m then ledgerKeys m else ledgerKeys m ++ [k] := by
  induction m with
  | nil => simp [mapSet, ledgerKeys]
  | cons e rest ih =>
    obtain ⟨k0, v0⟩ := e
    unfold ledgerKeys at ih ⊢
    by_cases h0 : k0 = k
    · subst h0
      simp [mapSet]
    · have h1 : ¬ k = k0 := fun h => h0 h.symm
      simp only [mapSet, h0, if_false, List.map_cons, List.mem_cons, h1, false_or, ih]
      split <;> simp

theorem mem_ledgerKeys_iff (m : Ledger) (id : String) :
    id ∈ ledgerKeys m ↔ ∃ v, mapGet m id = some v := by
  induction m with
  | nil => simp [ledgerKeys, mapGet]
  | cons e rest ih =>
    obtain ⟨k0, v0⟩ := e
    unfold ledgerKeys at ih ⊢
    by_cases h0 : k0 = id
    · subst h0
      simp [mapGet]
    · have h1 : ¬ id = k0 := fun h => h0 h.symm
      simp only [List.map_cons, List.mem_cons, h1, false_or, mapGet, h0, if_false, ih]

theorem ledgerKeys_mapSet_of_mapGet (m : Ledger) (k : String) (v v0 : Signatures)
    (h : mapGet m k = some v0) : ledgerKeys (mapSet m k v) = ledgerKeys m := by
  rw [ledgerKeys_mapSet, if_pos ((mem_ledgerKeys_iff m k).mpr ⟨v0, h⟩)]

theorem setPubKeys_keys (keys : List PublicKey) (m : Ledger) (hm : (ledgerKeys m).Nodup) :
    (ledgerKeys (keys.foldl (fun m x => mapSet m x.XString none) m)).Nodup ∧
      ∀ id, id ∈ ledgerKeys (keys.foldl (fun m x => mapSet m x.XString none) m) ↔
        id ∈ ledgerKeys m ∨ id ∈ keys.map PublicKey.XString := by
  induction keys generalizing m with
  | nil => exact ⟨hm, by simp⟩
  | cons pk rest ih =>
    have hnd : (ledgerKeys (mapSet m pk.XString none)).Nodup := by
      rw [ledgerKeys_mapSet]
      split
      · exact hm
      · rename_i hnot
        exact List.Nodup.append hm (List.nodup_singleton _) (by simpa using hnot)
    obtain ⟨i1, i2⟩ := ih (mapSet m pk.XString none) hnd
    refine ⟨i1, ?_⟩
    intro id
    simp only [List.foldl_cons, i2, List.map_cons, List.mem_cons]
    rw [ledgerKeys_mapSet]
    split
    · rename_i hin
      constructor
      · rintro (h | h)
        · exact Or.inl h
        · exact Or.inr (Or.inr h)
      · rintro (h | h | h)
        · exact Or.inl h
        · exact Or.inl (h ▸ hin)
        · exact Or.inr h
    · simp only [List.mem_append, List.mem_singleton]
      tauto

theorem sign_ledgerKeys (lib : Btcd) (tx : SpendFromMultiSigTransaction) (privkey : PrivateKey)
    (sigType : SigHashType) :
    ledgerKeys (tx.sign lib privkey sigType).1.signedCount = ledgerKeys tx.signedCount := by
  cases hs : tx.isSigned (lib.PubKey privkey) with
  | some e => rw [sign_of_isSigned_error lib tx privkey sigType e hs]
  | none =>
    rw [sign_of_isSigned_ok lib tx privkey sigType hs]
    exact ledgerKeys_mapSet_of_mapGet _ _ _ _ (mapGet_of_isSigned_none tx _ hs)

theorem sign_keeps_entry (lib : Btcd) (tx : SpendFromMultiSigTransaction) (privkey : PrivateKey)
    (sigType : SigHashType) (id : String) (x : List Bytes)
    (h : mapGet tx.signedCount id = some (some x)) :
    mapGet (tx.sign lib privkey sigType).1.signedCount id = some (some x) := by
  cases hs : tx.isSigned (lib.PubKey privkey) with
  | some e =>
    rw [sign_of_isSigned_error lib tx privkey sigType e hs]
    exact h
  | none =>
    rw [sign_of_isSigned_ok lib tx privkey sigType hs]
    have hne : id ≠ (lib.PubKey privkey).XString := by
      intro heq
      have := mapGet_of_isSigned_none tx _ hs
      rw [← heq, h] at this
      cases this
    show mapGet (mapSet _ _ _) id = _
    rw [mapGet_mapSet_other _ _ _ _ hne]
    exact h

/-- What one call keeps of a transaction: its address, the number of its inputs, the keys of
its ledger and every signed entry. -/
theorem Call_run_keeps (lib : Btcd) (tx t : SpendFromMultiSigTransaction) (c : Call)
    (hr : c.run lib tx = some t) :
    t.Address = tx.Address ∧ t.baseTX.TxIn.length = tx.baseTX.TxIn.length ∧
      ledgerKeys t.signedCount = ledgerKeys tx.signedCount ∧
      (LedgerFits tx → LedgerFits t) ∧
      ∀ id x, mapGet tx.signedCount id = some (some x) →
        mapGet t.signedCount id = some (some x) := by
  have hsign : ∀ privkey sigType,
      (tx.sign lib privkey sigType).1.Address = tx.Address ∧
      (tx.sign lib privkey sigType).1.baseTX.TxIn.length = tx.baseTX.TxIn.length ∧
      ledgerKeys (tx.sign lib privkey sigType).1.signedCount = ledgerKeys tx.signedCount ∧
      (LedgerFits tx → LedgerFits (tx.sign lib privkey sigType).1) ∧
      ∀ id x, mapGet tx.signedCount id = some (some x) →
        mapGet (tx.sign lib privkey sigType).1.signedCount id = some (some x) := by
    intro privkey sigType
    obtain ⟨f1, f2⟩ := sign_frame lib tx privkey sigType
    exact ⟨f2, by rw [f1], sign_ledgerKeys lib tx privkey sigType,
      sign_LedgerFits lib tx privkey sigType,
      fun id x h => sign_keeps_entry lib tx privkey sigType id x h⟩
  cases c with
  | sign privkey sigType =>
    simp only [Call.run, Option.some.injEq] at hr
    subst hr
    exact hsign privkey sigType
  | Sign privKey sigType =>
    simp only [Call.run, Option.some.injEq] at hr
    subst hr
    unfold SpendFromMultiSigTransaction.Sign
    split
    · exact ⟨rfl, rfl, rfl, id, fun _ _ h => h⟩
    · exact hsign _ sigType
  | SignWithWIF WIF sigType =>
    simp only [Call.run, Option.some.injEq] at hr
    subst hr
    unfold SpendFromMultiSigTransaction.SignWithWIF
    split
    · exact ⟨rfl, rfl, rfl, id, fun _ _ h => h⟩
    · exact hsign _ sigType
  | BuildScript outer inner =>
    simp only [Call.run] at hr
    cases hb : tx.BuildScript outer inner with
    | panic => rw [hb] at hr; cases hr
    | ret t1 e =>
      rw [hb] at hr
      simp only [Option.some.injEq] at hr
      subst hr
      obtain ⟨f1, f2, f3⟩ := BuildScript_frame tx t1 outer inner e hb
      refine ⟨f2, f3, by rw [f1], ?_, ?_⟩
      · intro h
        unfold LedgerFits
        rw [f1, f3]
        exact h
      · intro id x h
        rw [f1]
        exact h

theorem runCalls_keeps (lib : Btcd) (calls : List Call) (tx t : SpendFromMultiSigTransaction)
    (hr : runCalls lib tx calls = some t) :
    t.Address = tx.Address ∧ t.baseTX.TxIn.length = tx.baseTX.TxIn.length ∧
      ledgerKeys t.signedCount = ledgerKeys tx.signedCount ∧
      (LedgerFits tx → LedgerFits t) ∧
      ∀ id x, mapGet tx.signedCount id = some (some x) →
        mapGet t.signedCount id = some (some x) := by
  induction calls generalizing tx with
  | nil =>
    simp only [runCalls, Option.some.injEq] at hr
    subst hr
    exact ⟨rfl, rfl, rfl, id, fun _ _ h => h⟩
  | cons c rest ih =>
    simp only [runCalls] at hr
    cases hc : c.run lib tx with
    | none => rw [hc] at hr; cases hr
    | some t1 =>
      rw [hc] at hr
      obtain ⟨a1, a2, a3, a4, a5⟩ := Call_run_keeps lib tx t1 c hc
      obtain ⟨b1, b2, b3, b4, b5⟩ := ih t1 hr
      exact ⟨b1.trans a1, b2.trans a2, b3.trans a3, fun h => b4 (a4 h),
        fun id x h => b5 id x (a5 id x h)⟩

theorem NewSpend_ledger {F : Type} (lib : Btcd) (fo : Float64 F) (addr : MultiSigAddress)
    (utxos : List (UTXO F)) (outputs : List (Output F)) (tx : SpendFromMultiSigTransaction)
    (h : NewSpendFromMultiSigTransaction lib fo addr utxos outputs = .ok tx) :
    tx.Address = addr ∧ (∀ e ∈ tx.signedCount, e.2 = none) ∧
      (ledgerKeys tx.signedCount).Nodup ∧
      ∀ id, id ∈ ledgerKeys tx.signedCount ↔ id ∈ addr.publicKeys.map PublicKey.XString := by
  obtain ⟨s1, s2, -⟩ := NewSpend_ok lib fo addr utxos outputs tx h
  refine ⟨s1, s2, ?_⟩
  unfold NewSpendFromMultiSigTransaction at h
  split at h
  · cases h
  · split at h
    · cases h
    · split at h
      · cases h
      · simp only [Except.ok.injEq] at h
        subst h
        obtain ⟨k1, k2⟩ := setPubKeys_keys addr.publicKeys [] (by simp [ledgerKeys])
        exact ⟨k1, fun id => by simpa [ledgerKeys] using k2 id⟩

theorem mem_of_mapGet (m : Ledger) (id : String) (v : Signatures)
    (h : mapGet m id = some v) : (id, v) ∈ m := by
  induction m with
  | nil => simp [mapGet] at h
  | cons e rest ih =>
    obtain ⟨k0, v0⟩ := e
    by_cases h0 : k0 = id
    · subst h0
      simp only [mapGet, if_true, Option.some.injEq] at h
      subst h
      exact List.mem_cons_self _ _
    · simp only [mapGet, h0, if_false] at h
      exact List.mem_cons_of_mem _ (ih h)

theorem NumberOfSignaturesProvided_of_unsigned (tx : SpendFromMultiSigTransaction)
    (h : ∀ e ∈ tx.signedCount, e.2 = none) : tx.NumberOfSignaturesProvided = 0 := by
  rw [NumberOfSignaturesProvided_eq]
  have : tx.signedCount.countP (fun y => y.2.isSome) = 0 := by
    rw [List.countP_eq_zero]
    intro e he
    simp [h e he]
  simp [this]

theorem pushSignatures_defined (inputIndex : Nat) (l : Ledger) (b : ScriptBuilder)
    (hl : ∀ e ∈ l, ∀ x, e.2 = some x → inputIndex < x.length) :
    ∃ b1, pushSignatures inputIndex l b = some b1 := by
  induction l generalizing b with
  | nil => exact ⟨b, rfl⟩
  | cons e rest ih =>
    obtain ⟨k, v⟩ := e
    have hrest : ∀ e ∈ rest, ∀ x, e.2 = some x → inputIndex < x.length :=
      fun e he => hl e (List.mem_cons_of_mem _ he)
    cases v with
    | none =>
      simp only [pushSignatures]
      exact ih b hrest
    | some x =>
      have hlt := hl (k, some x) (List.mem_cons_self _ _) x rfl
      have hget : x.get? inputIndex = some (x.getD inputIndex []) := by
        simp [List.getD_eq_getElem?_getD, List.get?_eq_getElem?, hlt]
      simp only [pushSignatures, hget]
      exact ih _ hrest

theorem buildRespectiveInputScript_defined (tx : SpendFromMultiSigTransaction) (ord : MapOrder)
    (inputIndex : Int) (hfit : LedgerFits tx) :
    tx.buildRespectiveInputScript ord inputIndex ≠ .panic ∧
    ((inputIndex < 0 ∨ inputIndex ≥ (tx.baseTX.TxIn.length : Int)) →
      ∃ e, tx.buildRespectiveInputScript ord inputIndex = .ret tx (some e)) := by
  constructor
  · unfold SpendFromMultiSigTransaction.buildRespectiveInputScript
    split
    · intro h; cases h
    · split
      · intro h; cases h
      · rename_i hrange
        have hvis : ∀ e ∈ ord.visit tx.signedCount, ∀ x, e.2 = some x →
            inputIndex.toNat < x.length := by
          intro e he x hx
          rw [hfit e ((ord.perm tx.signedCount).mem_iff.mp he) x hx]
          omega
        obtain ⟨b1, hb1⟩ := pushSignatures_defined inputIndex.toNat _
          (NewScriptBuilder.AddOp OP_FALSE) hvis
        rw [hb1]
        simp only
        split
        · intro h; cases h
        · intro h; cases h
  · intro hout
    unfold SpendFromMultiSigTransaction.buildRespectiveInputScript
    split
    · exact ⟨_, rfl⟩
    · exact ⟨_, rfl⟩

theorem addInputs_of_ok {F : Type} (lib : Btcd) (utxos : List (UTXO F)) (msgtx m1 : MsgTx)
    (h : addInputs lib utxos msgtx = .ok m1) :
    ∃ ins, m1 = ⟨msgtx.Version, msgtx.TxIn ++ ins, msgtx.TxOut, msgtx.LockTime⟩ ∧
      List.Forall₂ (inputOf lib) utxos ins := by
  induction utxos generalizing msgtx with
  | nil =>
    simp only [addInputs, Except.ok.injEq] at h
    subst h
    exact ⟨[], by simp, List.Forall₂.nil⟩
  | cons x rest ih =>
    simp only [addInputs] at h
    split at h
    · cases h
    · rename_i utxoHash hh
      obtain ⟨ins, e1, e2⟩ := ih _ h
      refine ⟨NewTxIn ⟨utxoHash, (x.Vout % 4294967296).toNat⟩ [] [] :: ins, ?_, ?_⟩
      · rw [e1]
        simp [MsgTx.AddTxIn]
      · refine List.Forall₂.cons ⟨hh, ?_, rfl, rfl, rfl⟩ e2
        simp only [NewTxIn]
        omega

theorem addInputs_ok {F : Type} (lib : Btcd) (utxos : List (UTXO F)) (msgtx : MsgTx)
    (hhash : ∀ x ∈ utxos, ∃ h, lib.NewHashFromStr x.Hash = .ok h) :
    ∃ m1, addInputs lib utxos msgtx = .ok m1 := by
  induction utxos generalizing msgtx with
  | nil => exact ⟨msgtx, rfl⟩
  | cons x rest ih =>
    obtain ⟨h, hh⟩ := hhash x (List.mem_cons_self _ _)
    simp only [addInputs, hh]
    exact ih _ (fun y hy => hhash y (List.mem_cons_of_mem _ hy))

theorem addOutputs_of_ok {F : Type} (lib : Btcd) (fo : Float64 F) (net : Params)
    (outputs : List (Output F)) (msgtx m1 : MsgTx)
    (h : addOutputs lib fo net outputs msgtx = .ok m1) :
    ∃ outs, m1 = ⟨msgtx.Version, msgtx.TxIn, msgtx.TxOut ++ outs, msgtx.LockTime⟩ ∧
      List.Forall₂ (outputOf lib fo net) outputs outs := by
  induction outputs generalizing msgtx with
  | nil =>
    simp only [addOutputs, Except.ok.injEq] at h
    subst h
    exact ⟨[], by simp, List.Forall₂.nil⟩
  | cons x rest ih =>
    simp only [addOutputs] at h
    split at h
    · cases h
    · rename_i addressDecoded hd
      split at h
      · cases h
      · rename_i addrBytes hp
        obtain ⟨outs, e1, e2⟩ := ih _ h
        refine ⟨⟨amountInSats fo x.Amount, addrBytes⟩ :: outs, ?_, ?_⟩
        · rw [e1]
          simp [MsgTx.AddTxOut]
        · exact List.Forall₂.cons ⟨⟨addressDecoded, hd, hp⟩, rfl⟩ e2

theorem addOutputs_ok {F : Type} (lib : Btcd) (fo : Float64 F) (net : Params)
    (outputs : List (Output F)) (msgtx : MsgTx)
    (haddr : ∀ x ∈ outputs, ∃ a s, lib.DecodeAddress x.Address net = .ok a ∧
      lib.PayToAddrScript a = .ok s) :
    ∃ m1, addOutputs lib fo net outputs msgtx = .ok m1 := by
  induction outputs generalizing msgtx with
  | nil => exact ⟨msgtx, rfl⟩
  | cons x rest ih =>
    obtain ⟨a, s, ha, hs⟩ := haddr x (List.mem_cons_self _ _)
    simp only [addOutputs, ha, hs]
    exact ih _ (fun y hy => haddr y (List.mem_cons_of_mem _ hy))

theorem NewSpend_of_ok {F : Type} (lib : Btcd) (fo : Float64 F) (addr : MultiSigAddress)
    (utxos : List (UTXO F)) (outputs : List (Output F)) (tx : SpendFromMultiSigTransaction)
    (h : NewSpendFromMultiSigTransaction lib fo addr utxos outputs = .ok tx) :
    fo.lt (balance fo utxos) (totalInOutputSet fo outputs) = false ∧
    tx.baseTX.Version = TxVersion ∧ tx.baseTX.LockTime = 0 ∧
    List.Forall₂ (inputOf lib) utxos tx.baseTX.TxIn ∧
    List.Forall₂ (outputOf lib fo addr.Network) outputs tx.baseTX.TxOut := by
  unfold NewSpendFromMultiSigTransaction at h
  split at h
  · cases h
  · rename_i hlt
    split at h
    · cases h
    · rename_i m1 hin
      split at h
      · cases h
      · rename_i m2 hout
        simp only [Except.ok.injEq] at h
        subst h
        obtain ⟨ins, e1, e2⟩ := addInputs_of_ok lib utxos _ m1 hin
        obtain ⟨outs, e3, e4⟩ := addOutputs_of_ok lib fo addr.Network outputs _ m2 hout
        subst e1
        subst e3
        refine ⟨by simpa using hlt, rfl, rfl, ?_, ?_⟩
        · simpa [SpendFromMultiSigTransaction.setPubKeys, NewMsgTx] using e2
        · simpa [SpendFromMultiSigTransaction.setPubKeys, NewMsgTx] using e4

theorem NewSpend_succeeds {F : Type} (lib : Btcd) (fo : Float64 F) (addr : MultiSigAddress)
    (utxos : List (UTXO F)) (outputs : List (Output F))
    (hbal : fo.lt (balance fo utxos) (totalInOutputSet fo outputs) = false)
    (hhash : ∀ x ∈ utxos, ∃ h, lib.NewHashFromStr x.Hash = .ok h)
    (haddr : ∀ x ∈ outputs, ∃ a s, lib.DecodeAddress x.Address addr.Network = .ok a ∧
      lib.PayToAddrScript a = .ok s) :
    ∃ tx, NewSpendFromMultiSigTransaction lib fo addr utxos outputs = .ok tx := by
  obtain ⟨m1, h1⟩ := addInputs_ok lib utxos (NewMsgTx TxVersion) hhash
  obtain ⟨m2, h2⟩ := addOutputs_ok lib fo addr.Network outputs m1 haddr
  unfold NewSpendFromMultiSigTransaction
  simp only [hbal, h1, h2]
  exact ⟨_, rfl⟩

theorem balance_append {F : Type} (fo : Float64 F) (a b : List (UTXO F)) :
    balance fo (a ++ b) = b.foldl (fun total x => fo.add total x.Amount) (balance fo a) := by
  simp [balance, List.foldl_append]

theorem balance_concat {F : Type} (fo : Float64 F) (a : List (UTXO F)) (x : UTXO F) :
    balance fo (a ++ [x]) = fo.add (balance fo a) x.Amount := by
  simp [balance_append]

theorem selectLoop_none {F : Type} (fo : Float64 F) (T : F) (pre rest : List (UTXO F))
    (h : ∀ k, k < rest.length → fo.lt T (balance fo (pre ++ rest.take (k + 1))) = false) :
    selectLoop fo T (pre ++ rest) rest pre.length (balance fo pre) = [] := by
  induction rest generalizing pre with
  | nil => rfl
  | cons x rest ih =>
    have h0 := h 0 (by simp)
    simp only [List.take_succ_cons, List.take_zero] at h0
    rw [balance_concat] at h0
    simp only [selectLoop, h0]
    have := ih (pre ++ [x]) (by
      intro k hk
      have := h (k + 1) (by simp; omega)
      simpa using this)
    simpa [balance_concat] using this

theorem selectLoop_crossing {F : Type} (fo : Float64 F) (T : F) (pre rest : List (UTXO F))
    (j : Nat) (hj : j < rest.length)
    (hcross : fo.lt T (balance fo (pre ++ rest.take (j + 1))) = true)
    (hleast : ∀ k, k < j → fo.lt T (balance fo (pre ++ rest.take (k + 1))) = false) :
    selectLoop fo T (pre ++ rest) rest pre.length (balance fo pre) = pre ++ rest.take j := by
  induction rest generalizing pre j with
  | nil => simp at hj
  | cons x rest ih =>
    cases j with
    | zero =>
      simp only [List.take_succ_cons, List.take_zero] at hcross
      rw [balance_concat] at hcross
      simp [selectLoop, hcross]
    | succ j =>
      have h0 := hleast 0 (by omega)
      simp only [List.take_succ_cons, List.take_zero] at h0
      rw [balance_concat] at h0
      simp only [selectLoop, h0]
      have := ih (pre ++ [x]) j (by simpa using hj) (by simpa using hcross) (by
        intro k hk
        have := hleast (k + 1) (by omega)
        simpa using this)
      simpa [balance_concat] using this

theorem selectLoop_not_above {F : Type} (fo : Float64 F) (T : F) (pre rest : List (UTXO F))
    (hpre : pre = [] ∨ fo.lt T (balance fo pre) = false) :
    selectLoop fo T (pre ++ rest) rest pre.length (balance fo pre) = [] ∨
      fo.lt T (balance fo
        (selectLoop fo T (pre ++ rest) rest pre.length (balance fo pre))) = false := by
  induction rest generalizing pre with
  | nil => exact Or.inl rfl
  | cons x rest ih =>
    cases hc : fo.lt T (fo.add (balance fo pre) x.Amount) with
    | true =>
      simp only [selectLoop, hc, if_true, List.take_left']
      rcases hpre with h | h
      · exact Or.inl h
      · exact Or.inr h
    | false =>
      have := ih (pre ++ [x]) (Or.inr (by rw [balance_concat]; exact hc))
      simp only [selectLoop, hc]
      simpa [balance_concat] using this

theorem exceeds_of_longer {F : Type} (fo : Float64 F) (T : F) (a b : List (UTXO F))
    (hmono : ∀ s c, fo.lt c fo.zero = false → fo.lt T s = true → fo.lt T (fo.add s c) = true)
    (hb : ∀ x ∈ b, fo.lt x.Amount fo.zero = false)
    (ha : fo.lt T (balance fo a) = true) : fo.lt T (balance fo (a ++ b)) = true := by
  induction b generalizing a with
  | nil => simpa using ha
  | cons x rest ih =>
    have h1 : fo.lt T (balance fo (a ++ [x])) = true := by
      rw [balance_concat]
      exact hmono _ _ (hb x (List.mem_cons_self _ _)) ha
    have := ih (a ++ [x]) (fun y hy => hb y (List.mem_cons_of_mem _ hy)) h1
    simpa using this

/-! ## Construction of the transaction -/

theorem exists_ok_of_toBool {α : Type} (r : Except String α) (h : r.toBool = true) :
    ∃ a, r = .ok a := by
  cases r with
  | error e => simp [Except.toBool] at h
  | ok a => exact ⟨a, rfl⟩

/-- C11, as stated, fails on a UTXO whose index is -1: the transaction is built and its
input refers to index 4294967295, the conversion of -1 to `uint32`. -/
theorem NewSpend_converts_the_index :
    exampleAddress = .ok exampleAddressValue ∧
    negativeVoutUtxos.map (fun x => x.Vout) = [-1] ∧
    (NewSpendFromMultiSigTransaction exampleLib wholeFloat64 exampleAddressValue
      negativeVoutUtxos exampleOutputs).map
        (fun tx => tx.baseTX.TxIn.map (fun ti => (ti.PreviousOutPoint.Index : Int))) =
      .ok [4294967295] := by
  decide

/-- C11, as amended: when the balance is not below the output total, every UTXO hash parses
and every destination decodes for the network of the address into a locking script,
`NewSpendFromMultiSigTransaction` succeeds; the transaction has one input per UTXO, in order,
on the parsed hash and on the index converted to `uint32` (the index itself when it lies in
`0 .. 2^32 - 1`), with no unlocking script, and one output per payment target, in order, with
the locking script of the destination and `int64(amount * 100000000)`. -/
theorem NewSpend_builds_inputs_and_outputs {F : Type} (lib : Btcd) (fo : Float64 F)
    (addr : MultiSigAddress) (utxos : List (UTXO F)) (outputs : List (Output F))
    (hbal : fo.lt (balance fo utxos) (totalInOutputSet fo outputs) = false)
    (hhash : ∀ x ∈ utxos, ∃ h, lib.NewHashFromStr x.Hash = .ok h)
    (haddr : ∀ x ∈ outputs, ∃ a s, lib.DecodeAddress x.Address addr.Network = .ok a ∧
      lib.PayToAddrScript a = .ok s) :
    ∃ tx, NewSpendFromMultiSigTransaction lib fo addr utxos outputs = .ok tx ∧
      tx.Address = addr ∧
      List.Forall₂ (fun x ti =>
        lib.NewHashFromStr x.Hash = .ok ti.PreviousOutPoint.Hash ∧
        (ti.PreviousOutPoint.Index : Int) = x.Vout % 4294967296 ∧
        (0 ≤ x.Vout → x.Vout < 4294967296 → (ti.PreviousOutPoint.Index : Int) = x.Vout) ∧
        ti.SignatureScript = []) utxos tx.baseTX.TxIn ∧
      List.Forall₂ (fun x txOut =>
        (∃ a, lib.DecodeAddress x.Address addr.Network = .ok a ∧
          lib.PayToAddrScript a = .ok txOut.PkScript) ∧
        txOut.Value = fo.toInt64 (fo.mul x.Amount (fo.ofNat 100000000))) outputs
        tx.baseTX.TxOut := by
  obtain ⟨tx, htx⟩ := NewSpend_succeeds lib fo addr utxos outputs hbal hhash haddr
  obtain ⟨-, -, -, hin, hout⟩ := NewSpend_of_ok lib fo addr utxos outputs tx htx
  refine ⟨tx, htx, (NewSpend_ok lib fo addr utxos outputs tx htx).1, ?_, ?_⟩
  · refine hin.imp ?_
    rintro x ti ⟨a1, a2, a3, -, -⟩
    exact ⟨a1, a2, fun h0 h1 => by rw [a2]; omega, a3⟩
  · refine hout.imp ?_
    rintro x txOut ⟨a1, a2⟩
    exact ⟨a1, a2⟩

/-- Witness of C11: the UTXO and the two outputs of `examples/main.go`. -/
theorem NewSpend_builds_inputs_and_outputs_witness :
    ∃ tx, NewSpendFromMultiSigTransaction exampleLib wholeFloat64 exampleAddressValue
        exampleUtxos exampleOutputs = .ok tx ∧
      tx.Address = exampleAddressValue ∧
      List.Forall₂ (fun x ti =>
        exampleLib.NewHashFromStr x.Hash = .ok ti.PreviousOutPoint.Hash ∧
        (ti.PreviousOutPoint.Index : Int) = x.Vout % 4294967296 ∧
        (0 ≤ x.Vout → x.Vout < 4294967296 → (ti.PreviousOutPoint.Index : Int) = x.Vout) ∧
        ti.SignatureScript = []) exampleUtxos tx.baseTX.TxIn ∧
      List.Forall₂ (fun x txOut =>
        (∃ a, exampleLib.DecodeAddress x.Address exampleAddressValue.Network = .ok a ∧
          exampleLib.PayToAddrScript a = .ok txOut.PkScript) ∧
        txOut.Value = wholeFloat64.toInt64 (wholeFloat64.mul x.Amount
          (wholeFloat64.ofNat 100000000))) exampleOutputs tx.baseTX.TxOut :=
  NewSpend_builds_inputs_and_outputs exampleLib wholeFloat64 exampleAddressValue exampleUtxos
    exampleOutputs (by decide)
    (fun x hx => by
      simp only [exampleUtxos, List.mem_singleton] at hx
      subst hx
      exact exists_ok_of_toBool _ (by decide))
    (fun x hx => by
      simp only [exampleOutputs, List.mem_cons, List.mem_singleton, List.mem_nil_iff,
        or_false] at hx
      rcases hx with hx | hx <;> subst hx <;> exact ⟨_, _, rfl, rfl⟩)

/-- C13: a transaction just built has every key of the address in its ledger as unsigned, so
`NumberOfSignaturesProvided` is 0; after any calls of `sign`, `Sign`, `SignWithWIF` and
`BuildScript` the keys of the ledger are pairwise distinct and are exactly the identities of
the keys of the address, every signed entry has as many signatures as the transaction has
inputs, and whatever calls follow, a signed entry stays in the ledger with the same
signatures. -/
theorem ledger_follows_the_key_set {F : Type} (lib : Btcd) (fo : Float64 F)
    (addr : MultiSigAddress) (utxos : List (UTXO F)) (outputs : List (Output F))
    (tx0 tx : SpendFromMultiSigTransaction) (calls : List Call)
    (hnew : NewSpendFromMultiSigTransaction lib fo addr utxos outputs = .ok tx0)
    (hrun : runCalls lib tx0 calls = some tx) :
    (∀ pk ∈ addr.publicKeys, mapGet tx0.signedCount pk.XString = some none) ∧
    tx0.NumberOfSignaturesProvided = 0 ∧
    tx.Address = addr ∧
    (ledgerKeys tx.signedCount).Nodup ∧
    (∀ id, id ∈ ledgerKeys tx.signedCount ↔ id ∈ tx.Address.publicKeys.map PublicKey.XString) ∧
    (∀ id x, mapGet tx.signedCount id = some (some x) → x.length = tx.baseTX.TxIn.length) ∧
    (∀ more t, runCalls lib tx more = some t →
      ∀ id x, mapGet tx.signedCount id = some (some x) →
        mapGet t.signedCount id = some (some x)) := by
  obtain ⟨n1, n2, n3, n4⟩ := NewSpend_ledger lib fo addr utxos outputs tx0 hnew
  obtain ⟨k1, k2, k3, k4, -⟩ := runCalls_keeps lib calls tx0 tx hrun
  have hfit0 : LedgerFits tx0 := by
    intro e he x hx
    rw [n2 e he] at hx
    cases hx
  refine ⟨?_, NumberOfSignaturesProvided_of_unsigned tx0 n2, k1.trans n1, by rw [k3]; exact n3,
    ?_, ?_, ?_⟩
  · intro pk hpk
    have hin : pk.XString ∈ ledgerKeys tx0.signedCount :=
      (n4 _).mpr (List.mem_map_of_mem _ hpk)
    obtain ⟨v, hv⟩ := (mem_ledgerKeys_iff _ _).mp hin
    have := n2 _ (mem_of_mapGet _ _ _ hv)
    simp only at this
    rw [hv, this]
  · intro id
    rw [k3, k1, n1]
    exact n4 id
  · intro id x hx
    exact k4 hfit0 _ (mem_of_mapGet _ _ _ hx) x rfl
  · intro more t hmore id x hx
    exact (runCalls_keeps lib more tx t hmore).2.2.2.2 id x hx

/-- Witness of C13: the transaction of `examples/main.go` and its calls. -/
theorem ledger_follows_the_key_set_witness :
    NewSpendFromMultiSigTransaction exampleLib wholeFloat64 exampleAddressValue exampleUtxos
      exampleOutputs = .ok tx0 ∧
    runCalls exampleLib tx0 exampleCalls0 = some tx3 ∧
    tx0.NumberOfSignaturesProvided = 0 ∧
    (ledgerKeys tx3.signedCount).Nodup ∧
    (∀ id, id ∈ ledgerKeys tx3.signedCount ↔
      id ∈ tx3.Address.publicKeys.map PublicKey.XString) ∧
    (∀ id x, mapGet tx3.signedCount id = some (some x) →
      x.length = tx3.baseTX.TxIn.length) :=
  ⟨by decide, by decide,
   (ledger_follows_the_key_set exampleLib wholeFloat64 exampleAddressValue exampleUtxos
     exampleOutputs tx0 tx3 exampleCalls0 (by decide) (by decide)).2.1,
   (ledger_follows_the_key_set exampleLib wholeFloat64 exampleAddressValue exampleUtxos
     exampleOutputs tx0 tx3 exampleCalls0 (by decide) (by decide)).2.2.2.1,
   (ledger_follows_the_key_set exampleLib wholeFloat64 exampleAddressValue exampleUtxos
     exampleOutputs tx0 tx3 exampleCalls0 (by decide) (by decide)).2.2.2.2.1,
   (ledger_follows_the_key_set exampleLib wholeFloat64 exampleAddressValue exampleUtxos
     exampleOutputs tx0 tx3 exampleCalls0 (by decide) (by decide)).2.2.2.2.2.1⟩

/-! ## Selection with the constructor -/

/-- C12, at the amounts 5, 3, 2 and one payment of 4: the UTXOs total 10 and the plain
constructor accepts them, yet the selecting constructor returns the not-enough-balance
error, because `selectUtxos` hands it the empty selection. -/
theorem selecting_constructor_fails_on_sufficient_funds :
    exampleAddress = .ok exampleAddressValue ∧
    wholeFloat64.lt (totalInOutputSet wholeFloat64 payFour) (balance wholeFloat64 threeUtxos) =
      true ∧
    (NewSpendFromMultiSigTransaction exampleLib wholeFloat64 exampleAddressValue threeUtxos
      payFour).toBool = true ∧
    selectUtxos wholeFloat64 insertionSorter threeUtxos payFour = [] ∧
    NewSpendFromMultiSigTransactionWithUtxoSelection exampleLib wholeFloat64 insertionSorter
      exampleAddressValue threeUtxos payFour =
        .error "not enough balance to create the transaction" := by
  decide

/-- C15: `selectUtxos` works on the UTXOs rearranged by amount, largest first; when `i` is
the least index at which the sum of the first `i + 1` amounts exceeds the output total it
returns the first `i` of them, without the one at `i`; when no index is such it returns the
empty selection, and so it does when the amounts are non-negative and the sum of all of them
does not exceed the total. -/
theorem selectUtxos_returns_what_precedes_the_crossing {F : Type} (fo : Float64 F)
    (srt : SliceSorter fo) (unspentInputs : List (UTXO F)) (outputs : List (Output F)) :
    (srt.sort unspentInputs).Perm unspentInputs ∧
    (srt.sort unspentInputs).Pairwise (fun a b => fo.lt a.Amount b.Amount = false) ∧
    (∀ i, i < (srt.sort unspentInputs).length →
      fo.lt (totalInOutputSet fo outputs)
        (balance fo ((srt.sort unspentInputs).take (i + 1))) = true →
      (∀ k, k < i → fo.lt (totalInOutputSet fo outputs)
        (balance fo ((srt.sort unspentInputs).take (k + 1))) = false) →
      selectUtxos fo srt unspentInputs outputs = (srt.sort unspentInputs).take i) ∧
    ((∀ k, k < (srt.sort unspentInputs).length → fo.lt (totalInOutputSet fo outputs)
        (balance fo ((srt.sort unspentInputs).take (k + 1))) = false) →
      selectUtxos fo srt unspentInputs outputs = []) ∧
    ((∀ x ∈ unspentInputs, fo.lt x.Amount fo.zero = false) →
      (∀ s c, fo.lt c fo.zero = false → fo.lt (totalInOutputSet fo outputs) s = true →
        fo.lt (totalInOutputSet fo outputs) (fo.add s c) = true) →
      fo.lt (totalInOutputSet fo outputs) (balance fo (srt.sort unspentInputs)) = false →
      selectUtxos fo srt unspentInputs outputs = []) := by
  refine ⟨srt.perm _, srt.sorted _, ?_, ?_, ?_⟩
  · intro i hi hcross hleast
    have := selectLoop_crossing fo (totalInOutputSet fo outputs) [] (srt.sort unspentInputs) i hi
      (by simpa using hcross) (by simpa using hleast)
    simpa [selectUtxos, balance] using this
  · intro hnone
    have := selectLoop_none fo (totalInOutputSet fo outputs) [] (srt.sort unspentInputs)
      (by simpa using hnone)
    simpa [selectUtxos, balance] using this
  · intro hnonneg hmono htotal
    have := selectLoop_none fo (totalInOutputSet fo outputs) [] (srt.sort unspentInputs) (by
      intro k hk
      cases hc : fo.lt (totalInOutputSet fo outputs)
          (balance fo ([] ++ (srt.sort unspentInputs).take (k + 1))) with
      | false => rfl
      | true =>
        have hex := exceeds_of_longer fo (totalInOutputSet fo outputs)
          ((srt.sort unspentInputs).take (k + 1)) ((srt.sort unspentInputs).drop (k + 1)) hmono
          (fun x hx => hnonneg x ((srt.perm _).mem_iff.mp (List.mem_of_mem_drop hx)))
          (by simpa using hc)
        rw [List.take_append_drop, htotal] at hex
        cases hex)
    simpa [selectUtxos, balance] using this

/-- Witness of C15: on the amounts 5, 3, 2 a payment of 8 is crossed at index 2 and the
first two UTXOs are returned; a payment of 20 is never crossed. -/
theorem selectUtxos_returns_what_precedes_the_crossing_witness :
    selectUtxos wholeFloat64 insertionSorter threeUtxos payEight =
      (insertionSorter.sort threeUtxos).take 2 ∧
    selectUtxos wholeFloat64 insertionSorter threeUtxos payEight = threeUtxos.take 2 ∧
    selectUtxos wholeFloat64 insertionSorter threeUtxos payTwenty = [] ∧
    selectUtxos wholeFloat64 insertionSorter threeUtxos payTwenty = [] :=
  ⟨(selectUtxos_returns_what_precedes_the_crossing wholeFloat64 insertionSorter threeUtxos
      payEight).2.2.1 2 (by decide) (by decide) (by decide),
   by decide,
   (selectUtxos_returns_what_precedes_the_crossing wholeFloat64 insertionSorter threeUtxos
      payTwenty).2.2.2.1 (by decide),
   (selectUtxos_returns_what_precedes_the_crossing wholeFloat64 insertionSorter threeUtxos
      payTwenty).2.2.2.2 (by decide)
      (by
        intro s c hc hs
        simp only [wholeFloat64, decide_eq_false_iff_not, decide_eq_true_eq] at hc hs ⊢
        omega)
      (by decide)⟩

/-- C17: with a positive output total, when the selecting constructor succeeds its inputs
are the selected UTXOs and their sum is neither above nor below the output total, hence
equal to it when two amounts that are not below one another are equal; and the constructor
returns the not-enough-balance error whenever the sum of the selection is below the total,
whatever the whole UTXO set amounts to. -/
theorem selection_spends_exactly_the_total {F : Type} (lib : Btcd) (fo : Float64 F)
    (srt : SliceSorter fo) (multisigAddress : MultiSigAddress) (utxos : List (UTXO F))
    (outputs : List (Output F))
    (hT : fo.lt fo.zero (totalInOutputSet fo outputs) = true) :
    (∀ tx, NewSpendFromMultiSigTransactionWithUtxoSelection lib fo srt multisigAddress utxos
        outputs = .ok tx →
      List.Forall₂ (inputOf lib) (selectUtxos fo srt utxos outputs) tx.baseTX.TxIn ∧
      fo.lt (totalInOutputSet fo outputs) (balance fo (selectUtxos fo srt utxos outputs)) =
        false ∧
      fo.lt (balance fo (selectUtxos fo srt utxos outputs)) (totalInOutputSet fo outputs) =
        false ∧
      ((∀ a b, fo.lt a b = false → fo.lt b a = false → a = b) →
        balance fo (selectUtxos fo srt utxos outputs) = totalInOutputSet fo outputs)) ∧
    (fo.lt (balance fo (selectUtxos fo srt utxos outputs)) (totalInOutputSet fo outputs) = true →
      NewSpendFromMultiSigTransactionWithUtxoSelection lib fo srt multisigAddress utxos outputs =
        .error "not enough balance to create the transaction") := by
  constructor
  · intro tx hok
    unfold NewSpendFromMultiSigTransactionWithUtxoSelection at hok
    obtain ⟨hbal, -, -, hin, -⟩ := NewSpend_of_ok lib fo multisigAddress _ outputs tx hok
    have habove : fo.lt (totalInOutputSet fo outputs)
        (balance fo (selectUtxos fo srt utxos outputs)) = false := by
      have h := selectLoop_not_above fo (totalInOutputSet fo outputs) []
        (srt.sort utxos) (Or.inl rfl)
      have hsel : selectUtxos fo srt utxos outputs =
          selectLoop fo (totalInOutputSet fo outputs) ([] ++ srt.sort utxos) (srt.sort utxos)
            ([] : List (UTXO F)).length (balance fo []) := by
        simp [selectUtxos, balance]
      rw [← hsel] at h
      rcases h with h | h
      · rw [h] at hbal
        simp only [balance, List.foldl_nil] at hbal
        rw [hT] at hbal
        cases hbal
      · exact h
    exact ⟨hin, habove, hbal, fun htri => htri _ _ hbal habove⟩
  · intro hlt
    unfold NewSpendFromMultiSigTransactionWithUtxoSelection
    simp [NewSpendFromMultiSigTransaction, hlt]

/-- Witness of C17: on the amounts 5, 3, 2 a payment of 8 selects 5 and 3 and succeeds; a
payment of 4 selects nothing and fails, although the set totals 10. -/
theorem selection_spends_exactly_the_total_witness :
    NewSpendFromMultiSigTransactionWithUtxoSelection exampleLib wholeFloat64 insertionSorter
      exampleAddressValue threeUtxos payEight = .ok selectedTx ∧
    balance wholeFloat64 (selectUtxos wholeFloat64 insertionSorter threeUtxos payEight) =
      totalInOutputSet wholeFloat64 payEight ∧
    selectedTx.baseTX.TxIn.length = 2 ∧
    wholeFloat64.lt (totalInOutputSet wholeFloat64 payFour) (balance wholeFloat64 threeUtxos) =
      true ∧
    NewSpendFromMultiSigTransactionWithUtxoSelection exampleLib wholeFloat64 insertionSorter
      exampleAddressValue threeUtxos payFour =
        .error "not enough balance to create the transaction" :=
  ⟨by decide,
   ((selection_spends_exactly_the_total exampleLib wholeFloat64 insertionSorter
      exampleAddressValue threeUtxos payEight (by decide)).1 selectedTx (by decide)).2.2.2
      (by
        intro a b hab hba
        simp only [wholeFloat64, decide_eq_false_iff_not] at hab hba
        omega),
   by decide, by decide,
   (selection_spends_exactly_the_total exampleLib wholeFloat64 insertionSorter
      exampleAddressValue threeUtxos payFour (by decide)).2 (by decide)⟩

/-! ## Frame and safety of the script assembly -/

/-- C18: whatever error `BuildScript` returns, the transaction it leaves has the same
ledger, the same address, the same previous-output references on its inputs and the same
outputs (the whole message but the unlocking scripts), so `isSigned` answers as before for
every key. -/
theorem BuildScript_changes_only_unlocking_scripts (tx t : SpendFromMultiSigTransaction)
    (outer : MapOrder) (inner : Nat → Nat → MapOrder) (e : Option String)
    (h : tx.BuildScript outer inner = .ret t e) :
    t.signedCount = tx.signedCount ∧ t.Address = tx.Address ∧
    t.baseTX.TxIn.map (fun ti => ti.PreviousOutPoint) =
      tx.baseTX.TxIn.map (fun ti => ti.PreviousOutPoint) ∧
    t.baseTX.TxOut = tx.baseTX.TxOut ∧
    withoutScripts t.baseTX = withoutScripts tx.baseTX ∧
    (∀ pubKey, t.isSigned pubKey = tx.isSigned pubKey) := by
  obtain ⟨f1, f2, -⟩ := BuildScript_frame tx t outer inner e h
  have f3 := BuildScript_withoutScripts tx t outer inner e h
  obtain ⟨f4, f5⟩ := previousOutPoints_of_withoutScripts _ _ f3
  refine ⟨f1, f2, f4, f5, f3, ?_⟩
  intro pubKey
  unfold SpendFromMultiSigTransaction.isSigned
  rw [f1]

/-- Witness of C18: the `BuildScript` of `examples/main.go`, and one below the threshold. -/
theorem BuildScript_changes_only_unlocking_scripts_witness :
    tx2.BuildScript storedOrder (fun _ _ => rotatedOrder) = .ret tx2Built none ∧
    tx2Built.baseTX ≠ tx2.baseTX ∧
    (tx2Built.signedCount = tx2.signedCount ∧ tx2Built.Address = tx2.Address ∧
      tx2Built.baseTX.TxIn.map (fun ti => ti.PreviousOutPoint) =
        tx2.baseTX.TxIn.map (fun ti => ti.PreviousOutPoint) ∧
      tx2Built.baseTX.TxOut = tx2.baseTX.TxOut ∧
      withoutScripts tx2Built.baseTX = withoutScripts tx2.baseTX ∧
      (∀ pubKey, tx2Built.isSigned pubKey = tx2.isSigned pubKey)) :=
  ⟨by decide, by decide,
   BuildScript_changes_only_unlocking_scripts tx2 tx2Built storedOrder
     (fun _ _ => rotatedOrder) none (by decide)⟩

/-- C19: for a transaction built by the constructor and changed by any calls,
`buildRespectiveInputScript` never stops on an index out of range; it returns an error and
the unchanged transaction when `inputIndex` is negative or not below the number of inputs;
and for an index in range every signed entry is longer than `inputIndex`, so
`x[inputIndex]` is defined. -/
theorem buildRespectiveInputScript_stays_in_range {F : Type} (lib : Btcd) (fo : Float64 F)
    (addr : MultiSigAddress) (utxos : List (UTXO F)) (outputs : List (Output F))
    (tx0 tx : SpendFromMultiSigTransaction) (calls : List Call)
    (hnew : NewSpendFromMultiSigTransaction lib fo addr utxos outputs = .ok tx0)
    (hrun : runCalls lib tx0 calls = some tx) (ord : MapOrder) (inputIndex : Int) :
    tx.buildRespectiveInputScript ord inputIndex ≠ .panic ∧
    ((inputIndex < 0 ∨ inputIndex ≥ (tx.baseTX.TxIn.length : Int)) →
      ∃ e, tx.buildRespectiveInputScript ord inputIndex = .ret tx (some e)) ∧
    (0 ≤ inputIndex → inputIndex < (tx.baseTX.TxIn.length : Int) →
      ∀ e ∈ tx.signedCount, ∀ x, e.2 = some x →
        inputIndex.toNat < x.length ∧ ∃ sig, x.get? inputIndex.toNat = some sig) := by
  obtain ⟨-, n2, -, -⟩ := NewSpend_ledger lib fo addr utxos outputs tx0 hnew
  have hfit0 : LedgerFits tx0 := by
    intro e he x hx
    rw [n2 e he] at hx
    cases hx
  have hfit : LedgerFits tx := (runCalls_keeps lib calls tx0 tx hrun).2.2.2.1 hfit0
  obtain ⟨d1, d2⟩ := buildRespectiveInputScript_defined tx ord inputIndex hfit
  refine ⟨d1, d2, ?_⟩
  intro h0 h1 e he x hx
  have hlt : inputIndex.toNat < x.length := by
    rw [hfit e he x hx]
    omega
  exact ⟨hlt, x[inputIndex.toNat], by simp [List.get?_eq_getElem?, hlt]⟩

/-- Witness of C19: the transaction of `examples/main.go` after its calls, at index 5. -/
theorem buildRespectiveInputScript_stays_in_range_witness :
    runCalls exampleLib tx0 exampleCalls0 = some tx3 ∧
    tx3.buildRespectiveInputScript rotatedOrder 5 = .ret tx3 (some "ivalid input index") ∧
    tx3.buildRespectiveInputScript rotatedOrder 0 ≠ .panic ∧
    (0 ≤ (0 : Int) → (0 : Int) < (tx3.baseTX.TxIn.length : Int) →
      ∀ e ∈ tx3.signedCount, ∀ x, e.2 = some x →
        (0 : Int).toNat < x.length ∧ ∃ sig, x.get? (0 : Int).toNat = some sig) :=
  ⟨by decide, by decide,
   (buildRespectiveInputScript_stays_in_range exampleLib wholeFloat64 exampleAddressValue
     exampleUtxos exampleOutputs tx0 tx3 exampleCalls0 (by decide) (by decide)
     rotatedOrder 0).1,
   (buildRespectiveInputScript_stays_in_range exampleLib wholeFloat64 exampleAddressValue
     exampleUtxos exampleOutputs tx0 tx3 exampleCalls0 (by decide) (by decide)
     rotatedOrder 0).2.2⟩

/-! ## Lemmas on the script assembly in any visiting order -/

theorem canonicalDataSize_eq (data : Bytes) :
    canonicalDataSize data = (pushData data).length := by
  unfold canonicalDataSize pushData
  simp only
  split_ifs <;> simp_all [littleEndian] <;> omega

theorem foldl_AddData_of_err (ds : List Bytes) (b : ScriptBuilder) (e : String)
    (hb : b.err = some e) : ds.foldl (fun b d => b.AddData d) b = b := by
  induction ds with
  | nil => rfl
  | cons d rest ih =>
    have h1 : b.AddData d = b := by
      unfold ScriptBuilder.AddData
      rw [hb]
    simp only [List.foldl_cons, h1, ih]

theorem foldl_AddData_iff (ds : List Bytes) (b : ScriptBuilder) (hb : b.err = none)
    (hlen : b.script.length ≤ MaxScriptSize) :
    ((ds.foldl (fun b d => b.AddData d) b).err = none ↔
      (∀ d ∈ ds, d.length ≤ MaxScriptElementSize) ∧
        b.script.length + (ds.map canonicalDataSize).sum ≤ MaxScriptSize) ∧
    ((ds.foldl (fun b d => b.AddData d) b).err = none →
      (ds.foldl (fun b d => b.AddData d) b).script = b.script ++ (ds.map pushData).flatten) := by
  induction ds generalizing b with
  | nil => simp [hb, hlen]
  | cons d rest ih =>
    simp only [List.foldl_cons, List.map_cons, List.sum_cons, List.mem_cons, forall_eq_or_imp,
      List.flatten_cons]
    by_cases h1 : b.script.length + canonicalDataSize d > MaxScriptSize
    · have hadd : b.AddData d = ⟨b.script, some ErrScriptNotCanonical⟩ := by
        unfold ScriptBuilder.AddData
        rw [hb]
        simp only
        rw [if_pos h1]
      rw [hadd, foldl_AddData_of_err rest _ ErrScriptNotCanonical rfl]
      constructor
      · constructor
        · intro h; cases h
        · rintro ⟨-, h⟩
          omega
      · intro h; cases h
    · by_cases h2 : d.length > MaxScriptElementSize
      · have hadd : b.AddData d = ⟨b.script, some ErrScriptNotCanonical⟩ := by
          unfold ScriptBuilder.AddData
          rw [hb]
          simp only
          rw [if_neg h1, if_pos h2]
        rw [hadd, foldl_AddData_of_err rest _ ErrScriptNotCanonical rfl]
        constructor
        · constructor
          · intro h; cases h
          · rintro ⟨⟨h, -⟩, -⟩
            omega
        · intro h; cases h
      · have hadd := AddData_ok b d hb (by omega) (by omega)
        have hl : (b.script ++ pushData d).length = b.script.length + canonicalDataSize d := by
          rw [canonicalDataSize_eq, List.length_append]
        obtain ⟨i1, i2⟩ := ih ⟨b.script ++ pushData d, none⟩ rfl (by simp only; omega)
        rw [hadd]
        simp only at i1 i2
        constructor
        · rw [i1, hl]
          constructor
          · rintro ⟨a1, a2⟩
            exact ⟨⟨by omega, a1⟩, by omega⟩
          · rintro ⟨⟨-, a1⟩, a2⟩
            exact ⟨a1, by omega⟩
        · intro h
          rw [i2 h, List.append_assoc]

theorem pushSignatures_eq_fold (inputIndex : Nat) (l : Ledger) (b : ScriptBuilder)
    (hl : ∀ e ∈ l, ∀ x, e.2 = some x → inputIndex < x.length) :
    pushSignatures inputIndex l b =
      some ((signaturesFor inputIndex l).foldl (fun b d => b.AddData d) b) := by
  induction l generalizing b with
  | nil => rfl
  | cons e rest ih =>
    obtain ⟨k, v⟩ := e
    have hrest : ∀ e ∈ rest, ∀ x, e.2 = some x → inputIndex < x.length :=
      fun e he => hl e (List.mem_cons_of_mem _ he)
    cases v with
    | none =>
      simp only [pushSignatures, signaturesFor]
      exact ih b hrest
    | some x =>
      have hlt := hl (k, some x) (List.mem_cons_self _ _) x rfl
      have hget : x.get? inputIndex = some (x.getD inputIndex []) := by
        simp [List.getD_eq_getElem?_getD, List.get?_eq_getElem?, hlt]
      simp only [pushSignatures, signaturesFor, hget, List.foldl_cons]
      exact ih _ hrest

theorem pushSignatures_some_lengths (inputIndex : Nat) (l : Ledger) (b b1 : ScriptBuilder)
    (h : pushSignatures inputIndex l b = some b1) :
    ∀ e ∈ l, ∀ x, e.2 = some x → inputIndex < x.length := by
  induction l generalizing b with
  | nil => intro e he; cases he
  | cons e0 rest ih =>
    obtain ⟨k, v⟩ := e0
    cases v with
    | none =>
      simp only [pushSignatures] at h
      intro e he x hx
      rcases List.mem_cons.mp he with h1 | h1
      · rw [h1] at hx
        cases hx
      · exact ih b h e h1 x hx
    | some y =>
      simp only [pushSignatures] at h
      cases hy : y.get? inputIndex with
      | none => rw [hy] at h; cases h
      | some sig =>
        rw [hy] at h
        intro e he x hx
        rcases List.mem_cons.mp he with h1 | h1
        · rw [h1] at hx
          simp only [Option.some.injEq] at hx
          subst hx
          rw [List.get?_eq_getElem?] at hy
          by_contra hge
          rw [List.getElem?_eq_none (by omega)] at hy
          cases hy
        · exact ih _ h e h1 x hx

theorem signaturesFor_eq_filterMap (inputIndex : Nat) (l : Ledger) :
    signaturesFor inputIndex l =
      l.filterMap (fun e => e.2.map (fun x => x.getD inputIndex [])) := by
  induction l with
  | nil => rfl
  | cons e rest ih =>
    obtain ⟨k, v⟩ := e
    cases v with
    | none => simp [signaturesFor, ih]
    | some x => simp [signaturesFor, ih]

theorem signaturesFor_perm (inputIndex : Nat) (l1 l2 : Ledger) (h : l1.Perm l2) :
    (signaturesFor inputIndex l1).Perm (signaturesFor inputIndex l2) := by
  rw [signaturesFor_eq_filterMap, signaturesFor_eq_filterMap]
  exact h.filterMap _

theorem assembled_builder (tx : SpendFromMultiSigTransaction) (ord : MapOrder) (i : Nat)
    (hl : ∀ e ∈ tx.signedCount, ∀ x, e.2 = some x → i < x.length) :
    ∃ fin : ScriptBuilder,
      (∀ sb, pushSignatures i (ord.visit tx.signedCount) (NewScriptBuilder.AddOp OP_FALSE) =
          some sb → sb.AddData tx.Address.redeemScript = fin) ∧
      (∃ sb, pushSignatures i (ord.visit tx.signedCount) (NewScriptBuilder.AddOp OP_FALSE) =
          some sb) ∧
      (fin.err = none ↔
        (∀ d ∈ signaturesFor i tx.signedCount ++ [tx.Address.redeemScript],
          d.length ≤ MaxScriptElementSize) ∧
        1 + ((signaturesFor i tx.signedCount ++ [tx.Address.redeemScript]).map
          canonicalDataSize).sum ≤ MaxScriptSize) ∧
      (fin.err = none → fin.script =
        unlockingScript (signaturesFor i (ord.visit tx.signedCount))
          tx.Address.redeemScript) := by
  have hb0 : NewScriptBuilder.AddOp OP_FALSE = ⟨[OP_0], none⟩ := by decide
  have hvis : ∀ e ∈ ord.visit tx.signedCount, ∀ x, e.2 = some x → i < x.length :=
    fun e he => hl e ((ord.perm tx.signedCount).mem_iff.mp he)
  have hpush := pushSignatures_eq_fold i (ord.visit tx.signedCount)
    (NewScriptBuilder.AddOp OP_FALSE) hvis
  obtain ⟨f1, f2⟩ := foldl_AddData_iff
    (signaturesFor i (ord.visit tx.signedCount) ++ [tx.Address.redeemScript])
    ⟨[OP_0], none⟩ rfl (by decide)
  have hperm : (signaturesFor i (ord.visit tx.signedCount) ++ [tx.Address.redeemScript]).Perm
      (signaturesFor i tx.signedCount ++ [tx.Address.redeemScript]) :=
    (signaturesFor_perm i _ _ (ord.perm tx.signedCount)).append_right _
  refine ⟨(signaturesFor i (ord.visit tx.signedCount) ++ [tx.Address.redeemScript]).foldl
    (fun b d => b.AddData d) ⟨[OP_0], none⟩, ?_, ⟨_, hpush⟩, ?_, ?_⟩
  · intro sb hsb
    rw [hpush] at hsb
    simp only [Option.some.injEq] at hsb
    rw [← hsb, hb0, List.foldl_append]
    rfl
  · rw [f1]
    simp only [List.length_singleton]
    rw [(hperm.map canonicalDataSize).sum_eq]
    constructor
    · rintro ⟨a1, a2⟩
      exact ⟨fun d hd => a1 d (hperm.mem_iff.mpr hd), a2⟩
    · rintro ⟨a1, a2⟩
      exact ⟨fun d hd => a1 d (hperm.mem_iff.mp hd), a2⟩
  · intro h
    rw [f2 h]
    simp [unlockingScript]

theorem CanAssemble_of_ok (tx t : SpendFromMultiSigTransaction) (ord : MapOrder) (i : Nat)
    (h : tx.buildRespectiveInputScript ord (i : Int) = .ret t none) : CanAssemble tx i := by
  unfold SpendFromMultiSigTransaction.buildRespectiveInputScript at h
  split at h
  · cases h
  · rename_i hcount
    split at h
    · cases h
    · rename_i hrange
      simp only [Int.toNat_ofNat] at h
      split at h
      · cases h
      · rename_i sb hpush
        have hl : ∀ e ∈ tx.signedCount, ∀ x, e.2 = some x → i < x.length :=
          fun e he => pushSignatures_some_lengths i _ _ sb hpush e
            ((ord.perm tx.signedCount).mem_iff.mpr he)
        obtain ⟨fin, g1, -, g3, -⟩ := assembled_builder tx ord i hl
        have hfin := g1 sb hpush
        rw [hfin] at h
        have herr : fin.err = none := by
          cases hfe : fin.err with
          | none => rfl
          | some e => simp [ScriptBuilder.Script, hfe] at h
        obtain ⟨a1, a2⟩ := g3.mp herr
        exact ⟨hcount, by omega, hl, a1, a2⟩

theorem buildRespectiveInputScript_of_CanAssemble (tx : SpendFromMultiSigTransaction)
    (ord : MapOrder) (i : Nat) (hc : CanAssemble tx i) :
    tx.buildRespectiveInputScript ord (i : Int) =
      .ret (withAssembledInput tx (ord.visit tx.signedCount) i) none := by
  obtain ⟨hcount, hi, hl, a1, a2⟩ := hc
  obtain ⟨fin, g1, ⟨sb, hsb⟩, g3, g4⟩ := assembled_builder tx ord i hl
  have herr : fin.err = none := g3.mpr ⟨a1, a2⟩
  have hfin := g1 sb hsb
  unfold SpendFromMultiSigTransaction.buildRespectiveInputScript
  rw [if_neg hcount, if_neg (by omega)]
  simp only [Int.toNat_ofNat, hsb, hfin, ScriptBuilder.Script, herr, g4 herr]
  rfl

theorem CanAssemble_congr (tx t : SpendFromMultiSigTransaction) (i : Nat)
    (h1 : t.signedCount = tx.signedCount) (h2 : t.Address = tx.Address)
    (h3 : t.baseTX.TxIn.length = tx.baseTX.TxIn.length) (hc : CanAssemble tx i) :
    CanAssemble t i := by
  unfold CanAssemble SpendFromMultiSigTransaction.NumberOfSignaturesProvided at *
  rw [h1, h2, h3]
  exact hc

theorem buildInputsLoop_CanAssemble (inner : Nat → MapOrder) (is : List Nat)
    (tx t : SpendFromMultiSigTransaction) (h : buildInputsLoop inner is tx = .ret t none) :
    ∀ i ∈ is, CanAssemble tx i := by
  induction is generalizing tx with
  | nil => intro i hi; cases hi
  | cons i0 rest ih =>
    simp only [buildInputsLoop] at h
    cases hb : tx.buildRespectiveInputScript (inner i0) (i0 : Int) with
    | panic => rw [hb] at h; cases h
    | ret t1 e =>
      rw [hb] at h
      cases e with
      | some msg => cases h
      | none =>
        simp only at h
        obtain ⟨f1, f2, f3⟩ := buildRespectiveInputScript_frame tx t1 _ _ none hb
        intro i hi
        rcases List.mem_cons.mp hi with h1 | h1
        · rw [h1]
          exact CanAssemble_of_ok tx t1 (inner i0) i0 hb
        · exact CanAssemble_congr t1 tx i f1.symm f2.symm f3.symm (ih t1 h i h1)

theorem buildEntriesLoop_CanAssemble (inner : Nat → Nat → MapOrder) (es : Ledger) (j : Nat)
    (tx t : SpendFromMultiSigTransaction) (h : buildEntriesLoop inner es j tx = .ret t none) :
    ∀ e ∈ es, ∀ x, e.2 = some x → ∀ i, i < x.length → CanAssemble tx i := by
  induction es generalizing tx j with
  | nil => intro e he; cases he
  | cons en rest ih =>
    obtain ⟨k, x0⟩ := en
    simp only [buildEntriesLoop] at h
    cases hb : buildInputsLoop (inner j) (List.range (x0.elim 0 List.length)) tx with
    | panic => rw [hb] at h; cases h
    | ret t1 e =>
      rw [hb] at h
      cases e with
      | some msg => cases h
      | none =>
        simp only at h
        obtain ⟨f1, f2, f3⟩ := buildInputsLoop_frame _ _ tx t1 none hb
        intro e he x hx i hi
        rcases List.mem_cons.mp he with h1 | h1
        · rw [h1] at hx
          simp only at hx
          subst hx
          exact buildInputsLoop_CanAssemble _ _ tx t1 hb i (List.mem_range.mpr (by simpa using hi))
        · exact CanAssemble_congr t1 tx i f1.symm f2.symm f3.symm (ih (j + 1) t1 h e h1 x hx i hi)

theorem buildInputsLoop_of_CanAssemble (inner : Nat → MapOrder) (is : List Nat)
    (tx : SpendFromMultiSigTransaction) (hc : ∀ i ∈ is, CanAssemble tx i) :
    ∃ t, buildInputsLoop inner is tx = .ret t none ∧
      t.signedCount = tx.signedCount ∧ t.Address = tx.Address ∧
      t.baseTX.TxIn.length = tx.baseTX.TxIn.length ∧
      (∀ i ∈ is, scriptAt t i = some (unlockingScript
        (signaturesFor i ((inner i).visit tx.signedCount)) tx.Address.redeemScript)) ∧
      (∀ i, i ∉ is → scriptAt t i = scriptAt tx i) := by
  induction is generalizing tx with
  | nil => exact ⟨tx, rfl, rfl, rfl, rfl, by simp, fun _ _ => rfl⟩
  | cons i rest ih =>
    have hci := hc i (List.mem_cons_self _ _)
    have hi : i < tx.baseTX.TxIn.length := hci.2.1
    have hstep := buildRespectiveInputScript_of_CanAssemble tx (inner i) i hci
    have hlen : (withAssembledInput tx ((inner i).visit tx.signedCount) i).baseTX.TxIn.length =
        tx.baseTX.TxIn.length := by
      simp [withAssembledInput, setSignatureScript]
    obtain ⟨t, r1, r2, r3, r4, r5, r6⟩ :=
      ih (withAssembledInput tx ((inner i).visit tx.signedCount) i)
        (fun j hj => CanAssemble_congr tx _ j rfl rfl hlen (hc j (List.mem_cons_of_mem _ hj)))
    refine ⟨t, ?_, r2, r3, r4.trans hlen, ?_, ?_⟩
    · simp only [buildInputsLoop, hstep]
      exact r1
    · intro j hj
      by_cases hjr : j ∈ rest
      · exact r5 j hjr
      · have hji : j = i := by
          rcases List.mem_cons.mp hj with h | h
          · exact h
          · exact absurd h hjr
        subst hji
        rw [r6 j hjr]
        exact scriptAt_withAssembledInput_self tx _ j hi
    · intro j hj
      have hjr : j ∉ rest := fun h => hj (List.mem_cons_of_mem _ h)
      have hji : i ≠ j := fun h => hj (h ▸ List.mem_cons_self _ _)
      rw [r6 j hjr]
      exact scriptAt_withAssembledInput_other tx _ i j hji

theorem buildEntriesLoop_of_CanAssemble (inner : Nat → Nat → MapOrder) (es : Ledger) (j : Nat)
    (tx : SpendFromMultiSigTransaction)
    (hc : ∀ e ∈ es, ∀ x, e.2 = some x → ∀ i, i < x.length → CanAssemble tx i) :
    ∃ t, buildEntriesLoop inner es j tx = .ret t none ∧
      t.signedCount = tx.signedCount ∧ t.Address = tx.Address ∧
      t.baseTX.TxIn.length = tx.baseTX.TxIn.length ∧
      ∀ i, scriptAt t i =
        match lastVisit i es j with
        | some j1 => some (unlockingScript
            (signaturesFor i ((inner j1 i).visit tx.signedCount)) tx.Address.redeemScript)
        | none => scriptAt tx i := by
  induction es generalizing tx j with
  | nil => exact ⟨tx, rfl, rfl, rfl, rfl, fun i => rfl⟩
  | cons en rest ih =>
    obtain ⟨k, x0⟩ := en
    have hc0 : ∀ i ∈ List.range (x0.elim 0 List.length), CanAssemble tx i := by
      intro i hi
      cases x0 with
      | none => simp at hi
      | some x => exact hc (k, some x) (List.mem_cons_self _ _) x rfl i (by simpa using hi)
    obtain ⟨t1, q1, q2, q3, q4, q5, q6⟩ := buildInputsLoop_of_CanAssemble (inner j) _ tx hc0
    obtain ⟨t, r1, r2, r3, r4, r5⟩ := ih (j + 1) t1 (fun e he x hx i hi =>
      CanAssemble_congr tx t1 i q2 q3 q4 (hc e (List.mem_cons_of_mem _ he) x hx i hi))
    refine ⟨t, ?_, r2.trans q2, r3.trans q3, r4.trans q4, ?_⟩
    · simp only [buildEntriesLoop, q1]
      exact r1
    · intro i
      rw [r5 i]
      simp only [lastVisit]
      cases hlv : lastVisit i rest (j + 1) with
      | some j1 => simp only [q2, q3]
      | none =>
        simp only
        by_cases hi : i < x0.elim 0 List.length
        · rw [if_pos hi]
          exact q5 i (List.mem_range.mpr hi)
        · rw [if_neg hi]
          exact q6 i (fun h => hi (List.mem_range.mp h))

/-! ## Lemmas on signing in turn -/

theorem signLoop_ok (lib : Btcd) (hsigns : SignsEvery lib) (tx : SpendFromMultiSigTransaction)
    (sigType : SigHashType) (privkey : PrivateKey) (is : List Nat) (sigs : List Bytes)
    (hlt : ∀ i ∈ is, i < tx.baseTX.TxIn.length) :
    (signLoop lib tx sigType privkey is sigs).2 = none := by
  induction is generalizing sigs with
  | nil => rfl
  | cons i rest ih =>
    obtain ⟨s, hs⟩ := hsigns tx.baseTX i tx.Address.redeemScript sigType privkey
      (hlt i (List.mem_cons_self _ _))
    simp only [signLoop, hs]
    exact ih _ (fun j hj => hlt j (List.mem_cons_of_mem _ hj))

theorem isSigned_of_mapGet_none (tx : SpendFromMultiSigTransaction) (pubKey : PublicKey)
    (h : mapGet tx.signedCount pubKey.XString = some none) : tx.isSigned pubKey = none := by
  unfold SpendFromMultiSigTransaction.isSigned
  rw [isSignedLoop_eq, h]

theorem sign_of_unsigned (lib : Btcd) (hsigns : SignsEvery lib)
    (tx : SpendFromMultiSigTransaction) (privkey : PrivateKey) (sigType : SigHashType)
    (h : mapGet tx.signedCount (lib.PubKey privkey).XString = some none) :
    (tx.sign lib privkey sigType).2 = none ∧
    ∃ sigs, (tx.sign lib privkey sigType).1 =
      ⟨tx.baseTX, tx.Address, mapSet tx.signedCount (lib.PubKey privkey).XString (some sigs)⟩ := by
  rw [sign_of_isSigned_ok lib tx privkey sigType (isSigned_of_mapGet_none tx _ h)]
  exact ⟨signLoop_ok lib hsigns tx sigType privkey _ _ (fun i hi => List.mem_range.mp hi),
    _, rfl⟩

theorem countP_mapSet_of_unsigned (m : Ledger) (k : String) (x : List Bytes)
    (h : mapGet m k = some none) :
    (mapSet m k (some x)).countP (fun y => y.2.isSome) =
      m.countP (fun y => y.2.isSome) + 1 := by
  induction m with
  | nil => simp [mapGet] at h
  | cons e rest ih =>
    obtain ⟨k0, v0⟩ := e
    by_cases h0 : k0 = k
    · subst h0
      simp only [mapGet, if_true, Option.some.injEq] at h
      subst h
      simp [mapSet]
    · simp only [mapGet, h0, if_false] at h
      simp only [mapSet, h0, if_false, List.countP_cons, ih h]
      omega

theorem NewSpend_unsigned {F : Type} (lib : Btcd) (fo : Float64 F) (addr : MultiSigAddress)
    (utxos : List (UTXO F)) (outputs : List (Output F)) (tx : SpendFromMultiSigTransaction)
    (h : NewSpendFromMultiSigTransaction lib fo addr utxos outputs = .ok tx) :
    ∀ pk ∈ addr.publicKeys, mapGet tx.signedCount pk.XString = some none := by
  obtain ⟨-, n2, -, n4⟩ := NewSpend_ledger lib fo addr utxos outputs tx h
  intro pk hpk
  have hin : pk.XString ∈ ledgerKeys tx.signedCount :=
    (n4 _).mpr (List.mem_map_of_mem _ hpk)
  obtain ⟨v, hv⟩ := (mem_ledgerKeys_iff _ _).mp hin
  have := n2 _ (mem_of_mapGet _ _ _ hv)
  simp only at this
  rw [hv, this]

theorem signInTurn_spec (lib : Btcd) (hsigns : SignsEvery lib)
    (signers : List (PrivateKey × SigHashType)) (tx : SpendFromMultiSigTransaction)
    (hr : Reachable lib tx)
    (hun : ∀ p ∈ signers, mapGet tx.signedCount (lib.PubKey p.1).XString = some none)
    (hnd : (signers.map (fun p => (lib.PubKey p.1).XString)).Nodup) :
    ∃ ta, signInTurn lib tx signers = some ta ∧ Reachable lib ta ∧
      ta.Address = tx.Address ∧
      ta.signedCount.countP (fun y => y.2.isSome) =
        tx.signedCount.countP (fun y => y.2.isSome) + signers.length ∧
      ∀ id, id ∉ signers.map (fun p => (lib.PubKey p.1).XString) →
        mapGet ta.signedCount id = mapGet tx.signedCount id := by
  induction signers generalizing tx with
  | nil => exact ⟨tx, rfl, hr, rfl, by simp, fun _ _ => rfl⟩
  | cons p rest ih =>
    have hp := hun p (List.mem_cons_self _ _)
    obtain ⟨e1, sigs, e2⟩ := sign_of_unsigned lib hsigns tx p.1 p.2 hp
    simp only [List.map_cons, List.nodup_cons] at hnd
    have hr1 : Reachable lib (tx.sign lib p.1 p.2).1 :=
      Reachable.call tx _ (.sign p.1 p.2) hr rfl
    have hun1 : ∀ q ∈ rest,
        mapGet (tx.sign lib p.1 p.2).1.signedCount (lib.PubKey q.1).XString = some none := by
      intro q hq
      rw [e2]
      have hne : (lib.PubKey q.1).XString ≠ (lib.PubKey p.1).XString := by
        intro heq
        exact hnd.1 (heq ▸ List.mem_map_of_mem (fun p => (lib.PubKey p.1).XString) hq)
      show mapGet (mapSet _ _ _) _ = _
      rw [mapGet_mapSet_other _ _ _ _ hne]
      exact hun q (List.mem_cons_of_mem _ hq)
    obtain ⟨ta, i1, i2, i3, i4, i5⟩ := ih _ hr1 hun1 hnd.2
    refine ⟨ta, ?_, i2, ?_, ?_, ?_⟩
    · simp only [signInTurn, e1]
      exact i1
    · rw [i3, e2]
    · rw [i4, e2]
      show (mapSet _ _ _).countP _ + _ = _
      rw [countP_mapSet_of_unsigned _ _ _ hp]
      simp only [List.length_cons]
      omega
    · intro id hid
      simp only [List.map_cons, List.mem_cons, not_or] at hid
      rw [i5 id hid.2, e2]
      show mapGet (mapSet _ _ _) _ = _
      exact mapGet_mapSet_other _ _ _ _ hid.1

/-! ## Signing up to the threshold -/

/-- C14, as stated, fails on two addresses the constructor accepts. On the 2-of-2 address
made of twice `pubKey1`, the private key of the second position is the one of the first:
its `Sign` is refused as already signed and `BuildScript` stays below the threshold. On the
1-of-16 address one signature meets the threshold and `BuildScript` returns the error of the
script builder. -/
theorem signing_any_positions_can_fail :
    NewMultiSigAddress exampleLib BTC_TESNET 2 [pubKey1Hex, pubKey1Hex] = .ok dupAddress ∧
    dupAddress.publicKeys = [pubKey1, pubKey1] ∧ exampleLib.PubKey privKey1 = pubKey1 ∧
    NewSpendFromMultiSigTransaction exampleLib wholeFloat64 dupAddress exampleUtxos
      exampleOutputs = .ok dupTx0 ∧
    dupTx0.Sign exampleLib privKey1Hex SigHashAll = (dupTx1, none) ∧
    dupTx1.Sign exampleLib privKey1Hex SigHashAll =
      (dupTx1, some "the transaction has already been signed with that private key") ∧
    dupTx1.BuildScript storedOrder (fun _ _ => storedOrder) =
      .ret dupTx1 (some "missing signatures, got 1 of 2 required") ∧
    NewMultiSigAddress exampleLib BTC_TESNET 1 (List.replicate 16 pubKey1Hex) =
      .ok wideAddress ∧
    NewSpendFromMultiSigTransaction exampleLib wholeFloat64 wideAddress exampleUtxos
      exampleOutputs = .ok wideTx0 ∧
    wideTx0.Sign exampleLib privKey1Hex SigHashAll = (wideTx1, none) ∧
    wideTx1.BuildScript storedOrder (fun _ _ => rotatedOrder) =
      .ret wideTx1 (some ErrScriptNotCanonical) := by
  decide!

/-- C14, as amended: for an address accepted by `NewMultiSigAddress` with at most 15 keys, a
transaction just built from it and a signer that signs every input with at most 73 bytes,
signing in turn with at least `signaturesRequired` private keys whose public keys are in the
key set and have pairwise different X coordinates returns no error each time, `BuildScript`
then returns no error, and `sign` with any further key of the key set whose X coordinate is
none of the signers' still returns no error. -/
theorem signing_to_the_threshold {F : Type} (lib : Btcd) (fo : Float64 F) (net : Params)
    (signaturesRequired : Int) (strPubKeys : List String) (addr : MultiSigAddress)
    (utxos : List (UTXO F)) (outputs : List (Output F)) (tx0 : SpendFromMultiSigTransaction)
    (signers : List (PrivateKey × SigHashType)) (outer : MapOrder)
    (inner : Nat → Nat → MapOrder)
    (hsigns : SignsEvery lib) (hsize : SignsWithin 73 lib)
    (haddr : NewMultiSigAddress lib net signaturesRequired strPubKeys = .ok addr)
    (hnew : NewSpendFromMultiSigTransaction lib fo addr utxos outputs = .ok tx0)
    (hkeys : addr.publicKeys.length ≤ 15)
    (hmem : ∀ p ∈ signers, lib.PubKey p.1 ∈ addr.publicKeys)
    (hnd : (signers.map (fun p => (lib.PubKey p.1).XString)).Nodup)
    (hlen : addr.signaturesRequired ≤ (signers.length : Int)) :
    ∃ ta tb, signInTurn lib tx0 signers = some ta ∧
      ta.BuildScript outer inner = .ret tb none ∧
      ∀ (privkey : PrivateKey) (sigType : SigHashType),
        lib.PubKey privkey ∈ addr.publicKeys →
        (lib.PubKey privkey).XString ∉ signers.map (fun p => (lib.PubKey p.1).XString) →
        (tb.sign lib privkey sigType).2 = none := by
  have hr0 : Reachable lib tx0 :=
    Reachable.new fo net signaturesRequired strPubKeys addr utxos outputs tx0 haddr hnew
  have hun0 := NewSpend_unsigned lib fo addr utxos outputs tx0 hnew
  have haddr0 : tx0.Address = addr := (NewSpend_ok lib fo addr utxos outputs tx0 hnew).1
  obtain ⟨ta, a1, a2, a3, a4, a5⟩ := signInTurn_spec lib hsigns signers tx0 hr0
    (fun p hp => hun0 _ (hmem p hp)) hnd
  obtain ⟨⟨w1, w2, w3, w4, w5⟩, hsig⟩ := Reachable_invariants 73 lib hsize ta a2
  have haddra : ta.Address = addr := a3.trans haddr0
  have hcount : ta.Address.signaturesRequired ≤ ta.NumberOfSignaturesProvided := by
    rw [NumberOfSignaturesProvided_eq, a4, haddra]
    push_cast
    omega
  have hk : ta.Address.publicKeys.length ≤ 15 := by
    rw [haddra]
    exact hkeys
  have hg : Assemblable ta :=
    ⟨hcount, fun e he x hx => ⟨w4 e he x hx, hsig e he x hx⟩, by omega,
      by simp only [MaxScriptElementSize]; omega⟩
  obtain ⟨tb, r1, r2, -, -, -⟩ := BuildScript_ok ta outer inner hg w1
  refine ⟨ta, tb, a1, r1, ?_⟩
  intro privkey sigType hk hnot
  have hget : mapGet tb.signedCount (lib.PubKey privkey).XString = some none := by
    rw [r2, a5 _ hnot]
    exact hun0 _ hk
  exact (sign_of_unsigned lib hsigns tb privkey sigType hget).1

/-- Witness of C14: the 2-of-3 address and the two signers of `examples/main.go`. -/
theorem signing_to_the_threshold_witness :
    signInTurn exampleLib tx0 exampleSigners = some tx2 ∧
    ∃ ta tb, signInTurn exampleLib tx0 exampleSigners = some ta ∧
      ta.BuildScript storedOrder (fun _ _ => rotatedOrder) = .ret tb none ∧
      ∀ (privkey : PrivateKey) (sigType : SigHashType),
        exampleLib.PubKey privkey ∈ exampleAddressValue.publicKeys →
        (exampleLib.PubKey privkey).XString ∉
          exampleSigners.map (fun p => (exampleLib.PubKey p.1).XString) →
        (tb.sign exampleLib privkey sigType).2 = none :=
  ⟨by decide,
   signing_to_the_threshold exampleLib wholeFloat64 BTC_TESNET 2
    [pubKey1Hex, pubKey2Hex, pubKey3Hex] exampleAddressValue exampleUtxos exampleOutputs tx0
    exampleSigners storedOrder (fun _ _ => rotatedOrder)
    (by
      intro msg idx subScript hashType key h
      exact ⟨_, if_pos h⟩)
    (by
      intro msg idx subScript hashType key s h
      simp only [exampleLib] at h
      split at h
      · simp only [Except.ok.injEq] at h
        rw [← h]
        simp
      · cases h)
    (by decide) (by decide) (by decide) (by decide) (by decide) (by decide)⟩

/-! ## Repeated script assembly -/

/-- C16, as stated, fails on the transaction of `examples/main.go` after its two signatures:
a first `BuildScript` visits the ledger in the stored order, a second one, with no signature
in between, visits it from the second entry and leaves the two signatures of input 0 in the
other order. -/
theorem BuildScript_again_reorders_signatures :
    tx2.BuildScript storedOrder (fun _ _ => storedOrder) = .ret tx2First none ∧
    tx2First.signedCount = tx2.signedCount ∧
    tx2First.BuildScript storedOrder (fun _ _ => rotatedOrder) = .ret tx2Second none ∧
    scriptAt tx2First 0 = some (unlockingScript
      [[0x30, 0, privKey1 % 256, 1], [0x30, 0, privKey2 % 256, 1]] tx2.Address.redeemScript) ∧
    scriptAt tx2Second 0 = some (unlockingScript
      [[0x30, 0, privKey2 % 256, 1], [0x30, 0, privKey1 % 256, 1]] tx2.Address.redeemScript) ∧
    scriptAt tx2Second 0 ≠ scriptAt tx2First 0 := by
  decide

/-- C16, as amended: after a `BuildScript` that returned no error, a second `BuildScript`
with no call in between returns no error whatever order it visits the ledger in, and when
its loops visit the ledger in the order of the first call every unlocking script is what the
first call left. -/
theorem BuildScript_again_succeeds (tx t1 : SpendFromMultiSigTransaction) (outer : MapOrder)
    (inner : Nat → Nat → MapOrder) (h : tx.BuildScript outer inner = .ret t1 none) :
    (∀ (outer2 : MapOrder) (inner2 : Nat → Nat → MapOrder),
      ∃ t2, t1.BuildScript outer2 inner2 = .ret t2 none) ∧
    (∀ (outer2 : MapOrder) (inner2 : Nat → Nat → MapOrder),
      outer2.visit tx.signedCount = outer.visit tx.signedCount →
      (∀ j i, (inner2 j i).visit tx.signedCount = (inner j i).visit tx.signedCount) →
      ∃ t2, t1.BuildScript outer2 inner2 = .ret t2 none ∧
        ∀ i, scriptAt t2 i = scriptAt t1 i) := by
  have hframe := BuildScript_frame tx t1 outer inner none h
  obtain ⟨f1, f2, f3⟩ := hframe
  unfold SpendFromMultiSigTransaction.BuildScript at h
  split at h
  · cases h
  · rename_i hcount
    have hc := buildEntriesLoop_CanAssemble inner _ 0 tx t1 h
    have hc1 : ∀ (outer2 : MapOrder), ∀ e ∈ outer2.visit t1.signedCount, ∀ x, e.2 = some x →
        ∀ i, i < x.length → CanAssemble t1 i := by
      intro outer2 e he x hx i hi
      rw [f1] at he
      have he1 : e ∈ outer.visit tx.signedCount :=
        (outer.perm _).mem_iff.mpr ((outer2.perm _).mem_iff.mp he)
      exact CanAssemble_congr tx t1 i f1 f2 f3 (hc e he1 x hx i hi)
    have hcount1 : ¬ t1.NumberOfSignaturesProvided < t1.Address.signaturesRequired := by
      unfold SpendFromMultiSigTransaction.NumberOfSignaturesProvided at hcount ⊢
      rw [f1, f2]
      exact hcount
    constructor
    · intro outer2 inner2
      obtain ⟨t2, r1, -⟩ := buildEntriesLoop_of_CanAssemble inner2 _ 0 t1 (hc1 outer2)
      refine ⟨t2, ?_⟩
      unfold SpendFromMultiSigTransaction.BuildScript
      rw [if_neg hcount1]
      exact r1
    · intro outer2 inner2 ho hi
      obtain ⟨t2, r1, -, -, -, r5⟩ := buildEntriesLoop_of_CanAssemble inner2 _ 0 t1 (hc1 outer2)
      obtain ⟨t, s1, -, -, -, s5⟩ := buildEntriesLoop_of_CanAssemble inner _ 0 tx hc
      have ht : t = t1 := by
        rw [s1] at h
        simp only [Run.ret.injEq, and_true] at h
        exact h
      subst ht
      refine ⟨t2, ?_, ?_⟩
      · unfold SpendFromMultiSigTransaction.BuildScript
        rw [if_neg hcount1]
        exact r1
      · intro i
        rw [r5 i, f1, f2, ho]
        have hs := s5 i
        cases hlv : lastVisit i (outer.visit tx.signedCount) 0 with
        | some j1 =>
          rw [hlv] at hs
          simp only at hs ⊢
          rw [hs, hi]
        | none => rfl

/-- Witness of C16: the transaction of `examples/main.go` after its two signatures. -/
theorem BuildScript_again_succeeds_witness :
    tx2.BuildScript storedOrder (fun _ _ => storedOrder) = .ret tx2First none ∧
    (∃ t2, tx2First.BuildScript storedOrder (fun _ _ => rotatedOrder) = .ret t2 none) ∧
    (∃ t2, tx2First.BuildScript storedOrder (fun _ _ => storedOrder) = .ret t2 none ∧
      ∀ i, scriptAt t2 i = scriptAt tx2First i) :=
  ⟨by decide,
   (BuildScript_again_succeeds tx2 tx2First storedOrder (fun _ _ => storedOrder)
     (by decide)).1 storedOrder (fun _ _ => rotatedOrder),
   (BuildScript_again_succeeds tx2 tx2First storedOrder (fun _ _ => storedOrder)
     (by decide)).2 storedOrder (fun _ _ => storedOrder) rfl (fun _ _ => rfl)⟩

end BtcMultisig
